import Mathlib

/-! The BASIC interpreter of `lab2/Basic`: program store, statements and run loop.

A shallow embedding of `program.h`, `program.cpp`, `statement.cpp` and the
statement part of `Basic.cpp`.

* `std::set<clause>` is a list kept strictly ascending by `clause::operator <`;
  an iterator is an index into that list and `S.end()` is its length.
* `error(msg)` throws; a throwing call yields `Status.error msg` together with
  the state reached when it threw.
* The token scanner, the expression parser and `stringToInteger` live in files
  that are not among the sources. They are the fields of `Lib`, and every
  definition that calls them takes a `Lib`; theorems hold for every `Lib`.
-/

namespace Basic

/-! ## Expressions and the evaluation state -/

/-- Modelled from the spec: the operators of a binary operator node of `exp.h`
(`+`, `-`, `*`, `/`). -/
inductive Operator where
  | plus
  | minus
  | times
  | divide
  deriving DecidableEq, Repr

/-- Modelled from the spec: `exp.h` is not among the sources. An expression is a
tree: a constant integer, a variable reference, or a binary operator node
(`+`, `-`, `*`, `/`) with two children. -/
inductive Expression where
  | ConstantExp (value : Int)
  | IdentifierExp (name : String)
  | CompoundExp (op : Operator) (lhs rhs : Expression)
  deriving DecidableEq, Repr

/-- Modelled from the spec: `evalstate.h` is not among the sources. The bindings
are a mapping from variable names to integers; the run loop keeps its control
flags (`GOTO_DONE`, `GOTO_TAG`, `PROGRAM_END_TAG`) in the same mapping. -/
abbrev EvalState := List (String × Int)

/-- Modelled from the spec: `set(name, value)` of `evalstate.h`: binds `var`,
replacing an earlier binding of the same name. -/
def EvalState.setValue : EvalState → String → Int → EvalState
  | [], var, value => [(var, value)]
  | (k, x) :: rest, var, value =>
    if k = var then (k, value) :: rest else (k, x) :: EvalState.setValue rest var value

/-- Modelled from the spec: `get(name) -> integer | fails(UndefinedVariable)` of
`evalstate.h`. -/
def EvalState.getValue : EvalState → String → Except String Int
  | [], _ => .error "UndefinedVariable"
  | (k, x) :: rest, var => if k = var then .ok x else EvalState.getValue rest var

/-- Modelled from the spec: `evaluate(expr, state)` of `exp.h`: constants return
their value, a variable reference looks up the bindings and fails with
`UndefinedVariable` when absent, a binary operator evaluates the left child,
then the right child, and applies the operator; division by zero fails with
`DivisionByZero`. -/
def Expression.eval : Expression → EvalState → Except String Int
  | .ConstantExp value, _ => .ok value
  | .IdentifierExp name, state => state.getValue name
  | .CompoundExp op lhs rhs, state =>
    match lhs.eval state with
    | .error e => .error e
    | .ok l =>
      match rhs.eval state with
      | .error e => .error e
      | .ok r =>
        match op with
        | .plus => .ok (l + r)
        | .minus => .ok (l - r)
        | .times => .ok (l * r)
        | .divide => if r = 0 then .error "DivisionByZero" else .ok (Int.tdiv l r)

/-! ## The external library -/

/-- Modelled from the spec: the token kinds of the tokenizer's
`peekType(text) -> {Word, Number, Operator, End}`, under the names
`statement.cpp` uses for them. -/
inductive TokenType where
  | WORD
  | NUMBER
  | OPERATOR
  | EOF
  deriving DecidableEq, Repr

/-- A token scanner that ignores whitespace and scans numbers, seen as the list
of the tokens it has still to deliver (saved tokens first). -/
abbrev TokenScanner := List String

/-- The functions of `tokenscanner.h`, `strlib.h` and `parser.h` that the
sources call but do not define. -/
structure Lib where
  /-- The scanner state after `setInput(line)`: the tokens of `line`. -/
  setInput : String → TokenScanner
  /-- The member `getTokenType(token)`. -/
  getTokenType : String → TokenType
  /-- The function `stringToInteger(str)`, which throws on a malformed number. -/
  stringToInteger : String → Except String Int
  /-- The function `parseExp(scanner)`: the expression read and the scanner
  state it leaves, or the error it throws. -/
  parseExp : TokenScanner → Except String (Expression × TokenScanner)
  /-- The empty string, which `nextToken()` delivers at the end of the input,
  has the token type `EOF`. -/
  getTokenType_empty : getTokenType "" = TokenType.EOF

/-- The member `nextToken()`: the next token and the scanner state after it; the
empty string when no token is left. -/
def TokenScanner.nextToken : TokenScanner → String × TokenScanner
  | [] => ("", [])
  | t :: ts => (t, ts)

/-- The member `saveToken(token)`: `token` is delivered again by the next
`nextToken()`. -/
def TokenScanner.saveToken (scanner : TokenScanner) (token : String) : TokenScanner :=
  token :: scanner

/-- The member `hasMoreTokens()`: whether `nextToken()` would deliver a token
other than the empty string. -/
def TokenScanner.hasMoreTokens (scanner : TokenScanner) : Bool :=
  scanner.nextToken.1 != ""

/-! ### A concrete library

The properties below hold for every `Lib`. To run the embedding on program
text, `Lib.standard` supplies a tokenizer and an expression parser written from
the description the spec gives of them. -/

deriving instance DecidableEq for Except

/-- Modelled from the spec: the tokenizer of `tokenscanner.h` (whitespace
ignored, numbers scanned), which turns a raw text line into its tokens: a word
is a letter followed by letters and digits, a number is a run of digits, any
other character is an operator token of its own. At most `fuel` tokens. -/
def standard.scanTokens : Nat → List Char → List String
  | 0, _ => []
  | _, [] => []
  | fuel + 1, c :: cs =>
    if c.isWhitespace then standard.scanTokens fuel cs
    else if c.isDigit then
      String.mk (c :: cs.takeWhile Char.isDigit) ::
        standard.scanTokens fuel (cs.dropWhile Char.isDigit)
    else if c.isAlpha then
      String.mk (c :: cs.takeWhile Char.isAlphanum) ::
        standard.scanTokens fuel (cs.dropWhile Char.isAlphanum)
    else String.mk [c] :: standard.scanTokens fuel cs

/-- Modelled from the spec: `peekType(text)` of the tokenizer: the kind of a
token, told from its first character; the empty text is the end of the input. -/
def standard.getTokenType (token : String) : TokenType :=
  match token.data with
  | [] => .EOF
  | c :: _ => if c.isDigit then .NUMBER else if c.isAlpha then .WORD else .OPERATOR

/-- The value of a run of decimal digits read after `acc`; none when a character
is not a digit. -/
def standard.digitsValue : List Char → Nat → Option Nat
  | [], acc => some acc
  | c :: cs, acc =>
    if c.isDigit then standard.digitsValue cs (acc * 10 + (c.toNat - '0'.toNat)) else none

/-- Modelled from the spec: `stringToInteger` of `strlib.h`, which parses a text
as an integer (digits, with an optional leading minus sign) and fails on
anything else. -/
def standard.stringToInteger (str : String) : Except String Int :=
  match str.data with
  | [] => .error "SYNTAX ERROR"
  | c :: cs =>
    if c = '-' then
      match cs with
      | [] => .error "SYNTAX ERROR"
      | _ :: _ =>
        match standard.digitsValue cs 0 with
        | some v => .ok (-(v : Int))
        | none => .error "SYNTAX ERROR"
    else
      match standard.digitsValue (c :: cs) 0 with
      | some v => .ok (v : Int)
      | none => .error "SYNTAX ERROR"

mutual
/-- Modelled from the spec: the highest level of the grammar of `parser.h`:
a number, a variable, a parenthesised expression, or a unary minus. -/
def standard.readF : Nat → TokenScanner → Except String (Expression × TokenScanner)
  | 0, _ => .error "SYNTAX ERROR"
  | _ + 1, [] => .error "SYNTAX ERROR"
  | fuel + 1, t :: ts =>
    if t = "(" then
      match standard.readE fuel ts with
      | .ok (e, r :: rest) => if r = ")" then .ok (e, rest) else .error "SYNTAX ERROR"
      | _ => .error "SYNTAX ERROR"
    else if t = "-" then
      match standard.readF fuel ts with
      | .ok (e, rest) => .ok (.CompoundExp .minus (.ConstantExp 0) e, rest)
      | .error e => .error e
    else
      match standard.getTokenType t with
      | .NUMBER =>
        match standard.stringToInteger t with
        | .ok v => .ok (.ConstantExp v, ts)
        | .error e => .error e
      | .WORD => .ok (.IdentifierExp t, ts)
      | _ => .error "SYNTAX ERROR"
/-- Modelled from the spec: the operators `*` and `/` of the grammar of
`parser.h`, read left to right after the operand `lhs`. -/
def standard.restT : Nat → Expression → TokenScanner → Except String (Expression × TokenScanner)
  | 0, _, _ => .error "SYNTAX ERROR"
  | _ + 1, lhs, [] => .ok (lhs, [])
  | fuel + 1, lhs, t :: ts =>
    if t = "*" then
      match standard.readF fuel ts with
      | .ok (rhs, rest) => standard.restT fuel (.CompoundExp .times lhs rhs) rest
      | .error e => .error e
    else if t = "/" then
      match standard.readF fuel ts with
      | .ok (rhs, rest) => standard.restT fuel (.CompoundExp .divide lhs rhs) rest
      | .error e => .error e
    else .ok (lhs, t :: ts)
/-- Modelled from the spec: the level of `*` and `/` of the grammar of
`parser.h`. -/
def standard.readT : Nat → TokenScanner → Except String (Expression × TokenScanner)
  | 0, _ => .error "SYNTAX ERROR"
  | fuel + 1, ts =>
    match standard.readF fuel ts with
    | .ok (lhs, rest) => standard.restT fuel lhs rest
    | .error e => .error e
/-- Modelled from the spec: the operators `+` and `-` of the grammar of
`parser.h`, read left to right after the operand `lhs`. -/
def standard.restE : Nat → Expression → TokenScanner → Except String (Expression × TokenScanner)
  | 0, _, _ => .error "SYNTAX ERROR"
  | _ + 1, lhs, [] => .ok (lhs, [])
  | fuel + 1, lhs, t :: ts =>
    if t = "+" then
      match standard.readT fuel ts with
      | .ok (rhs, rest) => standard.restE fuel (.CompoundExp .plus lhs rhs) rest
      | .error e => .error e
    else if t = "-" then
      match standard.readT fuel ts with
      | .ok (rhs, rest) => standard.restE fuel (.CompoundExp .minus lhs rhs) rest
      | .error e => .error e
    else .ok (lhs, t :: ts)
/-- Modelled from the spec: the lowest level (`+`, `-`) of the grammar of
`parser.h`. -/
def standard.readE : Nat → TokenScanner → Except String (Expression × TokenScanner)
  | 0, _ => .error "SYNTAX ERROR"
  | fuel + 1, ts =>
    match standard.readT fuel ts with
    | .ok (lhs, rest) => standard.restE fuel lhs rest
    | .error e => .error e
end

/-- Modelled from the spec: `parseExpression(tokens)` of `parser.h`, which fails
with `SyntaxError` on malformed input, unconsumed trailing tokens at top level
included. The recursion depth is bounded by the number of tokens. -/
def standard.parseExp (scanner : TokenScanner) : Except String (Expression × TokenScanner) :=
  match standard.readE (4 * scanner.length + 4) scanner with
  | .ok (exp, []) => .ok (exp, [])
  | .ok (_, _ :: _) => .error "SYNTAX ERROR"
  | .error e => .error e

/-- Modelled from the spec: the tokenizer, the number conversion and the
expression parser that the sources take from the library. -/
def Lib.standard : Lib where
  setInput := fun line => standard.scanTokens line.data.length line.data
  getTokenType := standard.getTokenType
  stringToInteger := standard.stringToInteger
  parseExp := standard.parseExp
  getTokenType_empty := rfl

/-! ## Statements (`statement.h`, `statement.cpp`) -/

/-- The six subclasses of `Statement` with their private members. -/
inductive Statement where
  | LET_Sta (varName : String) (exp : Expression)
  | PRINT_Sta (exp : Expression)
  | INPUT_Sta (varName : String)
  | END_Sta
  | GOTO_Sta (lineNumber : Int)
  | IF_Sta (op : Char) (lhs rhs : Expression) (lineNumber : Int)
  deriving DecidableEq, Repr

/-- How a call ended: it returned, it threw `error(msg)`, it never returns
(`INPUT` asking again and again once the input is used up), or it did something
C++ gives no meaning to (`undefined`: an `end()` iterator dereferenced). -/
inductive Status where
  | ok
  | error (msg : String)
  | blocked
  | undefined
  deriving DecidableEq, Repr

/-- What statements act on: the `EvalState`, the words still to be read from
`cin`, the text written to `cout` so far, and (history only, written by
`Program.run`) the line numbers whose statement slot `run` has executed. -/
structure Machine where
  state : EvalState
  cin : List String
  cout : String
  trace : List Int
  deriving DecidableEq, Repr

/-- The method `LET_Sta::execute`. -/
def LET_Sta.execute (varName : String) (exp : Expression) (m : Machine) : Status × Machine :=
  match exp.eval m.state with
  | .error e => (.error e, m)
  | .ok value => (.ok, { m with state := m.state.setValue varName value })

/-- The method `PRINT_Sta::execute`: the value is computed before anything is
written. -/
def PRINT_Sta.execute (exp : Expression) (m : Machine) : Status × Machine :=
  match exp.eval m.state with
  | .error e => (.error e, m)
  | .ok value => (.ok, { m with cout := m.cout ++ toString value ++ "\n" })

/-- The loop of `INPUT_Sta::execute`, started with `cin` and `cout` as given:
the integer read (none when `cin` runs dry, where the loop never ends), the
rest of `cin` and the new `cout`. -/
def INPUT_Sta.loop (L : Lib) : List String → String → Option Int × List String × String
  | [], cout => (none, [], cout ++ " ? ")
  | str :: rest, cout =>
    match L.stringToInteger str with
    | .ok value => (some value, rest, cout ++ " ? ")
    | .error _ => INPUT_Sta.loop L rest (cout ++ " ? " ++ "INVALID NUMBER\n")

/-- The method `INPUT_Sta::execute`. -/
def INPUT_Sta.execute (L : Lib) (varName : String) (m : Machine) : Status × Machine :=
  match INPUT_Sta.loop L m.cin m.cout with
  | (none, cin, cout) => (.blocked, { m with cin := cin, cout := cout })
  | (some value, cin, cout) =>
    (.ok, { m with state := m.state.setValue varName value, cin := cin, cout := cout })

/-- The method `END_Sta::execute`. -/
def END_Sta.execute (m : Machine) : Status × Machine :=
  (.ok, { m with state := m.state.setValue "PROGRAM_END_TAG" 1 })

/-- The method `GOTO_Sta::execute`. -/
def GOTO_Sta.execute (lineNumber : Int) (m : Machine) : Status × Machine :=
  (.ok, { m with state := (m.state.setValue "GOTO_TAG" lineNumber).setValue "GOTO_DONE" 0 })

/-- The method `IF_Sta::execute`. -/
def IF_Sta.execute (op : Char) (lhs rhs : Expression) (lineNumber : Int) (m : Machine) :
    Status × Machine :=
  match lhs.eval m.state with
  | .error e => (.error e, m)
  | .ok l =>
    match rhs.eval m.state with
    | .error e => (.error e, m)
    | .ok r =>
      if (op = '=' ∧ l = r) ∨ (op = '<' ∧ l < r) ∨ (op = '>' ∧ l > r) then
        (.ok, { m with
          state := (m.state.setValue "GOTO_TAG" lineNumber).setValue "GOTO_DONE" 0 })
      else (.ok, m)

/-- The virtual method `Statement::execute`, dispatched on the subclass. -/
def Statement.execute (L : Lib) : Statement → Machine → Status × Machine
  | .LET_Sta varName exp, m => LET_Sta.execute varName exp m
  | .PRINT_Sta exp, m => PRINT_Sta.execute exp m
  | .INPUT_Sta varName, m => INPUT_Sta.execute L varName m
  | .END_Sta, m => END_Sta.execute m
  | .GOTO_Sta lineNumber, m => GOTO_Sta.execute lineNumber m
  | .IF_Sta op lhs rhs lineNumber, m => IF_Sta.execute op lhs rhs lineNumber m

/-! ### Parsing -/

/-- The constant `illegalCnt`. -/
def illegalCnt : Nat := 13

/-- The table `illegalNames`. -/
def illegalNames : List String :=
  ["LET", "REM", "GOTO", "IF", "THEN", "INPUT", "PRINT", "END", "LIST", "RUN", "QUIT",
    "HELP", "CLEAR"]

/-- The search loop of `LET_Sta::parseSta`,
`while (id < illegalCnt && illegalNames[id] != varName) id++`,
run for at most `fuel` rounds from `id`. -/
def LET_Sta.search (varName : String) : Nat → Nat → Nat
  | 0, id => id
  | fuel + 1, id =>
    if id < illegalCnt ∧ illegalNames.getD id "" ≠ varName then
      LET_Sta.search varName fuel (id + 1)
    else id

/-- The method `LET_Sta::parseSta`: the statement built and the scanner state
left, or the error thrown. -/
def LET_Sta.parseSta (L : Lib) (scanner : TokenScanner) :
    Except String (Statement × TokenScanner) :=
  let (varName, scanner) := scanner.nextToken
  let type := L.getTokenType varName
  let id := LET_Sta.search varName (illegalCnt + 1) 0
  if type ≠ TokenType.WORD ∨ scanner.nextToken.1 ≠ "=" ∨ id ≠ illegalCnt then
    .error "SYNTAX ERROR"
  else
    match L.parseExp scanner.nextToken.2 with
    | .error e => .error e
    | .ok (exp, scanner) => .ok (.LET_Sta varName exp, scanner)

/-- The method `PRINT_Sta::parseSta`: whatever `parseExp` throws is caught and
replaced by `SYNTAX ERROR`. -/
def PRINT_Sta.parseSta (L : Lib) (scanner : TokenScanner) :
    Except String (Statement × TokenScanner) :=
  match L.parseExp scanner with
  | .error _ => .error "SYNTAX ERROR"
  | .ok (exp, scanner) => .ok (.PRINT_Sta exp, scanner)

/-- The method `INPUT_Sta::parseSta`. -/
def INPUT_Sta.parseSta (L : Lib) (scanner : TokenScanner) :
    Except String (Statement × TokenScanner) :=
  let (varName, scanner) := scanner.nextToken
  if L.getTokenType varName ≠ TokenType.WORD then .error "SYNTAX ERROR"
  else .ok (.INPUT_Sta varName, scanner)

/-- The method `END_Sta::parseSta`, which reads nothing. -/
def END_Sta.parseSta (scanner : TokenScanner) : Except String (Statement × TokenScanner) :=
  .ok (.END_Sta, scanner)

/-- The method `GOTO_Sta::parseSta`. -/
def GOTO_Sta.parseSta (L : Lib) (scanner : TokenScanner) :
    Except String (Statement × TokenScanner) :=
  let (num, scanner) := scanner.nextToken
  if L.getTokenType num ≠ TokenType.NUMBER then .error "SYNTAX ERROR"
  else
    match L.stringToInteger num with
    | .error e => .error e
    | .ok lineNumber => .ok (.GOTO_Sta lineNumber, scanner)

/-- The first loop of `IF_Sta::parseSta`: tokens are appended to `left` until one
of `=`, `<`, `>` arrives, which is saved back; the end of the input is an error.
Yields `left` and the scanner state. -/
def IF_Sta.readLeft (L : Lib) : TokenScanner → String → Except String (String × TokenScanner)
  | [], _ => .error "SYNTAX ERROR"
  | nxt :: scanner, left =>
    if nxt ≠ "=" ∧ nxt ≠ "<" ∧ nxt ≠ ">" then
      if L.getTokenType nxt = TokenType.EOF then .error "SYNTAX ERROR"
      else IF_Sta.readLeft L scanner (left ++ nxt)
    else .ok (left, TokenScanner.saveToken scanner nxt)

/-- The second loop of `IF_Sta::parseSta`: tokens are appended to `right` until
`THEN` arrives, which is dropped; the end of the input is an error. -/
def IF_Sta.readRight (L : Lib) : TokenScanner → String → Except String (String × TokenScanner)
  | [], _ => .error "SYNTAX ERROR"
  | nxt :: scanner, right =>
    if nxt ≠ "THEN" then
      if L.getTokenType nxt = TokenType.EOF then .error "SYNTAX ERROR"
      else IF_Sta.readRight L scanner (right ++ nxt)
    else .ok (right, scanner)

/-- The two `try` blocks of `IF_Sta::parseSta`: a fresh scanner is set to `text`
and `parseExp` reads it; whatever is thrown becomes `SYNTAX ERROR`. -/
def IF_Sta.parseSide (L : Lib) (text : String) : Except String Expression :=
  match L.parseExp (L.setInput text) with
  | .error _ => .error "SYNTAX ERROR"
  | .ok (exp, _) => .ok exp

/-- The method `IF_Sta::parseSta`. -/
def IF_Sta.parseSta (L : Lib) (scanner : TokenScanner) :
    Except String (Statement × TokenScanner) :=
  match IF_Sta.readLeft L scanner "" with
  | .error e => .error e
  | .ok (left, scanner) =>
    match IF_Sta.parseSide L left with
    | .error e => .error e
    | .ok lhs =>
      let (opToken, scanner) := scanner.nextToken
      let op := opToken.front
      match IF_Sta.readRight L scanner "" with
      | .error e => .error e
      | .ok (right, scanner) =>
        match IF_Sta.parseSide L right with
        | .error e => .error e
        | .ok rhs =>
          let (num, scanner) := scanner.nextToken
          if L.getTokenType num = TokenType.NUMBER then
            match L.stringToInteger num with
            | .error e => .error e
            | .ok lineNumber => .ok (.IF_Sta op lhs rhs lineNumber, scanner)
          else .error "SYNTAX ERROR"

/-- The constant `SIZE` of `getStatement`. -/
def SIZE : Nat := 7

/-- The table `Types` of `getStatement`. -/
def Types : List String := ["REM", "LET", "PRINT", "INPUT", "GOTO", "IF", "END"]

/-- The lookup loop of `getStatement`, `while (Types[id] != type && id < SIZE) id++`,
run for at most `fuel` rounds from `id`. The table is read before the bound is
tested; the read at `id = SIZE` is taken to yield the empty string, and the
loop stops there whatever it yields, because `id < SIZE` is false. -/
def getStatement.search (type : String) : Nat → Nat → Nat
  | 0, id => id
  | fuel + 1, id =>
    if Types.getD id "" ≠ type ∧ id < SIZE then getStatement.search type fuel (id + 1)
    else id

/-- The `switch` of `getStatement` with the call `stmt->parseSta(scanner)`: no
statement for `id = 0`, the parsed statement of the subclass chosen by `id` and
the scanner state after it, or the error thrown. -/
def getStatement.dispatch (L : Lib) (id : Nat) (scanner : TokenScanner) :
    Except String (Option (Statement × TokenScanner)) :=
  match id with
  | 0 => .ok none
  | 1 => (LET_Sta.parseSta L scanner).map some
  | 2 => (PRINT_Sta.parseSta L scanner).map some
  | 3 => (INPUT_Sta.parseSta L scanner).map some
  | 4 => (GOTO_Sta.parseSta L scanner).map some
  | 5 => (IF_Sta.parseSta L scanner).map some
  | 6 => (END_Sta.parseSta scanner).map some
  | _ => .error "SYNTAX ERROR"

/-- The function `getStatement`: the statement of the line (none for a comment
line, `nullptr` in the source), or the error thrown. -/
def getStatement (L : Lib) (scanner : TokenScanner) : Except String (Option Statement) :=
  let (type, scanner) := scanner.nextToken
  let id := getStatement.search type (SIZE + 1) 0
  match getStatement.dispatch L id scanner with
  | .error e => .error e
  | .ok none => .ok none
  | .ok (some (stmt, scanner)) =>
    if id ≠ 0 ∧ scanner.hasMoreTokens = true then .error "SYNTAX ERROR" else .ok (some stmt)

/-! ## The program store (`program.h`, `program.cpp`) -/

/-- The class `clause`: a stored line. `stmt` is none where the source holds
`nullptr`. -/
structure clause where
  lineNumber : Int
  line : String := ""
  stmt : Option Statement := none
  deriving DecidableEq, Repr

/-- The comparison `clause::operator <`. -/
def clause.lt (a b : clause) : Prop := a.lineNumber < b.lineNumber

instance clause.decLt (a b : clause) : Decidable (clause.lt a b) :=
  inferInstanceAs (Decidable (a.lineNumber < b.lineNumber))

/-- The member `find` of `std::set<clause>`: the iterator (index) of the element
equivalent to `key` under `operator <`, or `end()` (the length) when there is
none. -/
def set.find : List clause → clause → Nat
  | [], _ => 0
  | c :: cs, key => if ¬ clause.lt c key ∧ ¬ clause.lt key c then 0 else set.find cs key + 1

/-- The member `insert` of `std::set<clause>`: `value` is put at its place in
the order, unless an equivalent element is already there. -/
def set.insert : List clause → clause → List clause
  | [], value => [value]
  | c :: cs, value =>
    if clause.lt value c then value :: c :: cs
    else if clause.lt c value then c :: set.insert cs value
    else c :: cs

/-- The member `erase(iterator)` of `std::set<clause>`. -/
def set.erase (S : List clause) (it : Nat) : List clause := S.eraseIdx it

/-- The class `Program`, whose only member is the set `S`. -/
structure Program where
  S : List clause
  deriving DecidableEq, Repr

/-- The invariant of `std::set`: the elements are strictly ascending under
`operator <`. -/
def Program.ordered (P : Program) : Prop := P.S.Pairwise clause.lt

instance Program.decOrdered (P : Program) : Decidable P.ordered :=
  inferInstanceAs (Decidable (P.S.Pairwise clause.lt))

/-- The line numbers of the stored lines, in the order of the set. -/
def Program.lineNumbers (P : Program) : List Int := P.S.map clause.lineNumber

/-- The constructor `Program::Program`. -/
def Program.empty : Program := ⟨[]⟩

/-- The method `Program::clear`. -/
def Program.clear (_P : Program) : Program := ⟨[]⟩

/-- The method `Program::addSourceLine`: how the call ended and the store after
it. The statement is parsed first; a throw leaves the store as it was. -/
def Program.addSourceLine (L : Lib) (P : Program) (lineNumber : Int) (line : String) :
    Status × Program :=
  let scanner := (L.setInput line).nextToken.2
  match getStatement L scanner with
  | .error e => (.error e, P)
  | .ok stmt =>
    let now : clause := ⟨lineNumber, line, stmt⟩
    let it := set.find P.S now
    if it = P.S.length then (.ok, ⟨set.insert P.S now⟩)
    else (.ok, ⟨set.insert (set.erase P.S it) now⟩)

/-- The method `Program::removeSourceLine`. -/
def Program.removeSourceLine (P : Program) (lineNumber : Int) : Program :=
  let it := set.find P.S ⟨lineNumber, "", none⟩
  if it ≠ P.S.length then ⟨set.erase P.S it⟩ else P

/-- The dereference of an iterator: the element it points to, none at `end()`
and beyond, where there is no element. -/
def set.deref (S : List clause) (it : Nat) : Option clause := S.get? it

/-- What a method that dereferences an iterator without a test gives back: the
value it returns, or `undefined` when the iterator was `end()` and C++ gives
the read no meaning. -/
inductive Returned (α : Type) where
  | value (a : α)
  | undefined
  deriving DecidableEq, Repr

/-- The method `Program::getSourceLine`: the iterator returned by `find` is
dereferenced without a test. -/
def Program.getSourceLine (P : Program) (lineNumber : Int) : Returned String :=
  match set.deref P.S (set.find P.S ⟨lineNumber, "", none⟩) with
  | some c => .value c.line
  | none => .undefined

/-- The method `Program::getFirstLineNumber`: `S.begin()` is dereferenced
without a test. -/
def Program.getFirstLineNumber (P : Program) : Returned Int :=
  match set.deref P.S 0 with
  | some c => .value c.lineNumber
  | none => .undefined

/-- The method `Program::getNextLineNumber`: the iterator returned by `find` is
advanced and dereferenced without a test. -/
def Program.getNextLineNumber (P : Program) (lineNumber : Int) : Returned Int :=
  let it := set.find P.S ⟨lineNumber, "", none⟩
  match set.deref P.S (it + 1) with
  | some c => .value c.lineNumber
  | none => .undefined

/-- The method `Program::display`: the text written to `cout`, after `cout`. -/
def Program.display (P : Program) (cout : String) : String :=
  P.S.foldl (fun out c => out ++ c.line ++ "\n") cout

/-- What one round of the `for` loop of `Program::run` leads to: the loop is
left (`done`: condition false, `return`, or a throw), or the next round starts
with iterator `it`. -/
inductive Step where
  | done (status : Status) (m : Machine)
  | next (it : Nat) (m : Machine)
  deriving DecidableEq, Repr

/-- The `else` branch of the loop body of `Program::run` on the stored line `c`:
`if (it->stmt != nullptr) it->stmt->execute(state); it++;`. The line number is
added to the history before the statement runs. -/
def Program.exec (L : Lib) (c : clause) (it : Nat) (m : Machine) : Step :=
  let m1 : Machine := { m with trace := m.trace ++ [c.lineNumber] }
  match c.stmt with
  | none => .next (it + 1) m1
  | some stmt =>
    match stmt.execute L m1 with
    | (.ok, m2) => .next (it + 1) m2
    | (status, m2) => .done status m2

/-- The `if (state.getValue("GOTO_DONE") == 0)` branch of the loop body of
`Program::run`: the pending jump is resolved against the store. -/
def Program.jump (P : Program) (m : Machine) : Step :=
  let m1 : Machine := { m with state := m.state.setValue "GOTO_DONE" 1 }
  match m1.state.getValue "GOTO_TAG" with
  | .error e => .done (.error e) m1
  | .ok val =>
    let itt := set.find P.S ⟨val, "", none⟩
    if itt = P.S.length then .done (.error "LINE NUMBER ERROR") m1 else .next itt m1

/-- The loop condition of `Program::run`,
`it != S.end() || state.getValue("GOTO_DONE") == 0`. -/
def Program.cond (P : Program) (it : Nat) (m : Machine) : Except String Bool :=
  if it ≠ P.S.length then .ok true
  else
    match m.state.getValue "GOTO_DONE" with
    | .error e => .error e
    | .ok done => .ok (done == 0)

/-- One round of the `for` loop of `Program::run`: the loop condition, then the
body. -/
def Program.step (L : Lib) (P : Program) (it : Nat) (m : Machine) : Step :=
  match P.cond it m with
  | .error e => .done (.error e) m
  | .ok false => .done .ok m
  | .ok true =>
    match m.state.getValue "PROGRAM_END_TAG" with
    | .error e => .done (.error e) m
    | .ok endTag =>
      if endTag = 1 then .done .ok m
      else
        match m.state.getValue "GOTO_DONE" with
        | .error e => .done (.error e) m
        | .ok done =>
          if done = 0 then P.jump m
          else
            match set.deref P.S it with
            | none => .done .undefined m
            | some c => Program.exec L c it m

/-- The `for` loop of `Program::run` from iterator `it`, for at most `fuel`
rounds: how `run` ended and the machine it left, or none when `fuel` rounds did
not end the loop. -/
def Program.loop (L : Lib) (P : Program) : Nat → Nat → Machine → Option (Status × Machine)
  | 0, _, _ => none
  | fuel + 1, it, m =>
    match P.step L it m with
    | .done status m1 => some (status, m1)
    | .next it1 m1 => Program.loop L P fuel it1 m1

/-- The machine with which the loop of `Program::run` starts: the two
`setValue` calls before the loop. -/
def Program.start (m : Machine) : Machine :=
  { m with state := (m.state.setValue "GOTO_DONE" 1).setValue "PROGRAM_END_TAG" 0 }

/-- The method `Program::run` (`program.cpp`, state by reference), for at most
`fuel` rounds of its loop, which starts at `S.begin()`. -/
def Program.run (L : Lib) (P : Program) (fuel : Nat) (m : Machine) : Option (Status × Machine) :=
  P.loop L fuel 0 (Program.start m)

/-! ## Vocabulary of the properties -/

/-- The loop of `Program::run` after `k` rounds from iterator `it` and machine
`m`: the iterator and machine of the next round, none when the loop was left
within the `k` rounds. -/
def Program.rounds (L : Lib) (P : Program) : Nat → Nat → Machine → Option (Nat × Machine)
  | 0, it, m => some (it, m)
  | k + 1, it, m =>
    match P.step L it m with
    | .done _ _ => none
    | .next it1 m1 => Program.rounds L P k it1 m1

/-- The round of `Program::run` that starts with iterator `it` and machine `m`
executes the statement slot of the stored line `c`: `it` points to `c`, the
program has not ended and no jump is pending. -/
def Program.executes (P : Program) (it : Nat) (m : Machine) (c : clause) : Prop :=
  set.deref P.S it = some c ∧
  (∃ endTag, m.state.getValue "PROGRAM_END_TAG" = .ok endTag ∧ endTag ≠ 1) ∧
  (∃ done, m.state.getValue "GOTO_DONE" = .ok done ∧ done ≠ 0)

/-- The statement `stmt`, executed on machine `m`, requests a jump to line `t`:
it is `GOTO t`, or an `IF ... THEN t` whose two sides evaluate and whose
comparison holds. -/
def Statement.jumpsTo (stmt : Statement) (m : Machine) (t : Int) : Prop :=
  stmt = .GOTO_Sta t ∨
  ∃ op lhs rhs l r, stmt = .IF_Sta op lhs rhs t ∧ lhs.eval m.state = .ok l ∧
    rhs.eval m.state = .ok r ∧ ((op = '=' ∧ l = r) ∨ (op = '<' ∧ l < r) ∨ (op = '>' ∧ l > r))

/-- A call of the three methods that change the store. -/
inductive Call where
  | addSourceLine (lineNumber : Int) (line : String)
  | removeSourceLine (lineNumber : Int)
  | clear
  deriving DecidableEq, Repr

/-- The store after one call; a call that throws leaves the store it found. -/
def Program.call (L : Lib) (P : Program) : Call → Program
  | .addSourceLine lineNumber line => (P.addSourceLine L lineNumber line).2
  | .removeSourceLine lineNumber => P.removeSourceLine lineNumber
  | .clear => P.clear

/-- The store after a sequence of calls, made in the order of the list. -/
def Program.calls (L : Lib) (P : Program) (cs : List Call) : Program :=
  cs.foldl (Program.call L) P

/-- The machine right after the round that resolved a jump to line `t`
requested by the statement of line `n` on machine `m`: the statement has set
`GOTO_TAG` and `GOTO_DONE`, the next round has set `GOTO_DONE` back, and `n` is
the last line in the history. -/
def Machine.afterJump (m : Machine) (n t : Int) : Machine :=
  { m with
    state := ((m.state.setValue "GOTO_TAG" t).setValue "GOTO_DONE" 0).setValue "GOTO_DONE" 1
    trace := m.trace ++ [n] }

/-- A machine with no bindings, no input, and nothing written or executed. -/
def Machine.fresh : Machine := ⟨[], [], "", []⟩

/-- A store of two lines, `10 LET X = 1` and `20 PRINT X`. -/
def Program.sample : Program :=
  ⟨[⟨10, "10 LET X = 1", some (.LET_Sta "X" (.ConstantExp 1))⟩,
    ⟨20, "20 PRINT X", some (.PRINT_Sta (.IdentifierExp "X"))⟩]⟩

/-- The store holding the one line `10 GOTO 99`, entered through
`addSourceLine`. -/
def Program.gotoMissing : Program :=
  Program.calls Lib.standard Program.empty [.addSourceLine 10 "10 GOTO 99"]

/-- The store of the lines `10 LET X = 1`, `20 PRINT X`, `30 GOTO 50`,
`40 PRINT 999`, `50 END`, entered in this order through `addSourceLine`. -/
def Program.gotoSkip : Program :=
  Program.calls Lib.standard Program.empty
    [.addSourceLine 10 "10 LET X = 1", .addSourceLine 20 "20 PRINT X",
      .addSourceLine 30 "30 GOTO 50", .addSourceLine 40 "40 PRINT 999",
      .addSourceLine 50 "50 END"]

/-! ## The driver (`Basic.cpp`) -/

/-- Modelled from the spec: `EvalState.clear()` of `evalstate.h`, which clears
the bindings and with them the control flags. -/
def EvalState.clear (_state : EvalState) : EvalState := []

/-- How a call of `processLine` ended: it returned or threw (`returned`, with
the status), or it ended the process with `exit(0)`. -/
inductive Reply where
  | returned (status : Status)
  | exited
  deriving DecidableEq, Repr

/-- The constant `SIZE` of `processLine`. -/
def processLine.SIZE : Nat := 5

/-- The table `cmd` of `processLine`. -/
def processLine.cmd : List String := ["RUN", "LIST", "HELP", "QUIT", "CLEAR"]

/-- The lookup loop of `processLine`, `while (c < SIZE && cmd[c] != fst) c++`,
run for at most `fuel` rounds from `c`. -/
def processLine.search (fst : String) : Nat → Nat → Nat
  | 0, c => c
  | fuel + 1, c =>
    if c < processLine.SIZE ∧ processLine.cmd.getD c "" ≠ fst then
      processLine.search fst fuel (c + 1)
    else c

/-- The last branch of `processLine`: a line that starts neither with a command
nor with a number is an immediate statement. Only `PRINT`, `LET` and `INPUT`
are admitted; the statement is parsed by its own `parseSta` and executed at
once, with no test for tokens left over. -/
def processLine.immediate (L : Lib) (fst : String) (scanner : TokenScanner) (m : Machine) :
    Status × Machine :=
  if fst ≠ "PRINT" ∧ fst ≠ "LET" ∧ fst ≠ "INPUT" then (.error "SYNTAX ERROR", m)
  else
    let parsed :=
      if fst = "PRINT" then PRINT_Sta.parseSta L scanner
      else if fst = "LET" then LET_Sta.parseSta L scanner
      else INPUT_Sta.parseSta L scanner
    match parsed with
    | .error e => (.error e, m)
    | .ok (stmt, _) => stmt.execute L m

/-- The function `processLine`: how the call ended, and the program and the
machine after it; none when `RUN` did not end within `fuel` rounds. -/
def processLine (L : Lib) (fuel : Nat) (line : String) (P : Program) (m : Machine) :
    Option (Reply × Program × Machine) :=
  if line = "" then some (.returned .ok, P, m)
  else
    let (fst, scanner) := (L.setInput line).nextToken
    let c := processLine.search fst (processLine.SIZE + 1) 0
    if c < processLine.SIZE then
      if scanner.hasMoreTokens = true then some (.returned (.error "SYNTAX ERROR"), P, m)
      else
        match c with
        | 0 =>
          match P.run L fuel m with
          | none => none
          | some (status, m1) => some (.returned status, P, m1)
        | 1 => some (.returned .ok, P, { m with cout := P.display m.cout })
        | 2 => some (.returned .ok, P, { m with cout := m.cout ++ "Nobody can help you!" ++ "\n" })
        | 3 => some (.exited, P, m)
        | _ => some (.returned .ok, P.clear, { m with state := m.state.clear })
    else if L.getTokenType fst = TokenType.NUMBER then
      match L.stringToInteger fst with
      | .error e => some (.returned (.error e), P, m)
      | .ok lineNumber =>
        if scanner.hasMoreTokens = true then
          let r := P.addSourceLine L lineNumber line
          some (.returned r.1, r.2, m)
        else some (.returned .ok, P.removeSourceLine lineNumber, m)
    else
      let r := processLine.immediate L fst scanner m
      some (.returned r.1, P, r.2)

/-! ## Vocabulary of the properties on statements and runs -/

/-- The keyword of the subclass a statement belongs to. -/
def Statement.kind : Statement → String
  | .LET_Sta _ _ => "LET"
  | .PRINT_Sta _ => "PRINT"
  | .INPUT_Sta _ => "INPUT"
  | .END_Sta => "END"
  | .GOTO_Sta _ => "GOTO"
  | .IF_Sta _ _ _ _ => "IF"

/-- The six statement keywords of the table `Types`, which holds `REM` before
them. -/
def statementKeywords : List String := ["LET", "PRINT", "INPUT", "GOTO", "IF", "END"]

/-- The comparison of `IF_Sta::execute` on the values `l` and `r` of the two
sides. -/
def IF_Sta.holds (op : Char) (l r : Int) : Prop :=
  (op = '=' ∧ l = r) ∨ (op = '<' ∧ l < r) ∨ (op = '>' ∧ l > r)

instance IF_Sta.decHolds (op : Char) (l r : Int) : Decidable (IF_Sta.holds op l r) :=
  inferInstanceAs (Decidable ((op = '=' ∧ l = r) ∨ (op = '<' ∧ l < r) ∨ (op = '>' ∧ l > r)))

/-- The machine in which a jump to `target` has been requested: `GOTO_TAG` is
`target` and `GOTO_DONE` is 0, everything else is as in `m`. -/
def Machine.requestJump (m : Machine) (target : Int) : Machine :=
  { m with state := (m.state.setValue "GOTO_TAG" target).setValue "GOTO_DONE" 0 }

/-- The machine `m` with line `n` added to the history of executed lines. -/
def Machine.visit (m : Machine) (n : Int) : Machine :=
  { m with trace := m.trace ++ [n] }

/-- The names under which `Program::run` and the statements keep the control
flags in the `EvalState`. -/
def controlNames : List String := ["GOTO_DONE", "GOTO_TAG", "PROGRAM_END_TAG"]

/-- The variable names that occur in an expression. -/
def Expression.names : Expression → List String
  | .ConstantExp _ => []
  | .IdentifierExp name => [name]
  | .CompoundExp _ lhs rhs => lhs.names ++ rhs.names

/-- The variable names a statement binds. -/
def Statement.binds : Statement → List String
  | .LET_Sta varName _ => [varName]
  | .INPUT_Sta varName => [varName]
  | _ => []

/-- The variable names a statement reads or binds. -/
def Statement.names : Statement → List String
  | .LET_Sta varName exp => varName :: exp.names
  | .PRINT_Sta exp => exp.names
  | .INPUT_Sta varName => [varName]
  | .END_Sta => []
  | .GOTO_Sta _ => []
  | .IF_Sta _ lhs rhs _ => lhs.names ++ rhs.names

/-- The statement is a `GOTO` or an `IF`. -/
def Statement.isJump : Statement → Bool
  | .GOTO_Sta _ => true
  | .IF_Sta _ _ _ _ => true
  | _ => false

/-- The stored line holds no `GOTO` and no `IF`, and its statement binds no
name of a control flag. Word tokens of the scanner hold letters and digits
only, so a parsed statement never binds such a name. -/
def clause.straight (c : clause) : Bool :=
  match c.stmt with
  | none => true
  | some stmt => !stmt.isJump && stmt.binds.all (fun n => !controlNames.contains n)

/-- The stored line holds no `GOTO` and no `IF`. -/
def clause.jumpFree (c : clause) : Bool :=
  match c.stmt with
  | none => true
  | some stmt => !stmt.isJump

/-- The statement of the stored line, if any, neither reads nor binds a name of
a control flag. -/
def clause.userOnly (c : clause) : Bool :=
  match c.stmt with
  | none => true
  | some stmt => stmt.names.all (fun n => !controlNames.contains n)

/-- The program is not ended and no jump is pending: both flags are bound,
`PROGRAM_END_TAG` is not 1 and `GOTO_DONE` is not 0. -/
def Machine.running (m : Machine) : Prop :=
  (∃ endTag, m.state.getValue "PROGRAM_END_TAG" = .ok endTag ∧ endTag ≠ 1) ∧
  (∃ done, m.state.getValue "GOTO_DONE" = .ok done ∧ done ≠ 0)

/-- The reading of a run without jumps: the statements of the lines are
executed one after the other in the order of the list, each once; execution
stops right after the first `END`, at the first statement that does not return
normally, or after the last line. -/
def Program.sequential (L : Lib) : List clause → Machine → Status × Machine
  | [], m => (.ok, m)
  | c :: rest, m =>
    match c.stmt with
    | none => Program.sequential L rest (m.visit c.lineNumber)
    | some stmt =>
      match stmt.execute L (m.visit c.lineNumber) with
      | (.ok, m2) => if stmt = .END_Sta then (.ok, m2) else Program.sequential L rest m2
      | (status, m2) => (status, m2)

/-- The lines up to and including the first `END`; all lines when there is no
`END`. -/
def Program.upToEnd : List clause → List clause
  | [] => []
  | c :: rest => if c.stmt = some .END_Sta then [c] else c :: Program.upToEnd rest

/-- Two evaluation states agree on the user variables: every name that is not a
control flag is bound in both to the same value, or in neither. -/
def EvalState.agree (s1 s2 : EvalState) : Prop :=
  ∀ v, v ∉ controlNames → s1.getValue v = s2.getValue v

/-- Two machines are the same to the user: same input left, same output, same
history of executed lines, and states that agree on the user variables. -/
def Machine.agree (m1 m2 : Machine) : Prop :=
  m1.cin = m2.cin ∧ m1.cout = m2.cout ∧ m1.trace = m2.trace ∧ EvalState.agree m1.state m2.state

/-- Two runs have the same outcome: neither ends within the fuel, or both end
with the same status and machines that are the same to the user. -/
def Program.sameOutcome : Option (Status × Machine) → Option (Status × Machine) → Prop
  | none, none => True
  | some (s1, f1), some (s2, f2) => s1 = s2 ∧ f1.agree f2
  | _, _ => False

/-- Two evaluation states are alike for the loop of `run`: every name other than
`GOTO_TAG` is bound alike in both, and so is `GOTO_TAG` while a jump is
pending. -/
def EvalState.alike (s1 s2 : EvalState) : Prop :=
  (∀ v, v ≠ "GOTO_TAG" → s1.getValue v = s2.getValue v) ∧
  (s1.getValue "GOTO_DONE" = .ok 0 → s1.getValue "GOTO_TAG" = s2.getValue "GOTO_TAG")

/-- Two machines are alike for the loop of `run`: same input left, same output,
same history, and states that are alike. -/
def Machine.alike (m1 m2 : Machine) : Prop :=
  m1.cin = m2.cin ∧ m1.cout = m2.cout ∧ m1.trace = m2.trace ∧ EvalState.alike m1.state m2.state

/-- Two rounds of the loop of `run` end alike: both leave the loop with the same
status, or both go on with the same iterator, on machines that are alike. -/
def Step.alike : Step → Step → Prop
  | .done s1 f1, .done s2 f2 => s1 = s2 ∧ f1.alike f2
  | .next i1 f1, .next i2 f2 => i1 = i2 ∧ f1.alike f2
  | _, _ => False

/-- The library keeps the control flags out of reach of program text: the
scanner delivers no token that is the name of a control flag (the names hold an
underscore, which is no word character), and the variables of an expression
built by `parseExp` are tokens it was given. -/
def Lib.userWords (L : Lib) : Prop :=
  (∀ line, ∀ t ∈ L.setInput line, t ∉ controlNames) ∧
  (∀ scanner exp rest, L.parseExp scanner = .ok (exp, rest) → ∀ n ∈ exp.names, n ∈ scanner)

/-- A library that differs from `Lib.standard` in one point: its expression
parser reports malformed input under a message of its own. -/
def Lib.wordy : Lib where
  setInput := Lib.standard.setInput
  getTokenType := Lib.standard.getTokenType
  stringToInteger := Lib.standard.stringToInteger
  parseExp := fun scanner =>
    match standard.parseExp scanner with
    | .error _ => .error "Illegal term in expression"
    | .ok r => .ok r
  getTokenType_empty := rfl

/-- The text `IF_Sta::parseSta` builds from the tokens of one side: the tokens
appended one after the other, with nothing between them. -/
def IF_Sta.concat (tokens : List String) : String :=
  tokens.foldl (fun text nxt => text ++ nxt) ""

/-- The reading of the claim on `IF`: the side of an `IF` obtained by parsing
its tokens directly as an expression, a failure being `SYNTAX ERROR`. -/
def IF_Sta.parseTokens (L : Lib) (tokens : List String) : Except String Expression :=
  match L.parseExp tokens with
  | .error _ => .error "SYNTAX ERROR"
  | .ok (exp, _) => .ok exp

/-- The store of the lines `10 LET X = 0`, `20 IF X = 0 THEN 40`,
`30 PRINT 111`, `40 PRINT 222`, entered through `addSourceLine`. -/
def Program.ifJump : Program :=
  Program.calls Lib.standard Program.empty
    [.addSourceLine 10 "10 LET X = 0", .addSourceLine 20 "20 IF X = 0 THEN 40",
      .addSourceLine 30 "30 PRINT 111", .addSourceLine 40 "40 PRINT 222"]

/-- The store of the lines `10 LET X = 3`, `20 PRINT X * 2 - 1`, `30 END`,
entered through `addSourceLine`. -/
def Program.straightLine : Program :=
  Program.calls Lib.standard Program.empty
    [.addSourceLine 10 "10 LET X = 3", .addSourceLine 20 "20 PRINT X * 2 - 1",
      .addSourceLine 30 "30 END"]

/-! ## Vocabulary of the properties on table lookups -/

/-- The indices at which the lookup loop of `getStatement`,
`while (Types[id] != type && id < SIZE) id++`, reads the table `Types`, in the
order of the reads, for at most `fuel` rounds from `id`: every test of the
condition reads `Types[id]` first, then compares `id` with `SIZE`. -/
def getStatement.reads (type : String) : Nat → Nat → List Nat
  | 0, _ => []
  | fuel + 1, id =>
    id :: (if Types.getD id "" ≠ type ∧ id < SIZE then getStatement.reads type fuel (id + 1)
      else [])

/-- The lookup loop of `getStatement` when a read past the end of `Types` yields
`past`: the loop of `getStatement.search`, in which that read yields the empty
string. -/
def getStatement.searchWith (past type : String) : Nat → Nat → Nat
  | 0, id => id
  | fuel + 1, id =>
    if Types.getD id past ≠ type ∧ id < SIZE then getStatement.searchWith past type fuel (id + 1)
    else id

/-- The indices at which the search loop of `LET_Sta::parseSta`,
`while (id < illegalCnt && illegalNames[id] != varName) id++`, reads the table
`illegalNames`: the bound is tested first, and the table is read only when the
test holds. -/
def LET_Sta.reads (varName : String) : Nat → Nat → List Nat
  | 0, _ => []
  | fuel + 1, id =>
    if id < illegalCnt then
      id :: (if illegalNames.getD id "" ≠ varName then LET_Sta.reads varName fuel (id + 1)
        else [])
    else []

/-! ## Vocabulary of the properties on comment lines -/

/-- The line a statement may request a jump to. -/
def Statement.target : Statement → Option Int
  | .GOTO_Sta t => some t
  | .IF_Sta _ _ _ t => some t
  | _ => none

/-- The line numbers that the `GOTO` and `IF` statements of the store name as
their targets. -/
def Program.targets (P : Program) : List Int :=
  P.S.filterMap (fun c => c.stmt.bind Statement.target)

/-- The store `P` with a comment line, which has no statement, inserted at line
number `n`. -/
def Program.withComment (P : Program) (n : Int) (text : String) : Program :=
  ⟨set.insert P.S ⟨n, text, none⟩⟩

/-- Two machines are the same but for visits of line `n`: same state, same
input left, same output, and the same history once line `n` is left out. -/
def Machine.sameBut (n : Int) (m m2 : Machine) : Prop :=
  m.state = m2.state ∧ m.cin = m2.cin ∧ m.cout = m2.cout ∧
  m.trace.filter (fun k => k ≠ n) = m2.trace.filter (fun k => k ≠ n)

/-- The iterator `it2` of the store with one more line at index `k` points to
the line that `it` points to in the store without it (or both are `end()`). -/
def Program.shifted (k it it2 : Nat) : Prop :=
  (it < k ∧ it2 = it) ∨ (k ≤ it ∧ it2 = it + 1)

/-- Both flags of the loop of `run` are bound, and a pending jump has a target
other than `n`. -/
def Machine.pendingOk (n : Int) (m : Machine) : Prop :=
  (∃ endTag, m.state.getValue "PROGRAM_END_TAG" = .ok endTag) ∧
  (∃ done, m.state.getValue "GOTO_DONE" = .ok done) ∧
  (m.state.getValue "GOTO_DONE" = .ok 0 →
    ∃ t, m.state.getValue "GOTO_TAG" = .ok t ∧ t ≠ n)

/-- A round of the loop of `run` on a store and the matching round on the store
with a comment line at line number `n`, index `k`, end in the same way: both
leave the loop with the same status, or both go on, the second either at the
same line as the first or at the comment line right before it. -/
def Step.related (n : Int) (k : Nat) : Step → Step → Prop
  | .done s1 f1, .done s2 f2 => s1 = s2 ∧ f1.sameBut n f2
  | .next i1 f1, .next i2 f2 =>
    (Program.shifted k i1 i2 ∨ (i1 = k ∧ i2 = k)) ∧ f1.sameBut n f2 ∧ f1.pendingOk n
  | _, _ => False

/-! ## Lemmas on the set -/

theorem set.find_cons_eq (c : clause) (cs : List clause) (key : clause)
    (h : c.lineNumber = key.lineNumber) : set.find (c :: cs) key = 0 := by
  have h1 : ¬ clause.lt c key ∧ ¬ clause.lt key c := by
    unfold clause.lt; omega
  unfold set.find
  rw [if_pos h1]

theorem set.find_cons_ne (c : clause) (cs : List clause) (key : clause)
    (h : c.lineNumber ≠ key.lineNumber) : set.find (c :: cs) key = set.find cs key + 1 := by
  have h1 : ¬ (¬ clause.lt c key ∧ ¬ clause.lt key c) := by
    unfold clause.lt; omega
  conv_lhs => unfold set.find
  rw [if_neg h1]

theorem set.filter_cons_eq (c : clause) (cs : List clause) (n : Int) (h : c.lineNumber = n) :
    (c :: cs).filter (fun c => c.lineNumber ≠ n) = cs.filter (fun c => c.lineNumber ≠ n) := by
  rw [List.filter_cons_of_neg]
  simp [h]

theorem set.filter_cons_ne (c : clause) (cs : List clause) (n : Int) (h : c.lineNumber ≠ n) :
    (c :: cs).filter (fun c => c.lineNumber ≠ n) = c :: cs.filter (fun c => c.lineNumber ≠ n) := by
  rw [List.filter_cons_of_pos]
  simp [h]

theorem set.filter_eq_self_of_lt (cs : List clause) (n : Int)
    (h : ∀ a ∈ cs, n < a.lineNumber) : cs.filter (fun c => c.lineNumber ≠ n) = cs := by
  rw [List.filter_eq_self]
  intro a ha
  have := h a ha
  have h1 : a.lineNumber ≠ n := by omega
  simp [h1]

theorem set.find_le_length (S : List clause) (key : clause) : set.find S key ≤ S.length := by
  induction S with
  | nil => simp [set.find]
  | cons c cs ih =>
    by_cases h : c.lineNumber = key.lineNumber
    · rw [set.find_cons_eq c cs key h]; omega
    · rw [set.find_cons_ne c cs key h, List.length_cons]; omega

theorem set.find_eq_length_iff (S : List clause) (key : clause) :
    set.find S key = S.length ↔ key.lineNumber ∉ S.map clause.lineNumber := by
  induction S with
  | nil => simp [set.find]
  | cons c cs ih =>
    by_cases h : c.lineNumber = key.lineNumber
    · rw [set.find_cons_eq c cs key h]
      simp [h]
    · rw [set.find_cons_ne c cs key h]
      have h2 : ¬ key.lineNumber = c.lineNumber := fun e => h e.symm
      simp only [List.length_cons, add_left_inj, ih, List.map_cons, List.mem_cons, not_or]
      tauto

theorem set.deref_find (S : List clause) (key : clause)
    (h : key.lineNumber ∈ S.map clause.lineNumber) :
    ∃ c, set.deref S (set.find S key) = some c ∧ c ∈ S ∧ c.lineNumber = key.lineNumber := by
  induction S with
  | nil => simp at h
  | cons c cs ih =>
    by_cases hc : c.lineNumber = key.lineNumber
    · refine ⟨c, ?_, by simp, hc⟩
      rw [set.find_cons_eq c cs key hc]
      rfl
    · have h2 : key.lineNumber ∈ cs.map clause.lineNumber := by
        simp only [List.map_cons, List.mem_cons] at h
        rcases h with h | h
        · exact absurd h.symm hc
        · exact h
      obtain ⟨d, hd, hmem, hln⟩ := ih h2
      refine ⟨d, ?_, List.mem_cons_of_mem _ hmem, hln⟩
      rw [set.find_cons_ne c cs key hc]
      simpa [set.deref] using hd

theorem set.erase_find_eq_filter (S : List clause) (key : clause) (hS : S.Pairwise clause.lt) :
    set.erase S (set.find S key) = S.filter (fun c => c.lineNumber ≠ key.lineNumber) := by
  induction S with
  | nil => simp [set.erase, set.find]
  | cons c cs ih =>
    rw [List.pairwise_cons] at hS
    by_cases hc : c.lineNumber = key.lineNumber
    · rw [set.find_cons_eq c cs key hc, set.filter_cons_eq c cs _ hc,
        set.filter_eq_self_of_lt cs _ (fun a ha => by
          have := hS.1 a ha
          unfold clause.lt at this
          omega)]
      rfl
    · rw [set.find_cons_ne c cs key hc, set.filter_cons_ne c cs _ hc, ← ih hS.2]
      rfl

theorem set.mem_insert (T : List clause) (value a : clause) (h : a ∈ set.insert T value) :
    a = value ∨ a ∈ T := by
  induction T with
  | nil => simpa [set.insert] using h
  | cons d ds ihd =>
    unfold set.insert at h
    split at h
    · simpa using h
    · split at h
      · rcases List.mem_cons.1 h with rfl | hh
        · simp
        · rcases ihd hh with h3 | h3
          · exact Or.inl h3
          · exact Or.inr (List.mem_cons_of_mem _ h3)
      · exact Or.inr h

theorem set.insert_ordered (S : List clause) (value : clause) (hS : S.Pairwise clause.lt) :
    (set.insert S value).Pairwise clause.lt := by
  induction S with
  | nil => simp [set.insert]
  | cons c cs ih =>
    rw [List.pairwise_cons] at hS
    unfold set.insert
    split
    · rename_i h
      refine List.pairwise_cons.2 ⟨?_, List.pairwise_cons.2 hS⟩
      intro a ha
      rcases List.mem_cons.1 ha with rfl | ha
      · exact h
      · have := hS.1 a ha
        unfold clause.lt at this h ⊢
        omega
    · split
      · rename_i h
        refine List.pairwise_cons.2 ⟨?_, ih hS.2⟩
        intro a ha
        rcases set.mem_insert cs value a ha with rfl | ha
        · exact h
        · exact hS.1 a ha
      · exact List.pairwise_cons.2 hS

theorem set.erase_ordered (S : List clause) (it : Nat) (hS : S.Pairwise clause.lt) :
    (set.erase S it).Pairwise clause.lt :=
  List.Pairwise.sublist (List.eraseIdx_sublist S it) hS

/-- Inserting a line whose number is not yet stored: a search for that number
then finds the inserted line. -/
theorem set.deref_find_insert (S : List clause) (value key : clause)
    (hk : key.lineNumber = value.lineNumber)
    (h : value.lineNumber ∉ S.map clause.lineNumber) :
    set.deref (set.insert S value) (set.find (set.insert S value) key) = some value := by
  induction S with
  | nil =>
    unfold set.insert
    rw [set.find_cons_eq value [] key hk.symm]
    rfl
  | cons c cs ih =>
    simp only [List.map_cons, List.mem_cons, not_or] at h
    unfold set.insert
    split
    · rw [set.find_cons_eq value _ key hk.symm]
      rfl
    · split
      · rename_i h1 h2
        unfold clause.lt at h1 h2
        rw [set.find_cons_ne c _ key (by omega)]
        have := ih h.2
        simpa [set.deref] using this
      · rename_i h1 h2
        unfold clause.lt at h1 h2
        exact absurd (by omega : value.lineNumber = c.lineNumber) h.1

theorem set.insert_cons_of_lt (cs : List clause) (value : clause)
    (h : ∀ a ∈ cs, value.lineNumber < a.lineNumber) : set.insert cs value = value :: cs := by
  cases cs with
  | nil => rfl
  | cons d ds =>
    have h6 : clause.lt value d := h d (by simp)
    unfold set.insert
    rw [if_pos h6]

/-- Putting a line back at a number that was filtered out of an ordered set
replaces, in place, the line of that number. -/
theorem set.insert_filter (S : List clause) (value : clause) (hS : S.Pairwise clause.lt)
    (h : value.lineNumber ∈ S.map clause.lineNumber) :
    set.insert (S.filter (fun c => c.lineNumber ≠ value.lineNumber)) value =
      S.map (fun c => if c.lineNumber = value.lineNumber then value else c) := by
  induction S with
  | nil => simp at h
  | cons c cs ih =>
    rw [List.pairwise_cons] at hS
    have hgt : ∀ a ∈ cs, c.lineNumber < a.lineNumber := fun a ha => hS.1 a ha
    by_cases hc : c.lineNumber = value.lineNumber
    · have h3 : cs.map (fun c => if c.lineNumber = value.lineNumber then value else c) = cs := by
        conv_rhs => rw [← List.map_id cs]
        apply List.map_congr_left
        intro a ha
        have := hgt a ha
        have h4 : ¬ a.lineNumber = value.lineNumber := by omega
        simp [h4]
      rw [set.filter_cons_eq c cs _ hc,
        set.filter_eq_self_of_lt cs _ (fun a ha => by have := hgt a ha; omega),
        set.insert_cons_of_lt cs value (fun a ha => by have := hgt a ha; omega),
        List.map_cons, h3, if_pos hc]
    · have hin : value.lineNumber ∈ cs.map clause.lineNumber := by
        simp only [List.map_cons, List.mem_cons] at h
        rcases h with h | h
        · exact absurd h.symm hc
        · exact h
      obtain ⟨a, ha, hal⟩ := List.mem_map.1 hin
      have hlt : clause.lt c value := by
        have := hgt a ha
        unfold clause.lt
        omega
      have h1 : ¬ clause.lt value c := by
        unfold clause.lt at hlt ⊢
        omega
      rw [set.filter_cons_ne c cs _ hc, List.map_cons, if_neg hc]
      conv_lhs => unfold set.insert
      rw [if_neg h1, if_pos hlt, ih hS.2 hin]

theorem String.foldl_append_eq (xs : List String) (a : String) :
    xs.foldl (fun x y => x ++ y) a = a ++ String.join xs := by
  induction xs generalizing a with
  | nil => simp [String.join]
  | cons x xs ih =>
    rw [List.foldl_cons, ih]
    unfold String.join
    rw [List.foldl_cons, ih ("" ++ x)]
    simp [String.append_assoc, String.join]

theorem Program.display_eq (P : Program) (cout : String) :
    P.display cout = cout ++ String.join (P.S.map (fun c => c.line ++ "\n")) := by
  obtain ⟨S⟩ := P
  simp only [Program.display]
  induction S generalizing cout with
  | nil => simp [String.join]
  | cons c cs ih =>
    rw [List.foldl_cons, ih, List.map_cons]
    conv_rhs => unfold String.join
    rw [List.foldl_cons, Basic.String.foldl_append_eq]
    simp [String.append_assoc]

/-! ## Lemmas on the store -/

theorem set.not_mem_filter (S : List clause) (n : Int) :
    n ∉ (S.filter (fun c => c.lineNumber ≠ n)).map clause.lineNumber := by
  intro h
  obtain ⟨a, ha, hn⟩ := List.mem_map.1 h
  have := (List.mem_filter.1 ha).2
  simp [hn] at this

theorem set.filter_eq_self_of_not_mem (S : List clause) (n : Int)
    (h : n ∉ S.map clause.lineNumber) : S.filter (fun c => c.lineNumber ≠ n) = S := by
  rw [List.filter_eq_self]
  intro a ha
  have h1 : a.lineNumber ≠ n := fun e => h (List.mem_map.2 ⟨a, ha, e⟩)
  simp [h1]

/-- A successful `addSourceLine` on an ordered store: the line of that number,
if any, is taken out and the new line is inserted. -/
theorem Program.addSourceLine_ok (L : Lib) (P : Program) (n : Int) (text : String)
    (stmt : Option Statement) (hP : P.ordered)
    (hparse : getStatement L (L.setInput text).nextToken.2 = .ok stmt) :
    P.addSourceLine L n text =
      (.ok, ⟨set.insert (P.S.filter (fun c => c.lineNumber ≠ n)) ⟨n, text, stmt⟩⟩) := by
  unfold Program.addSourceLine
  simp only [hparse]
  split
  · rename_i h
    rw [set.find_eq_length_iff] at h
    rw [set.filter_eq_self_of_not_mem P.S n h]
  · rw [set.erase_find_eq_filter P.S _ hP]

/-- A throwing `addSourceLine` leaves the store as it was. -/
theorem Program.addSourceLine_error (L : Lib) (P : Program) (n : Int) (text : String)
    (e : String) (hparse : getStatement L (L.setInput text).nextToken.2 = .error e) :
    P.addSourceLine L n text = (.error e, P) := by
  unfold Program.addSourceLine
  simp only [hparse]

theorem Program.addSourceLine_ordered (L : Lib) (P : Program) (n : Int) (text : String)
    (hP : P.ordered) : (P.addSourceLine L n text).2.ordered := by
  cases hparse : getStatement L (L.setInput text).nextToken.2 with
  | error e => rw [Program.addSourceLine_error L P n text e hparse]; exact hP
  | ok stmt =>
    rw [Program.addSourceLine_ok L P n text stmt hP hparse]
    exact set.insert_ordered _ _ (List.Pairwise.filter _ hP)

theorem Program.removeSourceLine_eq (P : Program) (n : Int) (hP : P.ordered) :
    P.removeSourceLine n = ⟨P.S.filter (fun c => c.lineNumber ≠ n)⟩ := by
  unfold Program.removeSourceLine
  simp only
  split
  · rw [set.erase_find_eq_filter P.S _ hP]
  · rename_i h
    have h1 : (n : Int) ∉ P.S.map clause.lineNumber := by
      have := (set.find_eq_length_iff P.S ⟨n, "", none⟩).1 (not_not.1 h)
      exact this
    rw [set.filter_eq_self_of_not_mem P.S n h1]

theorem Program.call_ordered (L : Lib) (P : Program) (c : Call) (hP : P.ordered) :
    (P.call L c).ordered := by
  cases c with
  | addSourceLine n text => exact Program.addSourceLine_ordered L P n text hP
  | removeSourceLine n =>
    show (P.removeSourceLine n).ordered
    rw [Program.removeSourceLine_eq P n hP]
    exact List.Pairwise.filter _ hP
  | clear => exact List.Pairwise.nil

theorem Program.calls_ordered (L : Lib) (P : Program) (cs : List Call) (hP : P.ordered) :
    (P.calls L cs).ordered := by
  induction cs generalizing P with
  | nil => exact hP
  | cons c cs ih =>
    show (Program.calls L (P.call L c) cs).ordered
    exact ih _ (Program.call_ordered L P c hP)

theorem Program.lineNumbers_pairwise (P : Program) (hP : P.ordered) :
    P.lineNumbers.Pairwise (fun a b => a < b) := by
  unfold Program.lineNumbers
  rw [List.pairwise_map]
  exact hP

theorem Program.eq_of_perm (P Q : Program) (hP : P.ordered) (hQ : Q.ordered)
    (h : P.S.Perm Q.S) : P = Q := by
  haveI : IsAntisymm clause clause.lt :=
    ⟨fun a b h1 h2 => by unfold clause.lt at h1 h2; omega⟩
  obtain ⟨S⟩ := P
  obtain ⟨T⟩ := Q
  have : S = T := List.eq_of_perm_of_sorted h hP hQ
  rw [this]

/-! ## The claims on the store -/

/-- C1: after any finite sequence of `addSourceLine` / `removeSourceLine` /
`clear` calls on a new program, in any order, the stored line numbers are
strictly ascending, so no line number is stored twice; `display` writes the
stored lines in exactly that order; and two call sequences that leave the same
lines leave the same store and the same listing, whatever their order. -/
theorem Program.display_ascending (L : Lib) (cs : List Call) :
    (Program.calls L Program.empty cs).lineNumbers.Pairwise (fun a b => a < b) ∧
    (Program.calls L Program.empty cs).lineNumbers.Nodup ∧
    (∀ cout, (Program.calls L Program.empty cs).display cout =
      cout ++ String.join ((Program.calls L Program.empty cs).S.map (fun c => c.line ++ "\n"))) ∧
    (∀ cs2 : List Call, (Program.calls L Program.empty cs2).S.Perm
        (Program.calls L Program.empty cs).S →
      Program.calls L Program.empty cs2 = Program.calls L Program.empty cs) := by
  have h := Program.calls_ordered L Program.empty cs List.Pairwise.nil
  have hp := Program.lineNumbers_pairwise _ h
  refine ⟨hp, ?_, fun cout => Program.display_eq _ cout, ?_⟩
  · exact List.Pairwise.imp (fun hab => ne_of_lt hab) hp
  · intro cs2 hperm
    exact Program.eq_of_perm _ _ (Program.calls_ordered L Program.empty cs2 List.Pairwise.nil) h hperm

/-- C2: on an ordered store that holds line `n`, `addSourceLine(n, text)` with
a text that parses returns normally, keeps the number of stored lines, puts the
new text and the newly parsed statement in the place of line `n`, and leaves
every other line as it was. -/
theorem Program.addSourceLine_replace (L : Lib) (P : Program) (n : Int) (text : String)
    (stmt : Option Statement) (hP : P.ordered) (hn : n ∈ P.lineNumbers)
    (hparse : getStatement L (L.setInput text).nextToken.2 = .ok stmt) :
    (P.addSourceLine L n text).1 = .ok ∧
    (P.addSourceLine L n text).2.S.length = P.S.length ∧
    (P.addSourceLine L n text).2.S =
      P.S.map (fun c => if c.lineNumber = n then ⟨n, text, stmt⟩ else c) ∧
    (⟨n, text, stmt⟩ : clause) ∈ (P.addSourceLine L n text).2.S ∧
    (∀ c ∈ (P.addSourceLine L n text).2.S, c.lineNumber = n → c = ⟨n, text, stmt⟩) ∧
    (∀ c, c.lineNumber ≠ n → (c ∈ (P.addSourceLine L n text).2.S ↔ c ∈ P.S)) := by
  have hS : (P.addSourceLine L n text).2.S =
      P.S.map (fun c => if c.lineNumber = n then ⟨n, text, stmt⟩ else c) := by
    rw [Program.addSourceLine_ok L P n text stmt hP hparse]
    exact set.insert_filter P.S ⟨n, text, stmt⟩ hP hn
  refine ⟨?_, ?_, hS, ?_, ?_, ?_⟩
  · rw [Program.addSourceLine_ok L P n text stmt hP hparse]
  · rw [hS, List.length_map]
  · rw [hS]
    obtain ⟨a, ha, han⟩ := List.mem_map.1 hn
    exact List.mem_map.2 ⟨a, ha, by simp [han]⟩
  · intro c hc hcn
    rw [hS] at hc
    obtain ⟨a, _, hac⟩ := List.mem_map.1 hc
    by_cases h : a.lineNumber = n
    · simp only [h, if_true] at hac
      exact hac.symm
    · simp only [h, if_false] at hac
      exact absurd (hac ▸ hcn) h
  · intro c hcn
    rw [hS]
    constructor
    · intro hc
      obtain ⟨a, ha, hac⟩ := List.mem_map.1 hc
      by_cases h : a.lineNumber = n
      · simp only [h, if_true] at hac
        exact absurd (by rw [← hac]) hcn
      · simp only [h, if_false] at hac
        exact hac ▸ ha
    · intro hc
      exact List.mem_map.2 ⟨c, hc, by simp [hcn]⟩

/-- C3: on an ordered store, `removeSourceLine(n)` leaves exactly the lines
whose number is not `n`, in their order and unchanged; when `n` is not stored
the store is unchanged. -/
theorem Program.removeSourceLine_frame (P : Program) (n : Int) (hP : P.ordered) :
    (P.removeSourceLine n).S = P.S.filter (fun c => c.lineNumber ≠ n) ∧
    (n ∉ P.lineNumbers → P.removeSourceLine n = P) := by
  refine ⟨by rw [Program.removeSourceLine_eq P n hP], fun h => ?_⟩
  rw [Program.removeSourceLine_eq P n hP, set.filter_eq_self_of_not_mem P.S n h]

/-- C4: after `addSourceLine(n, t)` with a text `t` that parses, on an ordered
store, `getSourceLine(n)` returns exactly `t`. -/
theorem Program.getSourceLine_addSourceLine (L : Lib) (P : Program) (n : Int) (t : String)
    (stmt : Option Statement) (hP : P.ordered)
    (hparse : getStatement L (L.setInput t).nextToken.2 = .ok stmt) :
    (P.addSourceLine L n t).1 = .ok ∧
    (P.addSourceLine L n t).2.getSourceLine n = .value t := by
  rw [Program.addSourceLine_ok L P n t stmt hP hparse]
  refine ⟨rfl, ?_⟩
  unfold Program.getSourceLine
  simp only
  rw [set.deref_find_insert _ ⟨n, t, stmt⟩ ⟨n, "", none⟩ rfl (set.not_mem_filter P.S n)]

/-- C5 (what the code does): for a line number that is not stored,
`getSourceLine` dereferences `end()`; it has no defined result, and so does
not return the empty string. -/
theorem Program.getSourceLine_absent (P : Program) (n : Int) (h : n ∉ P.lineNumbers) :
    P.getSourceLine n = .undefined ∧ P.getSourceLine n ≠ .value "" := by
  have h1 : P.getSourceLine n = .undefined := by
    unfold Program.getSourceLine
    rw [(set.find_eq_length_iff P.S ⟨n, "", none⟩).2 h]
    simp [set.deref]
  rw [h1]
  exact ⟨rfl, by simp⟩

theorem set.next_spec (S : List clause) (n : Int) (hS : S.Pairwise clause.lt)
    (hn : n ∈ S.map clause.lineNumber) :
    match (set.deref S (set.find S ⟨n, "", none⟩ + 1)).map clause.lineNumber with
    | some k => k ∈ S.map clause.lineNumber ∧ n < k ∧
        ∀ j ∈ S.map clause.lineNumber, n < j → k ≤ j
    | none => ∀ j ∈ S.map clause.lineNumber, j ≤ n := by
  induction S with
  | nil => simp at hn
  | cons c cs ih =>
    rw [List.pairwise_cons] at hS
    have hgt : ∀ a ∈ cs, c.lineNumber < a.lineNumber := fun a ha => hS.1 a ha
    by_cases hc : c.lineNumber = n
    · rw [set.find_cons_eq c cs ⟨n, "", none⟩ hc]
      cases cs with
      | nil =>
        show ∀ j ∈ [c].map clause.lineNumber, j ≤ n
        intro j hj
        simp only [List.map_cons, List.map_nil, List.mem_singleton] at hj
        omega
      | cons d ds =>
        have hd := hgt d (by simp)
        rw [List.pairwise_cons] at hS
        have hds : ∀ a ∈ ds, d.lineNumber < a.lineNumber := fun a ha => hS.2.1 a ha
        show d.lineNumber ∈ _ ∧ n < d.lineNumber ∧ _
        refine ⟨by simp, by omega, ?_⟩
        intro j hj hnj
        simp only [List.map_cons, List.mem_cons, List.mem_map] at hj
        rcases hj with rfl | rfl | ⟨a, ha, rfl⟩
        · omega
        · omega
        · have := hds a ha
          omega
    · have hin : n ∈ cs.map clause.lineNumber := by
        simp only [List.map_cons, List.mem_cons] at hn
        rcases hn with h | h
        · exact absurd h.symm hc
        · exact h
      obtain ⟨a, ha, han⟩ := List.mem_map.1 hin
      have hcn : c.lineNumber < n := by
        have := hgt a ha
        omega
      rw [set.find_cons_ne c cs ⟨n, "", none⟩ hc]
      have h1 : set.deref (c :: cs) (set.find cs ⟨n, "", none⟩ + 1 + 1) =
          set.deref cs (set.find cs ⟨n, "", none⟩ + 1) := by
        simp [set.deref]
      rw [h1]
      have := ih hS.2 hin
      revert this
      cases (set.deref cs (set.find cs ⟨n, "", none⟩ + 1)).map clause.lineNumber with
      | none =>
        intro h2 j hj
        simp only [List.map_cons, List.mem_cons] at hj
        rcases hj with rfl | hj
        · omega
        · exact h2 j hj
      | some k =>
        intro h2
        refine ⟨List.mem_cons_of_mem _ h2.1, h2.2.1, ?_⟩
        intro j hj hnj
        simp only [List.map_cons, List.mem_cons] at hj
        rcases hj with rfl | hj
        · omega
        · exact h2.2.2 j hj hnj

/-- C6 (what the code does): on an ordered store that is not empty,
`getFirstLineNumber` returns the smallest stored line number; on the empty store
it dereferences `begin() = end()` and has no defined result. -/
theorem Program.getFirstLineNumber_spec :
    (∀ P : Program, P.ordered → P.S ≠ [] →
      ∃ n, P.getFirstLineNumber = .value n ∧ n ∈ P.lineNumbers ∧
        ∀ k ∈ P.lineNumbers, n ≤ k) ∧
    Program.empty.getFirstLineNumber = .undefined ∧
    Program.empty.getFirstLineNumber ≠ .value (-1) := by
  refine ⟨?_, rfl, by decide⟩
  intro P hP hne
  obtain ⟨S⟩ := P
  cases S with
  | nil => exact absurd rfl hne
  | cons c cs =>
    refine ⟨c.lineNumber, rfl, by simp [Program.lineNumbers], ?_⟩
    intro k hk
    have hP2 := List.pairwise_cons.1 hP
    simp only [Program.lineNumbers, List.map_cons, List.mem_cons, List.mem_map] at hk
    rcases hk with rfl | ⟨a, ha, rfl⟩
    · exact le_refl _
    · exact le_of_lt (hP2.1 a ha)

/-- C7 (what the code does): on an ordered store that holds line `n`,
`getNextLineNumber(n)` returns the smallest stored line number greater than `n`
when there is one; when `n` is the last line it dereferences `end()` and has no
defined result. -/
theorem Program.getNextLineNumber_spec (P : Program) (n : Int) (hP : P.ordered)
    (hn : n ∈ P.lineNumbers) :
    (∀ k, P.getNextLineNumber n = .value k →
      k ∈ P.lineNumbers ∧ n < k ∧ ∀ j ∈ P.lineNumbers, n < j → k ≤ j) ∧
    ((∃ j ∈ P.lineNumbers, n < j) → ∃ k, P.getNextLineNumber n = .value k) ∧
    ((∀ j ∈ P.lineNumbers, j ≤ n) →
      P.getNextLineNumber n = .undefined ∧ P.getNextLineNumber n ≠ .value (-1)) := by
  have h := set.next_spec P.S n hP hn
  unfold Program.getNextLineNumber Program.lineNumbers
  simp only
  revert h
  cases set.deref P.S (set.find P.S ⟨n, "", none⟩ + 1) with
  | none =>
    intro h
    refine ⟨fun k hk => by simp at hk, ?_, fun _ => ⟨rfl, by simp⟩⟩
    rintro ⟨j, hj, hnj⟩
    have := h j hj
    omega
  | some d =>
    intro h
    refine ⟨fun k2 hk => ?_, fun _ => ⟨d.lineNumber, rfl⟩, fun hall => ?_⟩
    · have : d.lineNumber = k2 := by simpa using hk
      subst this
      exact h
    · have := hall d.lineNumber h.1
      have h2 := h.2.1
      omega

/-- C8: when the statement of `text` fails to parse with error `e`,
`addSourceLine(n, text)` throws `e` and the store is exactly the one before the
call: nothing is inserted, and a line `n` stored before keeps its text and
statement. -/
theorem Program.addSourceLine_atomic (L : Lib) (P : Program) (n : Int) (text e : String)
    (hparse : getStatement L (L.setInput text).nextToken.2 = .error e) :
    P.addSourceLine L n text = (.error e, P) :=
  Program.addSourceLine_error L P n text e hparse

/-! ### Instances of the claims on the store -/

theorem Program.display_ascending_witness :
    (Program.calls Lib.standard Program.empty
        [.addSourceLine 10 "10 END", .addSourceLine 20 "20 PRINT 1"]).S.Perm
      (Program.calls Lib.standard Program.empty
        [.addSourceLine 20 "20 PRINT 1", .addSourceLine 10 "10 END"]).S ∧
    Program.calls Lib.standard Program.empty
        [.addSourceLine 10 "10 END", .addSourceLine 20 "20 PRINT 1"] =
      Program.calls Lib.standard Program.empty
        [.addSourceLine 20 "20 PRINT 1", .addSourceLine 10 "10 END"] :=
  ⟨by decide,
    (Program.display_ascending Lib.standard
      [.addSourceLine 20 "20 PRINT 1", .addSourceLine 10 "10 END"]).2.2.2
      [.addSourceLine 10 "10 END", .addSourceLine 20 "20 PRINT 1"] (by decide)⟩

theorem Program.addSourceLine_replace_witness :
    (Program.sample.ordered ∧ (10 : Int) ∈ Program.sample.lineNumbers ∧
      getStatement Lib.standard (Lib.standard.setInput "10 PRINT 7").nextToken.2 =
        .ok (some (.PRINT_Sta (.ConstantExp 7)))) ∧
    (Program.sample.addSourceLine Lib.standard 10 "10 PRINT 7").2.S =
      Program.sample.S.map (fun c =>
        if c.lineNumber = 10 then ⟨10, "10 PRINT 7", some (.PRINT_Sta (.ConstantExp 7))⟩ else c) :=
  ⟨⟨by decide, by decide, by decide⟩,
    (Program.addSourceLine_replace Lib.standard Program.sample 10 "10 PRINT 7"
      (some (.PRINT_Sta (.ConstantExp 7))) (by decide) (by decide) (by decide)).2.2.1⟩

theorem Program.removeSourceLine_frame_witness :
    Program.sample.ordered ∧
    (Program.sample.removeSourceLine 10).S =
      Program.sample.S.filter (fun c => c.lineNumber ≠ 10) :=
  ⟨by decide, (Program.removeSourceLine_frame Program.sample 10 (by decide)).1⟩

theorem Program.getSourceLine_addSourceLine_witness :
    (Program.sample.ordered ∧
      getStatement Lib.standard (Lib.standard.setInput "15 INPUT Y").nextToken.2 =
        .ok (some (.INPUT_Sta "Y"))) ∧
    (Program.sample.addSourceLine Lib.standard 15 "15 INPUT Y").2.getSourceLine 15 =
      .value "15 INPUT Y" :=
  ⟨⟨by decide, by decide⟩,
    (Program.getSourceLine_addSourceLine Lib.standard Program.sample 15 "15 INPUT Y"
      (some (.INPUT_Sta "Y")) (by decide) (by decide)).2⟩

theorem Program.getSourceLine_absent_witness :
    (30 : Int) ∉ Program.sample.lineNumbers ∧
    Program.sample.getSourceLine 30 = .undefined :=
  ⟨by decide, (Program.getSourceLine_absent Program.sample 30 (by decide)).1⟩

theorem Program.getFirstLineNumber_spec_witness :
    (Program.sample.ordered ∧ Program.sample.S ≠ []) ∧
    ∃ n, Program.sample.getFirstLineNumber = .value n ∧ n ∈ Program.sample.lineNumbers ∧
      ∀ k ∈ Program.sample.lineNumbers, n ≤ k :=
  ⟨⟨by decide, by decide⟩,
    Program.getFirstLineNumber_spec.1 Program.sample (by decide) (by decide)⟩

theorem Program.getNextLineNumber_spec_witness :
    (Program.sample.ordered ∧ (20 : Int) ∈ Program.sample.lineNumbers ∧
      ∀ j ∈ Program.sample.lineNumbers, j ≤ 20) ∧
    Program.sample.getNextLineNumber 20 = .undefined :=
  ⟨⟨by decide, by decide, by decide⟩,
    ((Program.getNextLineNumber_spec Program.sample 20 (by decide) (by decide)).2.2
      (by decide)).1⟩

theorem Program.addSourceLine_atomic_witness :
    getStatement Lib.standard (Lib.standard.setInput "10 LET PRINT = 5").nextToken.2 =
      .error "SYNTAX ERROR" ∧
    Program.sample.addSourceLine Lib.standard 10 "10 LET PRINT = 5" =
      (.error "SYNTAX ERROR", Program.sample) :=
  ⟨by decide,
    Program.addSourceLine_atomic Lib.standard Program.sample 10 "10 LET PRINT = 5"
      "SYNTAX ERROR" (by decide)⟩

/-! ## Lemmas on the run loop -/

theorem EvalState.getValue_setValue_same (st : EvalState) (var : String) (value : Int) :
    (st.setValue var value).getValue var = .ok value := by
  induction st with
  | nil => simp [EvalState.setValue, EvalState.getValue]
  | cons p rest ih =>
    obtain ⟨k, x⟩ := p
    by_cases h : k = var
    · simp [EvalState.setValue, EvalState.getValue, h]
    · simp [EvalState.setValue, EvalState.getValue, h, ih]

theorem EvalState.getValue_setValue_ne (st : EvalState) (var other : String) (value : Int)
    (hne : var ≠ other) : (st.setValue var value).getValue other = st.getValue other := by
  induction st with
  | nil => simp [EvalState.setValue, EvalState.getValue, hne]
  | cons p rest ih =>
    obtain ⟨k, x⟩ := p
    by_cases h : k = var
    · subst h
      simp [EvalState.setValue, EvalState.getValue, hne]
    · by_cases h2 : k = other
      · subst h2
        simp [EvalState.setValue, EvalState.getValue, h]
      · simp [EvalState.setValue, EvalState.getValue, h, h2, ih]

theorem set.deref_lt_length (S : List clause) (it : Nat) (c : clause)
    (h : set.deref S it = some c) : it ≠ S.length := by
  intro e
  subst e
  simp [set.deref] at h

/-- A round that executes a statement slot is the `else` branch of the loop
body on that line. -/
theorem Program.step_of_executes (L : Lib) (P : Program) (it : Nat) (m : Machine) (c : clause)
    (h : P.executes it m c) : P.step L it m = Program.exec L c it m := by
  obtain ⟨hd, ⟨endTag, he, he1⟩, ⟨done, hg, hg0⟩⟩ := h
  have hit := set.deref_lt_length P.S it c hd
  unfold Program.step Program.cond
  simp only [hit, ne_eq, not_false_eq_true, if_true, he, he1, if_false, hg, hg0, hd]

/-- A statement that requests a jump to `t` returns normally, having set
`GOTO_TAG` to `t` and `GOTO_DONE` to 0 and nothing else. -/
theorem Statement.execute_jumpsTo (L : Lib) (stmt : Statement) (m : Machine) (t : Int)
    (h : stmt.jumpsTo m t) :
    stmt.execute L m =
      (.ok, { m with state := (m.state.setValue "GOTO_TAG" t).setValue "GOTO_DONE" 0 }) := by
  rcases h with h | ⟨op, lhs, rhs, l, r, h, hl, hr, hcmp⟩
  · subst h
    rfl
  · subst h
    simp only [Statement.execute, IF_Sta.execute, hl, hr, hcmp, if_true]

/-- The round in which the statement of line `c` requests a jump to `t`. -/
theorem Program.exec_jumpsTo (L : Lib) (c : clause) (it : Nat) (m : Machine) (stmt : Statement)
    (t : Int) (hs : c.stmt = some stmt) (h : stmt.jumpsTo m t) :
    Program.exec L c it m =
      .next (it + 1)
        { m with
          state := (m.state.setValue "GOTO_TAG" t).setValue "GOTO_DONE" 0
          trace := m.trace ++ [c.lineNumber] } := by
  have hj : stmt.jumpsTo { m with trace := m.trace ++ [c.lineNumber] } t := h
  unfold Program.exec
  simp only [hs, Statement.execute_jumpsTo L stmt _ t hj]

/-- The round after a jump request: the jump is resolved whatever the iterator
is, also `end()`. -/
theorem Program.step_pending (L : Lib) (P : Program) (it : Nat) (m : Machine) (t : Int)
    (st : EvalState) (hst : m.state = (st.setValue "GOTO_TAG" t).setValue "GOTO_DONE" 0)
    (hend : ∃ endTag, st.getValue "PROGRAM_END_TAG" = .ok endTag ∧ endTag ≠ 1) :
    P.step L it m =
      if set.find P.S ⟨t, "", none⟩ = P.S.length then
        .done (.error "LINE NUMBER ERROR")
          { m with state := m.state.setValue "GOTO_DONE" 1 }
      else .next (set.find P.S ⟨t, "", none⟩)
          { m with state := m.state.setValue "GOTO_DONE" 1 } := by
  obtain ⟨endTag, he, he1⟩ := hend
  have hg : m.state.getValue "GOTO_DONE" = .ok 0 := by
    rw [hst]; exact EvalState.getValue_setValue_same _ _ _
  have hp : m.state.getValue "PROGRAM_END_TAG" = .ok endTag := by
    rw [hst, EvalState.getValue_setValue_ne _ _ _ _ (by decide),
      EvalState.getValue_setValue_ne _ _ _ _ (by decide)]
    exact he
  have ht : (m.state.setValue "GOTO_DONE" 1).getValue "GOTO_TAG" = .ok t := by
    rw [hst, EvalState.getValue_setValue_ne _ _ _ _ (by decide),
      EvalState.getValue_setValue_ne _ _ _ _ (by decide)]
    exact EvalState.getValue_setValue_same _ _ _
  have hc : P.cond it m = .ok true := by
    unfold Program.cond
    split
    · rfl
    · simp [hg]
  unfold Program.step Program.jump
  simp only [hc, hp, he1, if_false, hg, if_true, ht]

theorem Program.loop_of_rounds (L : Lib) (P : Program) (k fuel it it1 : Nat) (m m1 : Machine)
    (h : P.rounds L k it m = some (it1, m1)) :
    P.loop L (k + fuel) it m = P.loop L fuel it1 m1 := by
  induction k generalizing it m with
  | zero =>
    simp only [Program.rounds, Option.some.injEq, Prod.mk.injEq] at h
    rw [h.1, h.2, Nat.zero_add]
  | succ k ih =>
    rw [Nat.succ_add]
    unfold Program.rounds at h
    conv_lhs => unfold Program.loop
    cases hs : P.step L it m with
    | done status m2 => simp [hs] at h
    | next it2 m2 =>
      simp only [hs] at h
      exact ih it2 m2 h

theorem Program.rounds_succ (L : Lib) (P : Program) (k it it1 it2 : Nat) (m m1 m2 : Machine)
    (h : P.rounds L k it m = some (it1, m1)) (hs : P.step L it1 m1 = .next it2 m2) :
    P.rounds L (k + 1) it m = some (it2, m2) := by
  induction k generalizing it m with
  | zero =>
    simp only [Program.rounds, Option.some.injEq, Prod.mk.injEq] at h
    rw [h.1, h.2]
    simp [Program.rounds, hs]
  | succ k ih =>
    unfold Program.rounds at h
    conv_lhs => unfold Program.rounds
    cases hs2 : P.step L it m with
    | done status m3 => simp [hs2] at h
    | next it3 m3 =>
      simp only [hs2] at h
      exact ih it3 m3 h

/-- The two rounds from a statement that requests a jump to `t`: the round that
executes it, and the round that resolves the jump. -/
theorem Program.step_jump (L : Lib) (P : Program) (it : Nat) (m : Machine) (c : clause)
    (stmt : Statement) (t : Int) (hexec : P.executes it m c) (hs : c.stmt = some stmt)
    (hj : stmt.jumpsTo m t) :
    ∃ m1, P.step L it m = .next (it + 1) m1 ∧
      P.step L (it + 1) m1 =
        if set.find P.S ⟨t, "", none⟩ = P.S.length then
          .done (.error "LINE NUMBER ERROR") (m.afterJump c.lineNumber t)
        else .next (set.find P.S ⟨t, "", none⟩) (m.afterJump c.lineNumber t) := by
  refine ⟨_, (Program.step_of_executes L P it m c hexec).trans
    (Program.exec_jumpsTo L c it m stmt t hs hj), ?_⟩
  rw [Program.step_pending L P (it + 1) _ t m.state rfl hexec.2.1]
  rfl

theorem Program.loop_mono (L : Lib) (P : Program) (fuel extra it : Nat) (m : Machine)
    (r : Status × Machine) (h : P.loop L fuel it m = some r) :
    P.loop L (fuel + extra) it m = some r := by
  induction fuel generalizing it m with
  | zero => simp [Program.loop] at h
  | succ fuel ih =>
    rw [Nat.succ_add]
    unfold Program.loop at h ⊢
    cases hs : P.step L it m with
    | done status m2 =>
      simp only [hs] at h ⊢
      exact h
    | next it2 m2 =>
      simp only [hs] at h ⊢
      exact ih it2 m2 h

/-! ## The claims on jumps -/

/-- C9: when `run`, after `k` rounds of its loop, executes on line `c` a
statement that requests a jump to `t` (a `GOTO t`, or an `IF ... THEN t` whose
comparison holds) and no stored line has number `t`, then `run` fails with
`LINE NUMBER ERROR` in the next round, wherever line `c` stands in the store:
line `c` is the last line in the history, and input, output and bindings are
those the jumping statement left, up to the flag `GOTO_DONE`. -/
theorem Program.run_jump_missing (L : Lib) (P : Program) (m : Machine) (k it : Nat)
    (mk : Machine) (c : clause) (stmt : Statement) (t : Int)
    (hreach : P.rounds L k 0 (Program.start m) = some (it, mk))
    (hexec : P.executes it mk c) (hs : c.stmt = some stmt) (hj : stmt.jumpsTo mk t)
    (hmiss : t ∉ P.lineNumbers) :
    (∀ fuel, k + 2 ≤ fuel →
      P.run L fuel m = some (.error "LINE NUMBER ERROR", mk.afterJump c.lineNumber t)) ∧
    (mk.afterJump c.lineNumber t).trace = mk.trace ++ [c.lineNumber] ∧
    (mk.afterJump c.lineNumber t).cout = mk.cout ∧
    (mk.afterJump c.lineNumber t).cin = mk.cin := by
  refine ⟨?_, rfl, rfl, rfl⟩
  intro fuel hfuel
  obtain ⟨extra, rfl⟩ := Nat.exists_eq_add_of_le hfuel
  obtain ⟨m1, h1, h2⟩ := Program.step_jump L P it mk c stmt t hexec hs hj
  rw [if_pos ((set.find_eq_length_iff P.S ⟨t, "", none⟩).2 hmiss)] at h2
  unfold Program.run
  rw [Nat.add_assoc, Program.loop_of_rounds L P k (2 + extra) 0 it _ mk hreach,
    show 2 + extra = (extra + 1) + 1 by omega]
  unfold Program.loop
  simp only [h1]
  unfold Program.loop
  simp only [h2]

/-- C10: when `run`, after `k` rounds of its loop, executes `GOTO t` on line
`c` and line `t` is stored, then two rounds later the loop stands on line `t`
with nothing executed in between (the history has only gained line `c`), and
that round executes the statement slot of line `t`; this holds wherever lines
`c` and `t` stand in the store. On the program `10 LET X = 1`, `20 PRINT X`,
`30 GOTO 50`, `40 PRINT 999`, `50 END`, `run` returns normally having written
only `1` and executed lines 10, 20, 30, 50. -/
theorem Program.run_goto_lands :
    (∀ (L : Lib) (P : Program) (m : Machine) (k it : Nat) (mk : Machine) (c : clause) (t : Int),
      P.rounds L k 0 (Program.start m) = some (it, mk) →
      P.executes it mk c → c.stmt = some (.GOTO_Sta t) → t ∈ P.lineNumbers →
      ∃ ct, set.deref P.S (set.find P.S ⟨t, "", none⟩) = some ct ∧ ct.lineNumber = t ∧
        P.rounds L (k + 2) 0 (Program.start m) =
          some (set.find P.S ⟨t, "", none⟩, mk.afterJump c.lineNumber t) ∧
        (mk.afterJump c.lineNumber t).trace = mk.trace ++ [c.lineNumber] ∧
        (mk.afterJump c.lineNumber t).cout = mk.cout ∧
        P.executes (set.find P.S ⟨t, "", none⟩) (mk.afterJump c.lineNumber t) ct ∧
        P.step L (set.find P.S ⟨t, "", none⟩) (mk.afterJump c.lineNumber t) =
          Program.exec L ct (set.find P.S ⟨t, "", none⟩) (mk.afterJump c.lineNumber t)) ∧
    (∀ fuel, 6 ≤ fuel →
      Program.gotoSkip.run Lib.standard fuel Machine.fresh =
        some (.ok,
          ⟨[("GOTO_DONE", 1), ("PROGRAM_END_TAG", 1), ("X", 1), ("GOTO_TAG", 50)], [], "1\n",
            [10, 20, 30, 50]⟩)) := by
  constructor
  · intro L P m k it mk c t hreach hexec hs hhit
    obtain ⟨ct, hct, _, hln⟩ := set.deref_find P.S ⟨t, "", none⟩ hhit
    obtain ⟨m1, h1, h2⟩ :=
      Program.step_jump L P it mk c (.GOTO_Sta t) t hexec hs (Or.inl rfl)
    have hne : set.find P.S ⟨t, "", none⟩ ≠ P.S.length := set.deref_lt_length P.S _ ct hct
    rw [if_neg hne] at h2
    have hex : P.executes (set.find P.S ⟨t, "", none⟩) (mk.afterJump c.lineNumber t) ct := by
      obtain ⟨_, ⟨endTag, he, he1⟩, _⟩ := hexec
      refine ⟨hct, ⟨endTag, ?_, he1⟩, ⟨1, ?_, by decide⟩⟩
      · show (((mk.state.setValue "GOTO_TAG" t).setValue "GOTO_DONE" 0).setValue
          "GOTO_DONE" 1).getValue "PROGRAM_END_TAG" = _
        rw [EvalState.getValue_setValue_ne _ _ _ _ (by decide),
          EvalState.getValue_setValue_ne _ _ _ _ (by decide),
          EvalState.getValue_setValue_ne _ _ _ _ (by decide)]
        exact he
      · exact EvalState.getValue_setValue_same _ _ _
    refine ⟨ct, hct, hln, ?_, rfl, rfl, hex, Program.step_of_executes L P _ _ ct hex⟩
    exact Program.rounds_succ L P (k + 1) 0 (it + 1) _ _ m1 _
      (Program.rounds_succ L P k 0 it (it + 1) _ mk m1 hreach h1) h2
  · intro fuel hfuel
    obtain ⟨extra, rfl⟩ := Nat.exists_eq_add_of_le hfuel
    exact Program.loop_mono Lib.standard Program.gotoSkip 6 extra 0 _ _ (by decide)

/-! ### Instances of the claims on jumps -/

theorem Program.run_jump_missing_witness :
    (Program.gotoMissing.rounds Lib.standard 0 0 (Program.start Machine.fresh) =
        some (0, ⟨[("GOTO_DONE", 1), ("PROGRAM_END_TAG", 0)], [], "", []⟩) ∧
      Program.gotoMissing.executes 0 ⟨[("GOTO_DONE", 1), ("PROGRAM_END_TAG", 0)], [], "", []⟩
        ⟨10, "10 GOTO 99", some (.GOTO_Sta 99)⟩ ∧
      (99 : Int) ∉ Program.gotoMissing.lineNumbers) ∧
    Program.gotoMissing.run Lib.standard 2 Machine.fresh =
      some (.error "LINE NUMBER ERROR",
        ⟨[("GOTO_DONE", 1), ("PROGRAM_END_TAG", 0), ("GOTO_TAG", 99)], [], "", [10]⟩) :=
  ⟨⟨by decide, ⟨by decide, ⟨0, by decide, by decide⟩, ⟨1, by decide, by decide⟩⟩, by decide⟩,
    (Program.run_jump_missing Lib.standard Program.gotoMissing Machine.fresh 0 0
      ⟨[("GOTO_DONE", 1), ("PROGRAM_END_TAG", 0)], [], "", []⟩
      ⟨10, "10 GOTO 99", some (.GOTO_Sta 99)⟩ (.GOTO_Sta 99) 99 (by decide)
      ⟨by decide, ⟨0, by decide, by decide⟩, ⟨1, by decide, by decide⟩⟩ rfl (Or.inl rfl)
      (by decide)).1 2 (le_refl _)⟩

theorem Program.run_goto_lands_witness :
    (Program.gotoSkip.rounds Lib.standard 2 0 (Program.start Machine.fresh) =
        some (2, ⟨[("GOTO_DONE", 1), ("PROGRAM_END_TAG", 0), ("X", 1)], [], "1\n", [10, 20]⟩) ∧
      Program.gotoSkip.executes 2
        ⟨[("GOTO_DONE", 1), ("PROGRAM_END_TAG", 0), ("X", 1)], [], "1\n", [10, 20]⟩
        ⟨30, "30 GOTO 50", some (.GOTO_Sta 50)⟩ ∧
      (50 : Int) ∈ Program.gotoSkip.lineNumbers) ∧
    ∃ ct, set.deref Program.gotoSkip.S (set.find Program.gotoSkip.S ⟨50, "", none⟩) = some ct ∧
      ct.lineNumber = 50 ∧
      Program.gotoSkip.rounds Lib.standard (2 + 2) 0 (Program.start Machine.fresh) =
        some (set.find Program.gotoSkip.S ⟨50, "", none⟩,
          Machine.afterJump
            ⟨[("GOTO_DONE", 1), ("PROGRAM_END_TAG", 0), ("X", 1)], [], "1\n", [10, 20]⟩ 30 50) :=
  ⟨⟨by decide, ⟨by decide, ⟨0, by decide, by decide⟩, ⟨1, by decide, by decide⟩⟩, by decide⟩,
    (Program.run_goto_lands.1 Lib.standard Program.gotoSkip Machine.fresh 2 2
      ⟨[("GOTO_DONE", 1), ("PROGRAM_END_TAG", 0), ("X", 1)], [], "1\n", [10, 20]⟩
      ⟨30, "30 GOTO 50", some (.GOTO_Sta 50)⟩ 50 (by decide)
      ⟨by decide, ⟨0, by decide, by decide⟩, ⟨1, by decide, by decide⟩⟩ rfl (by decide)).imp
      (fun _ h => ⟨h.1, h.2.1, h.2.2.1⟩)⟩

/-! ## Lemmas on statements and their parsers -/

theorem LET_Sta.search_reserved (name : String) (h : name ∈ illegalNames) :
    LET_Sta.search name (illegalCnt + 1) 0 ≠ illegalCnt := by
  simp only [illegalNames, List.mem_cons, List.mem_singleton, List.not_mem_nil, or_false] at h
  rcases h with rfl | rfl | rfl | rfl | rfl | rfl | rfl | rfl | rfl | rfl | rfl | rfl | rfl <;>
    decide

theorem LET_Sta.search_free (name : String) (h : name ∉ illegalNames) :
    LET_Sta.search name (illegalCnt + 1) 0 = illegalCnt := by
  simp only [illegalNames, List.mem_cons, List.mem_singleton, List.not_mem_nil, or_false,
    not_or] at h
  obtain ⟨h1, h2, h3, h4, h5, h6, h7, h8, h9, h10, h11, h12, h13⟩ := h
  simp [LET_Sta.search, illegalCnt, illegalNames, Ne.symm h1, Ne.symm h2, Ne.symm h3,
    Ne.symm h4, Ne.symm h5, Ne.symm h6, Ne.symm h7, Ne.symm h8, Ne.symm h9, Ne.symm h10,
    Ne.symm h11, Ne.symm h12, Ne.symm h13]

theorem getStatement.search_unknown (type : String) (h : type ∉ Types) :
    getStatement.search type (SIZE + 1) 0 = SIZE := by
  simp only [Types, List.mem_cons, List.mem_singleton, List.not_mem_nil, or_false,
    not_or] at h
  obtain ⟨h1, h2, h3, h4, h5, h6, h7⟩ := h
  simp [getStatement.search, SIZE, Types, Ne.symm h1, Ne.symm h2, Ne.symm h3,
    Ne.symm h4, Ne.symm h5, Ne.symm h6, Ne.symm h7]

/-- A stored line whose statement parser leaves tokens behind is rejected by
`getStatement`. -/
theorem getStatement.leftover (L : Lib) (type : String) (scanner : TokenScanner)
    (stmt : Statement) (rest : TokenScanner)
    (hid : getStatement.search type (SIZE + 1) 0 ≠ 0)
    (hparse : getStatement.dispatch L (getStatement.search type (SIZE + 1) 0) scanner =
      .ok (some (stmt, rest)))
    (hmore : rest.hasMoreTokens = true) :
    getStatement L (type :: scanner) = .error "SYNTAX ERROR" := by
  unfold getStatement
  simp only [TokenScanner.nextToken, hparse, hmore, hid, ne_eq, not_false_eq_true, and_self,
    if_true]

/-! ## The claims on statements and their parsers -/

/-- C11: when the two sides of `IF op lhs rhs THEN target` evaluate to `l` and
`r`, executing it requests a jump to `target` (sets `GOTO_TAG` and clears
`GOTO_DONE`) if the comparison holds, and otherwise leaves the machine as it
was; in that case the round of `run` moves on to the next stored line, whose
statement slot the next round executes. On the program `10 LET X = 0`,
`20 IF X = 0 THEN 40`, `30 PRINT 111`, `40 PRINT 222`, `run` writes only
`222`. -/
theorem IF_Sta.execute_spec :
    (∀ (L : Lib) (op : Char) (lhs rhs : Expression) (target : Int) (m : Machine) (l r : Int),
      lhs.eval m.state = .ok l → rhs.eval m.state = .ok r →
      (IF_Sta.holds op l r →
        (Statement.IF_Sta op lhs rhs target).execute L m = (.ok, m.requestJump target)) ∧
      (¬ IF_Sta.holds op l r →
        (Statement.IF_Sta op lhs rhs target).execute L m = (.ok, m))) ∧
    (∀ (L : Lib) (P : Program) (it : Nat) (m : Machine) (c : clause) (op : Char)
      (lhs rhs : Expression) (target l r : Int),
      P.executes it m c → c.stmt = some (.IF_Sta op lhs rhs target) →
      lhs.eval m.state = .ok l → rhs.eval m.state = .ok r → ¬ IF_Sta.holds op l r →
      P.step L it m = .next (it + 1) (m.visit c.lineNumber) ∧
      ∀ c2, set.deref P.S (it + 1) = some c2 →
        P.executes (it + 1) (m.visit c.lineNumber) c2) ∧
    (∀ fuel, 5 ≤ fuel →
      Program.ifJump.run Lib.standard fuel Machine.fresh =
        some (.ok,
          ⟨[("GOTO_DONE", 1), ("PROGRAM_END_TAG", 0), ("X", 0), ("GOTO_TAG", 40)], [],
            "222\n", [10, 20, 40]⟩)) := by
  refine ⟨?_, ?_, ?_⟩
  · intro L op lhs rhs target m l r hl hr
    constructor
    · intro h
      simp only [Statement.execute, IF_Sta.execute, hl, hr]
      exact (if_pos h).trans rfl
    · intro h
      simp only [Statement.execute, IF_Sta.execute, hl, hr]
      exact if_neg h
  · intro L P it m c op lhs rhs target l r hexec hs hl hr hn
    constructor
    · rw [Program.step_of_executes L P it m c hexec]
      have hl2 : lhs.eval (m.visit c.lineNumber).state = .ok l := hl
      have hr2 : rhs.eval (m.visit c.lineNumber).state = .ok r := hr
      unfold Program.exec
      simp only [hs, Statement.execute, IF_Sta.execute]
      have : (match lhs.eval (m.visit c.lineNumber).state with
          | .error e => ((Status.error e, m.visit c.lineNumber) : Status × Machine)
          | .ok l =>
            match rhs.eval (m.visit c.lineNumber).state with
            | .error e => (.error e, m.visit c.lineNumber)
            | .ok r =>
              if (op = '=' ∧ l = r) ∨ (op = '<' ∧ l < r) ∨ (op = '>' ∧ l > r) then
                (.ok, { m.visit c.lineNumber with
                  state := ((m.visit c.lineNumber).state.setValue "GOTO_TAG" target).setValue
                    "GOTO_DONE" 0 })
              else (.ok, m.visit c.lineNumber)) = (.ok, m.visit c.lineNumber) := by
        rw [hl2, hr2]
        exact if_neg hn
      unfold Machine.visit at this ⊢
      simp only [this]
    · intro c2 hc2
      exact ⟨hc2, hexec.2.1, hexec.2.2⟩
  · intro fuel hfuel
    obtain ⟨extra, rfl⟩ := Nat.exists_eq_add_of_le hfuel
    exact Program.loop_mono Lib.standard Program.ifJump 5 extra 0 _ _ (by decide)

theorem LET_Sta.parseSta_kind_let (L : Lib) (scanner rest : TokenScanner) (stmt : Statement)
    (h : LET_Sta.parseSta L scanner = .ok (stmt, rest)) : stmt.kind = "LET" := by
  unfold LET_Sta.parseSta at h
  simp only at h
  split at h
  · simp at h
  · split at h
    · simp at h
    · simp only [Except.ok.injEq, Prod.mk.injEq] at h
      rw [← h.1]
      rfl

theorem PRINT_Sta.parseSta_kind_print (L : Lib) (scanner rest : TokenScanner) (stmt : Statement)
    (h : PRINT_Sta.parseSta L scanner = .ok (stmt, rest)) : stmt.kind = "PRINT" := by
  unfold PRINT_Sta.parseSta at h
  split at h
  · simp at h
  · simp only [Except.ok.injEq, Prod.mk.injEq] at h
    rw [← h.1]
    rfl

theorem INPUT_Sta.parseSta_kind_input (L : Lib) (scanner rest : TokenScanner) (stmt : Statement)
    (h : INPUT_Sta.parseSta L scanner = .ok (stmt, rest)) : stmt.kind = "INPUT" := by
  unfold INPUT_Sta.parseSta at h
  simp only at h
  split at h
  · simp at h
  · simp only [Except.ok.injEq, Prod.mk.injEq] at h
    rw [← h.1]
    rfl

theorem GOTO_Sta.parseSta_kind_goto (L : Lib) (scanner rest : TokenScanner) (stmt : Statement)
    (h : GOTO_Sta.parseSta L scanner = .ok (stmt, rest)) : stmt.kind = "GOTO" := by
  unfold GOTO_Sta.parseSta at h
  simp only at h
  split at h
  · simp at h
  · split at h
    · simp at h
    · simp only [Except.ok.injEq, Prod.mk.injEq] at h
      rw [← h.1]
      rfl

theorem IF_Sta.parseSta_kind_if (L : Lib) (scanner rest : TokenScanner) (stmt : Statement)
    (h : IF_Sta.parseSta L scanner = .ok (stmt, rest)) : stmt.kind = "IF" := by
  unfold IF_Sta.parseSta at h
  split at h
  · simp at h
  · split at h
    · simp at h
    · simp only at h
      split at h
      · simp at h
      · split at h
        · simp at h
        · split at h
          · split at h
            · simp at h
            · simp only [Except.ok.injEq, Prod.mk.injEq] at h
              rw [← h.1]
              rfl
          · simp at h

theorem END_Sta.parseSta_kind_end (scanner rest : TokenScanner) (stmt : Statement)
    (h : END_Sta.parseSta scanner = .ok (stmt, rest)) : stmt.kind = "END" := by
  unfold END_Sta.parseSta at h
  simp only [Except.ok.injEq, Prod.mk.injEq] at h
  rw [← h.1]
  rfl

/-- What `getStatement` returns for a statement keyword is a statement of the
subclass of that keyword. -/
theorem getStatement.kind_of_keyword (L : Lib) (type : String) (rest : TokenScanner)
    (r : Option Statement) (hk : type ∈ statementKeywords)
    (h : getStatement L (type :: rest) = .ok r) : ∃ stmt, r = some stmt ∧ stmt.kind = type := by
  unfold getStatement at h
  simp only [TokenScanner.nextToken] at h
  split at h
  · simp at h
  · rename_i hd
    simp only [statementKeywords, List.mem_cons, List.mem_singleton, List.not_mem_nil,
      or_false] at hk
    rcases hk with rfl | rfl | rfl | rfl | rfl | rfl <;>
      simp [getStatement.search, SIZE, Types, getStatement.dispatch, Except.map,
        END_Sta.parseSta] at hd <;>
      (split at hd <;> simp at hd)
  · rename_i stmt sc hd
    split at h
    · simp at h
    · simp only [Except.ok.injEq] at h
      refine ⟨stmt, h.symm, ?_⟩
      simp only [statementKeywords, List.mem_cons, List.mem_singleton, List.not_mem_nil,
        or_false] at hk
      rcases hk with rfl | rfl | rfl | rfl | rfl | rfl
      · have h1 : LET_Sta.parseSta L rest = .ok (stmt, sc) := by
          simp [getStatement.search, SIZE, Types, getStatement.dispatch, Except.map] at hd
          split at hd <;> simp_all
        exact LET_Sta.parseSta_kind_let L rest sc stmt h1
      · have h1 : PRINT_Sta.parseSta L rest = .ok (stmt, sc) := by
          simp [getStatement.search, SIZE, Types, getStatement.dispatch, Except.map] at hd
          split at hd <;> simp_all
        exact PRINT_Sta.parseSta_kind_print L rest sc stmt h1
      · have h1 : INPUT_Sta.parseSta L rest = .ok (stmt, sc) := by
          simp [getStatement.search, SIZE, Types, getStatement.dispatch, Except.map] at hd
          split at hd <;> simp_all
        exact INPUT_Sta.parseSta_kind_input L rest sc stmt h1
      · have h1 : GOTO_Sta.parseSta L rest = .ok (stmt, sc) := by
          simp [getStatement.search, SIZE, Types, getStatement.dispatch, Except.map] at hd
          split at hd <;> simp_all
        exact GOTO_Sta.parseSta_kind_goto L rest sc stmt h1
      · have h1 : IF_Sta.parseSta L rest = .ok (stmt, sc) := by
          simp [getStatement.search, SIZE, Types, getStatement.dispatch, Except.map] at hd
          split at hd <;> simp_all
        exact IF_Sta.parseSta_kind_if L rest sc stmt h1
      · have h1 : END_Sta.parseSta rest = .ok (stmt, sc) := by
          simp [getStatement.search, SIZE, Types, getStatement.dispatch, Except.map] at hd
          split at hd <;> simp_all
        exact END_Sta.parseSta_kind_end rest sc stmt h1

theorem getStatement.search_keyword (type : String) (h : type ∈ statementKeywords) :
    getStatement.search type (SIZE + 1) 0 ≠ 0 := by
  simp only [statementKeywords, List.mem_cons, List.mem_singleton, List.not_mem_nil,
    or_false] at h
  rcases h with rfl | rfl | rfl | rfl | rfl | rfl <;> decide

theorem IF_Sta.readLeft_append (L : Lib) (ts : List String) (op : String) (rest : TokenScanner)
    (left : String)
    (hts : ∀ t ∈ ts, (t ≠ "=" ∧ t ≠ "<" ∧ t ≠ ">") ∧ L.getTokenType t ≠ TokenType.EOF)
    (hop : op = "=" ∨ op = "<" ∨ op = ">") :
    IF_Sta.readLeft L (ts ++ op :: rest) left =
      .ok (ts.foldl (fun text nxt => text ++ nxt) left, op :: rest) := by
  induction ts generalizing left with
  | nil =>
    have h : ¬ (op ≠ "=" ∧ op ≠ "<" ∧ op ≠ ">") := by
      rcases hop with h | h | h <;> simp [h]
    simp only [List.nil_append, IF_Sta.readLeft, if_neg h, TokenScanner.saveToken,
      List.foldl_nil]
  | cons t ts ih =>
    have ht := hts t (by simp)
    simp only [List.cons_append, IF_Sta.readLeft, if_pos ht.1, if_neg ht.2, List.foldl_cons]
    exact ih (left ++ t) (fun t2 h2 => hts t2 (List.mem_cons_of_mem _ h2))

/-- C14: `LET_Sta::parseSta` fails with `SYNTAX ERROR` when the target is one of
the thirteen reserved names, whatever follows it; and for a word token that is
none of them, followed by `=` and tokens that `parseExp` accepts, it builds the
`LET` statement (and `getStatement` returns it when `parseExp` has used up the
tokens). The immediate line `LET PRINT = 5` fails with `SYNTAX ERROR`. -/
theorem LET_Sta.parseSta_reserved :
    (∀ (L : Lib) (name : String) (rest : TokenScanner), name ∈ illegalNames →
      LET_Sta.parseSta L (name :: rest) = .error "SYNTAX ERROR") ∧
    (∀ (L : Lib) (name : String) (rest scanner : TokenScanner) (exp : Expression),
      L.getTokenType name = TokenType.WORD → name ∉ illegalNames →
      L.parseExp rest = .ok (exp, scanner) →
      LET_Sta.parseSta L (name :: "=" :: rest) = .ok (.LET_Sta name exp, scanner) ∧
      (scanner.hasMoreTokens = false →
        getStatement L ("LET" :: name :: "=" :: rest) = .ok (some (.LET_Sta name exp)))) ∧
    processLine Lib.standard 0 "LET PRINT = 5" Program.empty Machine.fresh =
      some (.returned (.error "SYNTAX ERROR"), Program.empty, Machine.fresh) := by
  refine ⟨?_, ?_, by decide⟩
  · intro L name rest h
    have hs := LET_Sta.search_reserved name h
    unfold LET_Sta.parseSta
    simp only [TokenScanner.nextToken]
    rw [if_pos (Or.inr (Or.inr hs))]
  · intro L name rest scanner exp hw hn hp
    have hs := LET_Sta.search_free name hn
    have h1 : LET_Sta.parseSta L (name :: "=" :: rest) = .ok (.LET_Sta name exp, scanner) := by
      unfold LET_Sta.parseSta
      simp only [TokenScanner.nextToken, hw, hs, hp, ne_eq, not_true_eq_false, or_self,
        if_false]
    refine ⟨h1, ?_⟩
    intro hmore
    unfold getStatement
    have hid : getStatement.search "LET" (SIZE + 1) 0 = 1 := by decide
    simp only [TokenScanner.nextToken, hid, getStatement.dispatch, h1, Except.map, hmore]
    simp

/-- C15 (as the code has it): `getStatement` returns no statement and raises no
error when the first token is `REM`, whatever follows; on a token stream with
no token the lookup finds no keyword and `getStatement` fails with
`SYNTAX ERROR`. -/
theorem getStatement.comment_line (L : Lib) (rest : TokenScanner) :
    getStatement L ("REM" :: rest) = .ok none ∧ getStatement L [] = .error "SYNTAX ERROR" := by
  constructor
  · have hid : getStatement.search "REM" (SIZE + 1) 0 = 0 := by decide
    unfold getStatement
    simp only [TokenScanner.nextToken, hid, getStatement.dispatch]
  · have hid : getStatement.search "" (SIZE + 1) 0 = 7 := by decide
    unfold getStatement
    simp only [TokenScanner.nextToken, hid, getStatement.dispatch]

/-- C15 fails as stated: on the blank line, whose token stream is empty,
`getStatement` raises `SYNTAX ERROR` instead of returning no statement. -/
theorem getStatement.blank_rejected :
    getStatement Lib.standard (Lib.standard.setInput "") = .error "SYNTAX ERROR" ∧
    getStatement Lib.standard (Lib.standard.setInput "") ≠ .ok none := by
  decide

/-- C16: `getStatement` fails with `SYNTAX ERROR` when the first token is not
in the table `Types`; and what it returns for one of the six statement keywords
is a statement of the subclass of that keyword. -/
theorem getStatement.dispatch_spec (L : Lib) (type : String) (rest : TokenScanner) :
    (type ∉ Types → getStatement L (type :: rest) = .error "SYNTAX ERROR") ∧
    (type ∈ statementKeywords → ∀ r, getStatement L (type :: rest) = .ok r →
      ∃ stmt, r = some stmt ∧ stmt.kind = type) := by
  constructor
  · intro h
    have hid := getStatement.search_unknown type h
    unfold getStatement
    simp only [TokenScanner.nextToken, hid]
    simp only [SIZE, getStatement.dispatch]
  · intro hk r hr
    exact getStatement.kind_of_keyword L type rest r hk hr

/-- C17 (what the code does): for a stored line, `getStatement` fails with
`SYNTAX ERROR` whenever the parser of the statement leaves tokens behind; an
immediate statement is parsed by `processLine` through `parseSta` alone, which
for `INPUT` reads one word and ignores what follows: `INPUT X Y` is executed as
`INPUT X`. -/
theorem Statement.trailing_tokens :
    (∀ (L : Lib) (type : String) (scanner rest : TokenScanner) (stmt : Statement),
      type ∈ statementKeywords →
      getStatement.dispatch L (getStatement.search type (SIZE + 1) 0) scanner =
        .ok (some (stmt, rest)) →
      rest.hasMoreTokens = true → getStatement L (type :: scanner) = .error "SYNTAX ERROR") ∧
    (∀ (L : Lib) (varName : String) (rest : TokenScanner) (m : Machine),
      L.getTokenType varName = TokenType.WORD →
      processLine.immediate L "INPUT" (varName :: rest) m = INPUT_Sta.execute L varName m) ∧
    processLine Lib.standard 0 "INPUT X Y" Program.empty ⟨[], ["5"], "", []⟩ =
      some (.returned .ok, Program.empty, ⟨[("X", 5)], [], " ? ", []⟩) := by
  refine ⟨?_, ?_, by decide⟩
  · intro L type scanner rest stmt hk hd hmore
    exact getStatement.leftover L type scanner stmt rest
      (getStatement.search_keyword type hk) hd hmore
  · intro L varName rest m hw
    unfold processLine.immediate
    simp [INPUT_Sta.parseSta, TokenScanner.nextToken, hw, Statement.execute]

/-- C18 (what the code does): when `parseExp` fails, `PRINT_Sta::parseSta` and
both sides of `IF_Sta::parseSta` fail with `SYNTAX ERROR`, whatever `parseExp`
threw; `LET_Sta::parseSta` has no `catch` and fails with the error `parseExp`
threw, which with a parser that words its errors is not `SYNTAX ERROR`. -/
theorem LET_Sta.parseSta_error :
    (∀ (L : Lib) (scanner : TokenScanner) (e : String), L.parseExp scanner = .error e →
      PRINT_Sta.parseSta L scanner = .error "SYNTAX ERROR") ∧
    (∀ (L : Lib) (text e : String), L.parseExp (L.setInput text) = .error e →
      IF_Sta.parseSide L text = .error "SYNTAX ERROR") ∧
    (∀ (L : Lib) (name : String) (rest : TokenScanner) (e : String),
      L.getTokenType name = TokenType.WORD → name ∉ illegalNames →
      L.parseExp rest = .error e → LET_Sta.parseSta L (name :: "=" :: rest) = .error e) ∧
    (getStatement Lib.wordy (Lib.wordy.setInput "10 LET X = 1 +").nextToken.2 =
        .error "Illegal term in expression" ∧
      getStatement Lib.wordy (Lib.wordy.setInput "10 PRINT 1 +").nextToken.2 =
        .error "SYNTAX ERROR") := by
  refine ⟨?_, ?_, ?_, by decide⟩
  · intro L scanner e h
    simp only [PRINT_Sta.parseSta, h]
  · intro L text e h
    simp only [IF_Sta.parseSide, h]
  · intro L name rest e hw hn hp
    have hs := LET_Sta.search_free name hn
    unfold LET_Sta.parseSta
    simp only [TokenScanner.nextToken, hw, hs, hp, ne_eq, not_true_eq_false, or_self, if_false]

/-- C19: when the evaluation of the expression fails with error `e`, executing
`PRINT` or `LET` on it fails with `e` and leaves the machine as it was: nothing
is written and no variable is bound. The immediate line `PRINT 1 / 0` fails
with `DivisionByZero` and changes neither the program nor the machine. -/
theorem Statement.execute_eval_error :
    (∀ (L : Lib) (exp : Expression) (m : Machine) (e : String), exp.eval m.state = .error e →
      (Statement.PRINT_Sta exp).execute L m = (.error e, m) ∧
      ∀ varName, (Statement.LET_Sta varName exp).execute L m = (.error e, m)) ∧
    processLine Lib.standard 0 "PRINT 1 / 0" Program.sample ⟨[("X", 3)], [], "", []⟩ =
      some (.returned (.error "DivisionByZero"), Program.sample, ⟨[("X", 3)], [], "", []⟩) := by
  refine ⟨?_, by decide⟩
  intro L exp m e h
  constructor
  · simp only [Statement.execute, PRINT_Sta.execute, h]
  · intro varName
    simp only [Statement.execute, LET_Sta.execute, h]

/-- C20 (what the code does): the first loop of `IF_Sta::parseSta` appends the
tokens before the comparison operator to one text with nothing between them,
and that text is scanned again. Two adjacent operands merge into one token:
the tokens `X`, `Y` are no expression, yet the side built from them is the
variable `XY`, and the lines `10 IF X Y = 1 THEN 5` and `10 IF 1 2 = 12 THEN 40`
are accepted. -/
theorem IF_Sta.parseSta_concat :
    (∀ (L : Lib) (ts : List String) (op : String) (rest : TokenScanner),
      (∀ t ∈ ts, (t ≠ "=" ∧ t ≠ "<" ∧ t ≠ ">") ∧ L.getTokenType t ≠ TokenType.EOF) →
      (op = "=" ∨ op = "<" ∨ op = ">") →
      IF_Sta.readLeft L (ts ++ op :: rest) "" = .ok (IF_Sta.concat ts, op :: rest)) ∧
    IF_Sta.parseTokens Lib.standard ["X", "Y"] = .error "SYNTAX ERROR" ∧
    IF_Sta.parseSide Lib.standard (IF_Sta.concat ["X", "Y"]) = .ok (.IdentifierExp "XY") ∧
    getStatement Lib.standard (Lib.standard.setInput "10 IF X Y = 1 THEN 5").nextToken.2 =
      .ok (some (.IF_Sta '=' (.IdentifierExp "XY") (.ConstantExp 1) 5)) ∧
    IF_Sta.parseTokens Lib.standard ["1", "2"] = .error "SYNTAX ERROR" ∧
    getStatement Lib.standard (Lib.standard.setInput "10 IF 1 2 = 12 THEN 40").nextToken.2 =
      .ok (some (.IF_Sta '=' (.ConstantExp 12) (.ConstantExp 12) 40)) := by
  refine ⟨?_, by decide, by decide, by decide, by decide, by decide⟩
  intro L ts op rest hts hop
  exact IF_Sta.readLeft_append L ts op rest "" hts hop

/-! ## Lemmas on runs without jumps -/

theorem Statement.execute_trace (L : Lib) (stmt : Statement) (m : Machine) :
    (stmt.execute L m).2.trace = m.trace := by
  cases stmt with
  | LET_Sta v e =>
    simp only [Statement.execute, LET_Sta.execute]
    split <;> rfl
  | PRINT_Sta e =>
    simp only [Statement.execute, PRINT_Sta.execute]
    split <;> rfl
  | INPUT_Sta v =>
    simp only [Statement.execute, INPUT_Sta.execute]
    split <;> rfl
  | END_Sta => rfl
  | GOTO_Sta t => rfl
  | IF_Sta op lhs rhs t =>
    simp only [Statement.execute, IF_Sta.execute]
    split
    · rfl
    · split
      · rfl
      · split <;> rfl

theorem controlNames_ne (v name : String)
    (hv : [v].all (fun n => !controlNames.contains n) = true) (hname : name ∈ controlNames) :
    v ≠ name := by
  intro e
  subst e
  simp only [List.all_cons, List.all_nil, Bool.and_true, Bool.not_eq_true',
    List.contains_eq_any_beq, List.any_eq_false, beq_iff_eq] at hv
  exact hv v hname rfl

/-- A statement that is no jump and no `END` and binds no control name leaves
the control flags as they were. -/
theorem Statement.execute_flags (L : Lib) (stmt : Statement) (m m2 : Machine) (name : String)
    (hname : name ∈ controlNames) (hj : stmt.isJump = false) (he : stmt ≠ .END_Sta)
    (hb : stmt.binds.all (fun n => !controlNames.contains n) = true)
    (hx : stmt.execute L m = (.ok, m2)) : m2.state.getValue name = m.state.getValue name := by
  cases stmt with
  | LET_Sta v e =>
    have hv := controlNames_ne v name hb hname
    simp only [Statement.execute, LET_Sta.execute] at hx
    split at hx
    · simp at hx
    · simp only [Prod.mk.injEq, true_and] at hx
      rw [← hx]
      exact EvalState.getValue_setValue_ne _ _ _ _ hv
  | PRINT_Sta e =>
    simp only [Statement.execute, PRINT_Sta.execute] at hx
    split at hx
    · simp at hx
    · simp only [Prod.mk.injEq, true_and] at hx
      rw [← hx]
  | INPUT_Sta v =>
    have hv := controlNames_ne v name hb hname
    simp only [Statement.execute, INPUT_Sta.execute] at hx
    split at hx
    · simp at hx
    · simp only [Prod.mk.injEq, true_and] at hx
      rw [← hx]
      exact EvalState.getValue_setValue_ne _ _ _ _ hv
  | END_Sta => exact absurd rfl he
  | GOTO_Sta t => simp [Statement.isJump] at hj
  | IF_Sta op lhs rhs t => simp [Statement.isJump] at hj

theorem Program.step_at_end (L : Lib) (P : Program) (it : Nat) (m : Machine)
    (hit : it = P.S.length) (hdone : ∃ done, m.state.getValue "GOTO_DONE" = .ok done ∧ done ≠ 0) :
    P.step L it m = .done .ok m := by
  obtain ⟨done, hg, hg0⟩ := hdone
  have hc : P.cond it m = .ok false := by
    unfold Program.cond
    simp [hit, hg, hg0]
  unfold Program.step
  simp only [hc]

theorem Program.step_ended (L : Lib) (P : Program) (it : Nat) (m : Machine)
    (hend : m.state.getValue "PROGRAM_END_TAG" = .ok 1)
    (hdone : ∃ done, m.state.getValue "GOTO_DONE" = .ok done ∧ done ≠ 0) :
    P.step L it m = .done .ok m := by
  by_cases hit : it = P.S.length
  · exact Program.step_at_end L P it m hit hdone
  · have hc : P.cond it m = .ok true := by
      unfold Program.cond
      simp [hit]
    unfold Program.step
    simp only [hc, hend, if_true]

theorem Program.start_running (m : Machine) : (Program.start m).running := by
  refine ⟨⟨0, ?_, by decide⟩, ⟨1, ?_, by decide⟩⟩
  · exact EvalState.getValue_setValue_same _ _ _
  · show ((m.state.setValue "GOTO_DONE" 1).setValue "PROGRAM_END_TAG" 0).getValue "GOTO_DONE" = _
    rw [EvalState.getValue_setValue_ne _ _ _ _ (by decide)]
    exact EvalState.getValue_setValue_same _ _ _

theorem set.deref_append (pre : List clause) (c : clause) (rest : List clause) :
    set.deref (pre ++ c :: rest) pre.length = some c := by
  induction pre with
  | nil => rfl
  | cons p ps ih => simpa [set.deref] using ih

/-- From a machine that is running, on the lines `suf` that end the store and
hold no jump, the loop of `run` does what the sequential reading says. -/
theorem Program.loop_sequential (L : Lib) (P : Program) (suf : List clause) :
    ∀ (pre : List clause) (m : Machine), P.S = pre ++ suf →
      (∀ c ∈ suf, c.straight = true) → m.running → ∀ extra,
      P.loop L (suf.length + 1 + extra) pre.length m = some (Program.sequential L suf m) := by
  induction suf with
  | nil =>
    intro pre m hS _ hrun extra
    have hit : pre.length = P.S.length := by rw [hS, List.append_nil]
    rw [show ([] : List clause).length + 1 + extra = extra + 1 by simp; omega]
    unfold Program.loop
    simp only [Program.step_at_end L P pre.length m hit hrun.2, Program.sequential]
  | cons c rest ih =>
    intro pre m hS hstr hrun extra
    have hd : set.deref P.S pre.length = some c := by rw [hS]; exact set.deref_append pre c rest
    have hex : P.executes pre.length m c := ⟨hd, hrun.1, hrun.2⟩
    have hS2 : P.S = (pre ++ [c]) ++ rest := by rw [hS]; simp
    have hlen : (pre ++ [c]).length = pre.length + 1 := by simp
    have hstr2 : ∀ c2 ∈ rest, c2.straight = true := fun c2 h2 => hstr c2 (List.mem_cons_of_mem _ h2)
    have hc := hstr c (by simp)
    rw [show (c :: rest).length + 1 + extra = (rest.length + 1 + extra) + 1 by simp; omega]
    unfold Program.loop
    rw [Program.step_of_executes L P pre.length m c hex]
    unfold Program.exec Program.sequential
    cases hst : c.stmt with
    | none =>
      simp only
      have := ih (pre ++ [c]) (m.visit c.lineNumber) hS2 hstr2 hrun extra
      rw [hlen] at this
      exact this
    | some stmt =>
      simp only
      have hexec : stmt.execute L { m with trace := m.trace ++ [c.lineNumber] } =
          stmt.execute L (m.visit c.lineNumber) := rfl
      rw [hexec]
      cases hx : stmt.execute L (m.visit c.lineNumber) with
      | mk status m2 =>
        cases status with
        | ok =>
          simp only
          by_cases hend : stmt = .END_Sta
          · subst hend
            rw [if_pos rfl]
            have hm2 : m2 = { m.visit c.lineNumber with
                state := (m.visit c.lineNumber).state.setValue "PROGRAM_END_TAG" 1 } := by
              simp only [Statement.execute, END_Sta.execute, Prod.mk.injEq, true_and] at hx
              exact hx.symm
            have h1 : m2.state.getValue "PROGRAM_END_TAG" = .ok 1 := by
              rw [hm2]; exact EvalState.getValue_setValue_same _ _ _
            have h2 : ∃ done, m2.state.getValue "GOTO_DONE" = .ok done ∧ done ≠ 0 := by
              obtain ⟨done, hg, hg0⟩ := hrun.2
              refine ⟨done, ?_, hg0⟩
              rw [hm2]
              show ((m.state.setValue "PROGRAM_END_TAG" 1).getValue "GOTO_DONE") = _
              rw [EvalState.getValue_setValue_ne _ _ _ _ (by decide)]
              exact hg
            rw [show rest.length + 1 + extra = (rest.length + extra) + 1 by omega]
            unfold Program.loop
            simp only [Program.step_ended L P (pre.length + 1) m2 h1 h2]
          · rw [if_neg hend]
            unfold clause.straight at hc
            rw [hst] at hc
            simp only [Bool.and_eq_true, Bool.not_eq_true'] at hc
            have hrun2 : m2.running := by
              obtain ⟨⟨e, he, he1⟩, ⟨d, hg, hg0⟩⟩ := hrun
              refine ⟨⟨e, ?_, he1⟩, ⟨d, ?_, hg0⟩⟩
              · rw [Statement.execute_flags L stmt (m.visit c.lineNumber) m2 "PROGRAM_END_TAG"
                  (by decide) hc.1 hend hc.2 hx]
                exact he
              · rw [Statement.execute_flags L stmt (m.visit c.lineNumber) m2 "GOTO_DONE"
                  (by decide) hc.1 hend hc.2 hx]
                exact hg
            have := ih (pre ++ [c]) m2 hS2 hstr2 hrun2 extra
            rw [hlen] at this
            exact this
        | error msg => simp only
        | blocked => simp only
        | undefined => simp only

theorem Program.sequential_trace (L : Lib) (suf : List clause) :
    ∀ m : Machine, (Program.sequential L suf m).1 = .ok →
      (Program.sequential L suf m).2.trace =
        m.trace ++ (Program.upToEnd suf).map clause.lineNumber := by
  induction suf with
  | nil => intro m _; simp [Program.sequential, Program.upToEnd]
  | cons c rest ih =>
    intro m hok
    unfold Program.sequential at hok ⊢
    unfold Program.upToEnd
    cases hst : c.stmt with
    | none =>
      simp only [hst] at hok ⊢
      rw [ih _ hok]
      simp [Machine.visit]
    | some stmt =>
      simp only [hst] at hok ⊢
      have htr := Statement.execute_trace L stmt (m.visit c.lineNumber)
      cases hx : stmt.execute L (m.visit c.lineNumber) with
      | mk status m2 =>
        rw [hx] at htr
        simp only at htr
        cases status with
        | ok =>
          simp only [hx] at hok ⊢
          by_cases hend : stmt = .END_Sta
          · subst hend
            simp only [if_true, htr, Machine.visit, List.map_cons, List.map_nil]
          · have hne : ¬ (some stmt = some Statement.END_Sta) := by
              intro h; exact hend (Option.some.inj h)
            simp only [if_neg hend, if_neg hne] at hok ⊢
            rw [ih _ hok, htr]
            simp [Machine.visit]
        | error msg => simp [hx] at hok
        | blocked => simp [hx] at hok
        | undefined => simp [hx] at hok

theorem Program.upToEnd_prefix (S : List clause) : Program.upToEnd S <+: S := by
  induction S with
  | nil => exact List.prefix_refl _
  | cons c rest ih =>
    unfold Program.upToEnd
    split
    · exact ⟨rest, rfl⟩
    · exact (List.prefix_cons_inj c).2 ih

/-! ## Lemmas on runs from states that agree on the user variables -/

theorem Expression.eval_congr (e : Expression) (s1 s2 : EvalState)
    (h : ∀ n ∈ e.names, s1.getValue n = s2.getValue n) : e.eval s1 = e.eval s2 := by
  induction e with
  | ConstantExp v => rfl
  | IdentifierExp name => exact h name (by simp [Expression.names])
  | CompoundExp op lhs rhs ihl ihr =>
    have hl := ihl (fun n hn => h n (by simp [Expression.names, hn]))
    have hr := ihr (fun n hn => h n (by simp [Expression.names, hn]))
    simp only [Expression.eval, hl, hr]

theorem controlNames_not_mem (names : List String)
    (h : names.all (fun n => !controlNames.contains n) = true) (n : String) (hn : n ∈ names) :
    n ∉ controlNames := by
  rw [List.all_eq_true] at h
  have := h n hn
  simpa using this

theorem EvalState.alike_eval (e : Expression) (s1 s2 : EvalState) (h : EvalState.alike s1 s2)
    (hu : ∀ n ∈ e.names, n ∉ controlNames) : e.eval s1 = e.eval s2 := by
  apply Expression.eval_congr
  intro n hn
  apply h.1
  intro e2
  exact hu n hn (by rw [e2]; decide)

theorem EvalState.alike_setValue (s1 s2 : EvalState) (k : String) (x : Int)
    (h : EvalState.alike s1 s2) (hk1 : k ≠ "GOTO_TAG") (hk2 : k ≠ "GOTO_DONE") :
    EvalState.alike (s1.setValue k x) (s2.setValue k x) := by
  constructor
  · intro v hv
    by_cases hvk : k = v
    · subst hvk
      rw [EvalState.getValue_setValue_same, EvalState.getValue_setValue_same]
    · rw [EvalState.getValue_setValue_ne _ _ _ _ hvk, EvalState.getValue_setValue_ne _ _ _ _ hvk]
      exact h.1 v hv
  · intro hd
    rw [EvalState.getValue_setValue_ne _ _ _ _ hk2] at hd
    rw [EvalState.getValue_setValue_ne _ _ _ _ hk1, EvalState.getValue_setValue_ne _ _ _ _ hk1]
    exact h.2 hd

theorem EvalState.alike_requestJump (s1 s2 : EvalState) (t : Int) (h : EvalState.alike s1 s2) :
    EvalState.alike ((s1.setValue "GOTO_TAG" t).setValue "GOTO_DONE" 0)
      ((s2.setValue "GOTO_TAG" t).setValue "GOTO_DONE" 0) := by
  constructor
  · intro v hv
    by_cases hvd : "GOTO_DONE" = v
    · subst hvd
      rw [EvalState.getValue_setValue_same, EvalState.getValue_setValue_same]
    · rw [EvalState.getValue_setValue_ne _ _ _ _ hvd, EvalState.getValue_setValue_ne _ _ _ _ hvd,
        EvalState.getValue_setValue_ne _ _ _ _ (Ne.symm hv),
        EvalState.getValue_setValue_ne _ _ _ _ (Ne.symm hv)]
      exact h.1 v hv
  · intro _
    rw [EvalState.getValue_setValue_ne (s1.setValue "GOTO_TAG" t) "GOTO_DONE" "GOTO_TAG" 0
        (by decide),
      EvalState.getValue_setValue_ne (s2.setValue "GOTO_TAG" t) "GOTO_DONE" "GOTO_TAG" 0
        (by decide),
      EvalState.getValue_setValue_same, EvalState.getValue_setValue_same]

theorem EvalState.alike_done (s1 s2 : EvalState) (h : EvalState.alike s1 s2)
    (hd : s1.getValue "GOTO_DONE" = .ok 0) :
    EvalState.alike (s1.setValue "GOTO_DONE" 1) (s2.setValue "GOTO_DONE" 1) ∧
    (s1.setValue "GOTO_DONE" 1).getValue "GOTO_TAG" =
      (s2.setValue "GOTO_DONE" 1).getValue "GOTO_TAG" := by
  refine ⟨⟨?_, ?_⟩, ?_⟩
  · intro v hv
    by_cases hvd : "GOTO_DONE" = v
    · subst hvd
      rw [EvalState.getValue_setValue_same, EvalState.getValue_setValue_same]
    · rw [EvalState.getValue_setValue_ne _ _ _ _ hvd, EvalState.getValue_setValue_ne _ _ _ _ hvd]
      exact h.1 v hv
  · intro h1
    rw [EvalState.getValue_setValue_same] at h1
    simp at h1
  · rw [EvalState.getValue_setValue_ne _ _ _ _ (by decide),
      EvalState.getValue_setValue_ne _ _ _ _ (by decide)]
    exact h.2 hd

/-- A statement that names no control flag ends alike on machines that are
alike. -/
theorem Statement.execute_alike (L : Lib) (stmt : Statement) (m1 m2 : Machine)
    (hu : stmt.names.all (fun n => !controlNames.contains n) = true) (h : m1.alike m2) :
    (stmt.execute L m1).1 = (stmt.execute L m2).1 ∧
    (stmt.execute L m1).2.alike (stmt.execute L m2).2 := by
  have hn := controlNames_not_mem stmt.names hu
  obtain ⟨hcin, hcout, htrace, hst⟩ := h
  cases stmt with
  | LET_Sta v e =>
    have hev := EvalState.alike_eval e m1.state m2.state hst
      (fun n h2 => hn n (by simp [Statement.names, h2]))
    have hv : v ∉ controlNames := hn v (by simp [Statement.names])
    have hv1 : v ≠ "GOTO_TAG" := fun e2 => hv (by rw [e2]; decide)
    have hv2 : v ≠ "GOTO_DONE" := fun e2 => hv (by rw [e2]; decide)
    simp only [Statement.execute, LET_Sta.execute, hev]
    cases e.eval m2.state with
    | error msg => exact ⟨rfl, hcin, hcout, htrace, hst⟩
    | ok x => exact ⟨rfl, hcin, hcout, htrace, EvalState.alike_setValue _ _ v x hst hv1 hv2⟩
  | PRINT_Sta e =>
    have hev := EvalState.alike_eval e m1.state m2.state hst
      (fun n h2 => hn n (by simp [Statement.names, h2]))
    simp only [Statement.execute, PRINT_Sta.execute, hev]
    cases e.eval m2.state with
    | error msg => exact ⟨rfl, hcin, hcout, htrace, hst⟩
    | ok x => exact ⟨rfl, hcin, by simp only [hcout], htrace, hst⟩
  | INPUT_Sta v =>
    have hv : v ∉ controlNames := hn v (by simp [Statement.names])
    have hv1 : v ≠ "GOTO_TAG" := fun e2 => hv (by rw [e2]; decide)
    have hv2 : v ≠ "GOTO_DONE" := fun e2 => hv (by rw [e2]; decide)
    simp only [Statement.execute, INPUT_Sta.execute, hcin, hcout]
    rcases INPUT_Sta.loop L m2.cin m2.cout with ⟨_ | value, cin, cout⟩
    · exact ⟨rfl, rfl, rfl, htrace, hst⟩
    · exact ⟨rfl, rfl, rfl, htrace, EvalState.alike_setValue _ _ v value hst hv1 hv2⟩
  | END_Sta =>
    exact ⟨rfl, hcin, hcout, htrace,
      EvalState.alike_setValue _ _ "PROGRAM_END_TAG" 1 hst (by decide) (by decide)⟩
  | GOTO_Sta t =>
    exact ⟨rfl, hcin, hcout, htrace, EvalState.alike_requestJump _ _ t hst⟩
  | IF_Sta op lhs rhs t =>
    have hl := EvalState.alike_eval lhs m1.state m2.state hst
      (fun n h2 => hn n (by simp [Statement.names, h2]))
    have hr := EvalState.alike_eval rhs m1.state m2.state hst
      (fun n h2 => hn n (by simp [Statement.names, h2]))
    simp only [Statement.execute, IF_Sta.execute, hl, hr]
    cases lhs.eval m2.state with
    | error msg => exact ⟨rfl, hcin, hcout, htrace, hst⟩
    | ok l =>
      cases rhs.eval m2.state with
      | error msg => exact ⟨rfl, hcin, hcout, htrace, hst⟩
      | ok r =>
        simp only
        split
        · exact ⟨rfl, hcin, hcout, htrace, EvalState.alike_requestJump _ _ t hst⟩
        · exact ⟨rfl, hcin, hcout, htrace, hst⟩

theorem Machine.alike_visit (m1 m2 : Machine) (n : Int) (h : m1.alike m2) :
    (m1.visit n).alike (m2.visit n) := by
  obtain ⟨hcin, hcout, htrace, hst⟩ := h
  exact ⟨hcin, hcout, by simp only [Machine.visit, htrace], hst⟩

theorem Program.exec_alike (L : Lib) (c : clause) (it : Nat) (m1 m2 : Machine)
    (hu : c.userOnly = true) (h : m1.alike m2) :
    Step.alike (Program.exec L c it m1) (Program.exec L c it m2) := by
  have hv := Machine.alike_visit m1 m2 c.lineNumber h
  unfold Program.exec
  cases hst : c.stmt with
  | none => exact ⟨rfl, hv⟩
  | some stmt =>
    unfold clause.userOnly at hu
    rw [hst] at hu
    have hx := Statement.execute_alike L stmt (m1.visit c.lineNumber) (m2.visit c.lineNumber)
      hu hv
    have e1 : stmt.execute L { m1 with trace := m1.trace ++ [c.lineNumber] } =
        stmt.execute L (m1.visit c.lineNumber) := rfl
    have e2 : stmt.execute L { m2 with trace := m2.trace ++ [c.lineNumber] } =
        stmt.execute L (m2.visit c.lineNumber) := rfl
    simp only [e1, e2]
    rcases hr1 : stmt.execute L (m1.visit c.lineNumber) with ⟨st1, f1⟩
    rcases hr2 : stmt.execute L (m2.visit c.lineNumber) with ⟨st2, f2⟩
    rw [hr1, hr2] at hx
    obtain ⟨hs, hf⟩ := hx
    simp only at hs hf
    subst hs
    cases st1 with
    | ok => exact ⟨rfl, hf⟩
    | error msg => exact ⟨rfl, hf⟩
    | blocked => exact ⟨rfl, hf⟩
    | undefined => exact ⟨rfl, hf⟩

theorem Program.jump_alike (P : Program) (m1 m2 : Machine) (h : m1.alike m2)
    (hd : m1.state.getValue "GOTO_DONE" = .ok 0) :
    Step.alike (P.jump m1) (P.jump m2) := by
  obtain ⟨hcin, hcout, htrace, hst⟩ := h
  obtain ⟨ha, htag⟩ := EvalState.alike_done m1.state m2.state hst hd
  have hm : Machine.alike { m1 with state := m1.state.setValue "GOTO_DONE" 1 }
      { m2 with state := m2.state.setValue "GOTO_DONE" 1 } := ⟨hcin, hcout, htrace, ha⟩
  unfold Program.jump
  simp only [htag]
  cases (m2.state.setValue "GOTO_DONE" 1).getValue "GOTO_TAG" with
  | error msg => exact ⟨rfl, hm⟩
  | ok val =>
    simp only
    split
    · exact ⟨rfl, hm⟩
    · exact ⟨rfl, hm⟩

/-- One round of the loop of `run` ends alike on machines that are alike, when
no stored statement names a control flag. -/
theorem Program.step_alike (L : Lib) (P : Program) (it : Nat) (m1 m2 : Machine)
    (hP : ∀ c ∈ P.S, c.userOnly = true) (h : m1.alike m2) :
    Step.alike (P.step L it m1) (P.step L it m2) := by
  have hdone : m1.state.getValue "GOTO_DONE" = m2.state.getValue "GOTO_DONE" :=
    h.2.2.2.1 "GOTO_DONE" (by decide)
  have hend : m1.state.getValue "PROGRAM_END_TAG" = m2.state.getValue "PROGRAM_END_TAG" :=
    h.2.2.2.1 "PROGRAM_END_TAG" (by decide)
  have hc : P.cond it m1 = P.cond it m2 := by
    unfold Program.cond
    rw [hdone]
  unfold Program.step
  rw [hc]
  cases P.cond it m2 with
  | error msg => exact ⟨rfl, h⟩
  | ok b =>
    cases b with
    | false => exact ⟨rfl, h⟩
    | true =>
      simp only
      rw [hend]
      cases m2.state.getValue "PROGRAM_END_TAG" with
      | error msg => exact ⟨rfl, h⟩
      | ok endTag =>
        simp only
        split
        · exact ⟨rfl, h⟩
        · cases hd2 : m2.state.getValue "GOTO_DONE" with
          | error msg =>
            rw [hd2] at hdone
            simp only [hdone]
            exact ⟨rfl, h⟩
          | ok done =>
            rw [hd2] at hdone
            simp only [hdone]
            split
            · rename_i h0
              rw [h0] at hdone
              exact Program.jump_alike P m1 m2 h hdone
            · cases hdr : set.deref P.S it with
              | none => exact ⟨rfl, h⟩
              | some c =>
                exact Program.exec_alike L c it m1 m2 (hP c (List.get?_mem hdr)) h

theorem Machine.alike_agree (m1 m2 : Machine) (h : m1.alike m2) : m1.agree m2 := by
  obtain ⟨hcin, hcout, htrace, hst⟩ := h
  refine ⟨hcin, hcout, htrace, ?_⟩
  intro v hv
  exact hst.1 v (fun e => hv (by rw [e]; decide))

theorem Program.loop_alike (L : Lib) (P : Program) (hP : ∀ c ∈ P.S, c.userOnly = true)
    (fuel : Nat) : ∀ (it : Nat) (m1 m2 : Machine), m1.alike m2 →
      Program.sameOutcome (P.loop L fuel it m1) (P.loop L fuel it m2) := by
  induction fuel with
  | zero => intro it m1 m2 _; exact True.intro
  | succ fuel ih =>
    intro it m1 m2 h
    have hs := Program.step_alike L P it m1 m2 hP h
    unfold Program.loop
    cases h1 : P.step L it m1 with
    | done s1 f1 =>
      cases h2 : P.step L it m2 with
      | done s2 f2 =>
        rw [h1, h2] at hs
        exact ⟨hs.1, Machine.alike_agree f1 f2 hs.2⟩
      | next i2 f2 =>
        rw [h1, h2] at hs
        exact hs.elim
    | next i1 f1 =>
      cases h2 : P.step L it m2 with
      | done s2 f2 =>
        rw [h1, h2] at hs
        exact hs.elim
      | next i2 f2 =>
        rw [h1, h2] at hs
        obtain ⟨hi, hf⟩ := hs
        subst hi
        exact ih i1 f1 f2 hf

theorem Program.start_alike (m1 m2 : Machine) (h : m1.agree m2) :
    (Program.start m1).alike (Program.start m2) := by
  obtain ⟨hcin, hcout, htrace, hst⟩ := h
  refine ⟨hcin, hcout, htrace, ?_, ?_⟩
  · intro v hv
    show ((m1.state.setValue "GOTO_DONE" 1).setValue "PROGRAM_END_TAG" 0).getValue v =
      ((m2.state.setValue "GOTO_DONE" 1).setValue "PROGRAM_END_TAG" 0).getValue v
    by_cases h1 : "PROGRAM_END_TAG" = v
    · subst h1
      rw [EvalState.getValue_setValue_same, EvalState.getValue_setValue_same]
    · rw [EvalState.getValue_setValue_ne _ _ _ _ h1, EvalState.getValue_setValue_ne _ _ _ _ h1]
      by_cases h2 : "GOTO_DONE" = v
      · subst h2
        rw [EvalState.getValue_setValue_same, EvalState.getValue_setValue_same]
      · rw [EvalState.getValue_setValue_ne _ _ _ _ h2, EvalState.getValue_setValue_ne _ _ _ _ h2]
        apply hst
        intro hmem
        simp only [controlNames, List.mem_cons, List.mem_singleton, List.not_mem_nil,
          or_false] at hmem
        rcases hmem with e | e | e
        · exact h2 e.symm
        · exact hv e
        · exact h1 e.symm
  · intro h0
    have : ((m1.state.setValue "GOTO_DONE" 1).setValue "PROGRAM_END_TAG" 0).getValue
        "GOTO_DONE" = .ok 1 := by
      rw [EvalState.getValue_setValue_ne _ _ _ _ (by decide)]
      exact EvalState.getValue_setValue_same _ _ _
    have h3 : (Program.start m1).state.getValue "GOTO_DONE" = .ok 1 := this
    rw [h3] at h0
    simp at h0

theorem Program.start_agree (m : Machine) : EvalState.agree (Program.start m).state m.state := by
  intro v hv
  show ((m.state.setValue "GOTO_DONE" 1).setValue "PROGRAM_END_TAG" 0).getValue v = _
  rw [EvalState.getValue_setValue_ne _ _ _ _ (fun e => hv (by rw [← e]; decide)),
    EvalState.getValue_setValue_ne _ _ _ _ (fun e => hv (by rw [← e]; decide))]

/-! ### Instances of the claims on statements, parsers and runs -/

theorem IF_Sta.execute_spec_witness :
    ((Expression.IdentifierExp "X").eval [("X", 0)] = .ok 0 ∧
      (Expression.ConstantExp 0).eval [("X", 0)] = .ok 0 ∧ IF_Sta.holds '=' 0 0 ∧
      (Statement.IF_Sta '=' (.IdentifierExp "X") (.ConstantExp 0) 40).execute Lib.standard
          ⟨[("X", 0)], [], "", []⟩ =
        (.ok, Machine.requestJump ⟨[("X", 0)], [], "", []⟩ 40)) ∧
    ((Expression.IdentifierExp "X").eval
          [("GOTO_DONE", 1), ("PROGRAM_END_TAG", 0), ("X", 5)] = .ok 5 ∧
      ¬ IF_Sta.holds '=' 5 0 ∧
      Program.ifJump.step Lib.standard 1
          ⟨[("GOTO_DONE", 1), ("PROGRAM_END_TAG", 0), ("X", 5)], [], "", [10]⟩ =
        .next (1 + 1)
          (Machine.visit ⟨[("GOTO_DONE", 1), ("PROGRAM_END_TAG", 0), ("X", 5)], [], "", [10]⟩
            20)) :=
  ⟨⟨by decide, by decide, by decide,
      ((IF_Sta.execute_spec.1 Lib.standard '=' (.IdentifierExp "X") (.ConstantExp 0) 40
        ⟨[("X", 0)], [], "", []⟩ 0 0 (by decide) (by decide)).1 (by decide))⟩,
    ⟨by decide, by decide,
      (IF_Sta.execute_spec.2.1 Lib.standard Program.ifJump 1
        ⟨[("GOTO_DONE", 1), ("PROGRAM_END_TAG", 0), ("X", 5)], [], "", [10]⟩
        ⟨20, "20 IF X = 0 THEN 40", some (.IF_Sta '=' (.IdentifierExp "X") (.ConstantExp 0) 40)⟩
        '=' (.IdentifierExp "X") (.ConstantExp 0) 40 5 0
        ⟨by decide, ⟨0, by decide, by decide⟩, ⟨1, by decide, by decide⟩⟩ rfl
        (by decide) (by decide) (by decide)).1⟩⟩

theorem LET_Sta.parseSta_reserved_witness :
    ("PRINT" ∈ illegalNames ∧
      LET_Sta.parseSta Lib.standard ["PRINT", "=", "5"] = .error "SYNTAX ERROR") ∧
    ((Lib.standard.getTokenType "X" = TokenType.WORD ∧ "X" ∉ illegalNames ∧
        Lib.standard.parseExp ["5"] = .ok (.ConstantExp 5, [])) ∧
      LET_Sta.parseSta Lib.standard ["X", "=", "5"] = .ok (.LET_Sta "X" (.ConstantExp 5), [])) :=
  ⟨⟨by decide, LET_Sta.parseSta_reserved.1 Lib.standard "PRINT" ["=", "5"] (by decide)⟩,
    ⟨⟨by decide, by decide, by decide⟩,
      (LET_Sta.parseSta_reserved.2.1 Lib.standard "X" ["5"] [] (.ConstantExp 5) (by decide)
        (by decide) (by decide)).1⟩⟩

theorem getStatement.dispatch_spec_witness :
    ("FOO" ∉ Types ∧ getStatement Lib.standard ["FOO", "1"] = .error "SYNTAX ERROR") ∧
    (("GOTO" ∈ statementKeywords ∧
        getStatement Lib.standard ["GOTO", "10"] = .ok (some (.GOTO_Sta 10))) ∧
      ∃ stmt, some (Statement.GOTO_Sta 10) = some stmt ∧ stmt.kind = "GOTO") :=
  ⟨⟨by decide, (getStatement.dispatch_spec Lib.standard "FOO" ["1"]).1 (by decide)⟩,
    ⟨⟨by decide, by decide⟩,
      (getStatement.dispatch_spec Lib.standard "GOTO" ["10"]).2 (by decide) _ (by decide)⟩⟩

theorem Statement.trailing_tokens_witness :
    (("INPUT" ∈ statementKeywords ∧
        getStatement.dispatch Lib.standard (getStatement.search "INPUT" (SIZE + 1) 0)
          ["X", "Y"] = .ok (some (.INPUT_Sta "X", ["Y"])) ∧
        TokenScanner.hasMoreTokens ["Y"] = true) ∧
      getStatement Lib.standard ["INPUT", "X", "Y"] = .error "SYNTAX ERROR") ∧
    (Lib.standard.getTokenType "X" = TokenType.WORD ∧
      processLine.immediate Lib.standard "INPUT" ["X", "Y"] ⟨[], ["5"], "", []⟩ =
        INPUT_Sta.execute Lib.standard "X" ⟨[], ["5"], "", []⟩) :=
  ⟨⟨⟨by decide, by decide, by decide⟩,
      Statement.trailing_tokens.1 Lib.standard "INPUT" ["X", "Y"] ["Y"] (.INPUT_Sta "X")
        (by decide) (by decide) (by decide)⟩,
    ⟨by decide,
      Statement.trailing_tokens.2.1 Lib.standard "X" ["Y"] ⟨[], ["5"], "", []⟩ (by decide)⟩⟩

theorem LET_Sta.parseSta_error_witness :
    (Lib.wordy.parseExp ["1", "+"] = .error "Illegal term in expression" ∧
      PRINT_Sta.parseSta Lib.wordy ["1", "+"] = .error "SYNTAX ERROR") ∧
    ((Lib.wordy.getTokenType "X" = TokenType.WORD ∧ "X" ∉ illegalNames) ∧
      LET_Sta.parseSta Lib.wordy ["X", "=", "1", "+"] = .error "Illegal term in expression") ∧
    (Lib.wordy.parseExp (Lib.wordy.setInput "1 +") = .error "Illegal term in expression" ∧
      IF_Sta.parseSide Lib.wordy "1 +" = .error "SYNTAX ERROR") :=
  ⟨⟨by decide,
      LET_Sta.parseSta_error.1 Lib.wordy ["1", "+"] "Illegal term in expression" (by decide)⟩,
    ⟨⟨by decide, by decide⟩,
      LET_Sta.parseSta_error.2.2.1 Lib.wordy "X" ["1", "+"] "Illegal term in expression"
        (by decide) (by decide) (by decide)⟩,
    ⟨by decide,
      LET_Sta.parseSta_error.2.1 Lib.wordy "1 +" "Illegal term in expression" (by decide)⟩⟩

theorem Statement.execute_eval_error_witness :
    (Expression.CompoundExp .divide (.ConstantExp 1) (.ConstantExp 0)).eval [("X", 3)] =
      .error "DivisionByZero" ∧
    (Statement.PRINT_Sta (.CompoundExp .divide (.ConstantExp 1) (.ConstantExp 0))).execute
        Lib.standard ⟨[("X", 3)], [], "", []⟩ =
      (.error "DivisionByZero", ⟨[("X", 3)], [], "", []⟩) ∧
    (Statement.LET_Sta "X" (.CompoundExp .divide (.ConstantExp 1) (.ConstantExp 0))).execute
        Lib.standard ⟨[("X", 3)], [], "", []⟩ =
      (.error "DivisionByZero", ⟨[("X", 3)], [], "", []⟩) :=
  ⟨by decide,
    (Statement.execute_eval_error.1 Lib.standard
      (.CompoundExp .divide (.ConstantExp 1) (.ConstantExp 0)) ⟨[("X", 3)], [], "", []⟩
      "DivisionByZero" (by decide)).1,
    (Statement.execute_eval_error.1 Lib.standard
      (.CompoundExp .divide (.ConstantExp 1) (.ConstantExp 0)) ⟨[("X", 3)], [], "", []⟩
      "DivisionByZero" (by decide)).2 "X"⟩

theorem IF_Sta.parseSta_concat_witness :
    ((∀ t ∈ ["X", "Y"], (t ≠ "=" ∧ t ≠ "<" ∧ t ≠ ">") ∧
        Lib.standard.getTokenType t ≠ TokenType.EOF) ∧
      (("=" : String) = "=" ∨ ("=" : String) = "<" ∨ ("=" : String) = ">")) ∧
    IF_Sta.readLeft Lib.standard (["X", "Y"] ++ "=" :: ["1", "THEN", "5"]) "" =
      .ok (IF_Sta.concat ["X", "Y"], "=" :: ["1", "THEN", "5"]) :=
  ⟨⟨by decide, Or.inl rfl⟩,
    IF_Sta.parseSta_concat.1 Lib.standard ["X", "Y"] "=" ["1", "THEN", "5"] (by decide)
      (Or.inl rfl)⟩

/-! ## Programs entered as text name no control flag -/

theorem controlNames_shape (t : String) (h : t ∈ controlNames) :
    (t.data.head? = some 'G' ∨ t.data.head? = some 'P') ∧ '_' ∈ t.data ∧ 8 ≤ t.data.length := by
  simp only [controlNames, List.mem_cons, List.mem_singleton, List.not_mem_nil, or_false] at h
  rcases h with rfl | rfl | rfl <;> decide

theorem standard.scanTokens_userWords (fuel : Nat) :
    ∀ (cs : List Char) (t : String), t ∈ standard.scanTokens fuel cs → t ∉ controlNames := by
  induction fuel with
  | zero => intro cs t h; simp [standard.scanTokens] at h
  | succ fuel ih =>
    intro cs t h hc
    obtain ⟨hhead, hus, hlen⟩ := controlNames_shape t hc
    cases cs with
    | nil => simp [standard.scanTokens] at h
    | cons c cs =>
      unfold standard.scanTokens at h
      split at h
      · exact ih cs t h hc
      · split at h
        · rename_i hd
          rcases List.mem_cons.1 h with rfl | h2
          · simp only [List.head?_cons, Option.some.injEq] at hhead
            rcases hhead with rfl | rfl <;> simp at hd
          · exact ih _ t h2 hc
        · split at h
          · rename_i ha
            rcases List.mem_cons.1 h with rfl | h2
            · simp only [List.mem_cons] at hus
              rcases hus with e | e
              · rw [← e] at ha
                simp at ha
              · have := List.mem_takeWhile_imp e
                simp at this
            · exact ih _ t h2 hc
          · rcases List.mem_cons.1 h with rfl | h2
            · simp at hlen
            · exact ih _ t h2 hc

/-- The variables of an expression read by the standard parser are tokens it
was given, and the tokens it leaves are tokens it was given. -/
theorem standard.read_names (fuel : Nat) :
    (∀ ts e rest, standard.readF fuel ts = .ok (e, rest) →
      (∀ n ∈ e.names, n ∈ ts) ∧ ∀ t ∈ rest, t ∈ ts) ∧
    (∀ lhs ts e rest, standard.restT fuel lhs ts = .ok (e, rest) →
      (∀ n ∈ e.names, n ∈ lhs.names ∨ n ∈ ts) ∧ ∀ t ∈ rest, t ∈ ts) ∧
    (∀ ts e rest, standard.readT fuel ts = .ok (e, rest) →
      (∀ n ∈ e.names, n ∈ ts) ∧ ∀ t ∈ rest, t ∈ ts) ∧
    (∀ lhs ts e rest, standard.restE fuel lhs ts = .ok (e, rest) →
      (∀ n ∈ e.names, n ∈ lhs.names ∨ n ∈ ts) ∧ ∀ t ∈ rest, t ∈ ts) ∧
    (∀ ts e rest, standard.readE fuel ts = .ok (e, rest) →
      (∀ n ∈ e.names, n ∈ ts) ∧ ∀ t ∈ rest, t ∈ ts) := by
  induction fuel with
  | zero =>
    refine ⟨?_, ?_, ?_, ?_, ?_⟩
    · intro ts e rest h; simp [standard.readF] at h
    · intro lhs ts e rest h; simp [standard.restT] at h
    · intro ts e rest h; simp [standard.readT] at h
    · intro lhs ts e rest h; simp [standard.restE] at h
    · intro ts e rest h; simp [standard.readE] at h
  | succ fuel ih =>
    obtain ⟨ihF, ihRT, ihT, ihRE, ihE⟩ := ih
    have binop : ∀ (read : Nat → TokenScanner → Except String (Expression × TokenScanner))
        (more : Nat → Expression → TokenScanner → Except String (Expression × TokenScanner)),
        (∀ ts e rest, read fuel ts = .ok (e, rest) →
          (∀ n ∈ e.names, n ∈ ts) ∧ ∀ t ∈ rest, t ∈ ts) →
        (∀ lhs ts e rest, more fuel lhs ts = .ok (e, rest) →
          (∀ n ∈ e.names, n ∈ lhs.names ∨ n ∈ ts) ∧ ∀ t ∈ rest, t ∈ ts) →
        ∀ (op : Operator) (lhs : Expression) (t : String) (ts : TokenScanner) (e : Expression)
          (rest : TokenScanner),
          (match read fuel ts with
            | .ok (rhs, rest) => more fuel (.CompoundExp op lhs rhs) rest
            | .error e => .error e) = .ok (e, rest) →
          (∀ n ∈ e.names, n ∈ lhs.names ∨ n ∈ t :: ts) ∧ ∀ t2 ∈ rest, t2 ∈ t :: ts := by
      intro read more hread hmore op lhs t ts e rest h
      cases hr : read fuel ts with
      | error msg => simp [hr] at h
      | ok p =>
        obtain ⟨rhs, rest1⟩ := p
        simp only [hr] at h
        obtain ⟨h1, h2⟩ := hread ts rhs rest1 hr
        obtain ⟨h3, h4⟩ := hmore _ rest1 e rest h
        constructor
        · intro n hn
          rcases h3 n hn with h5 | h5
          · simp only [Expression.names, List.mem_append] at h5
            rcases h5 with h5 | h5
            · exact Or.inl h5
            · exact Or.inr (List.mem_cons_of_mem _ (h1 n h5))
          · exact Or.inr (List.mem_cons_of_mem _ (h2 n h5))
        · intro t2 ht2
          exact List.mem_cons_of_mem _ (h2 t2 (h4 t2 ht2))
    have first : ∀ (read : Nat → TokenScanner → Except String (Expression × TokenScanner))
        (more : Nat → Expression → TokenScanner → Except String (Expression × TokenScanner)),
        (∀ ts e rest, read fuel ts = .ok (e, rest) →
          (∀ n ∈ e.names, n ∈ ts) ∧ ∀ t ∈ rest, t ∈ ts) →
        (∀ lhs ts e rest, more fuel lhs ts = .ok (e, rest) →
          (∀ n ∈ e.names, n ∈ lhs.names ∨ n ∈ ts) ∧ ∀ t ∈ rest, t ∈ ts) →
        ∀ (ts : TokenScanner) (e : Expression) (rest : TokenScanner),
          (match read fuel ts with
            | .ok (lhs, rest) => more fuel lhs rest
            | .error e => .error e) = .ok (e, rest) →
          (∀ n ∈ e.names, n ∈ ts) ∧ ∀ t2 ∈ rest, t2 ∈ ts := by
      intro read more hread hmore ts e rest h
      cases hr : read fuel ts with
      | error msg => simp [hr] at h
      | ok p =>
        obtain ⟨lhs, rest1⟩ := p
        simp only [hr] at h
        obtain ⟨h1, h2⟩ := hread ts lhs rest1 hr
        obtain ⟨h3, h4⟩ := hmore _ rest1 e rest h
        constructor
        · intro n hn
          rcases h3 n hn with h5 | h5
          · exact h1 n h5
          · exact h2 n h5
        · intro t2 ht2
          exact h2 t2 (h4 t2 ht2)
    refine ⟨?_, ?_, ?_, ?_, ?_⟩
    · intro ts e rest h
      cases ts with
      | nil => simp [standard.readF] at h
      | cons t ts =>
        unfold standard.readF at h
        split at h
        · cases hr : standard.readE fuel ts with
          | error msg => simp [hr] at h
          | ok p =>
            obtain ⟨e1, rest1⟩ := p
            cases rest1 with
            | nil => simp [hr] at h
            | cons r rest2 =>
              simp only [hr] at h
              split at h
              · simp only [Except.ok.injEq, Prod.mk.injEq] at h
                obtain ⟨h1, h2⟩ := ihE ts e1 (r :: rest2) hr
                rw [← h.1, ← h.2]
                exact ⟨fun n hn => List.mem_cons_of_mem _ (h1 n hn),
                  fun t2 ht2 => List.mem_cons_of_mem _ (h2 t2 (List.mem_cons_of_mem _ ht2))⟩
              · simp at h
        · split at h
          · cases hr : standard.readF fuel ts with
            | error msg => simp [hr] at h
            | ok p =>
              obtain ⟨e1, rest1⟩ := p
              simp only [hr, Except.ok.injEq, Prod.mk.injEq] at h
              obtain ⟨h1, h2⟩ := ihF ts e1 rest1 hr
              rw [← h.1, ← h.2]
              constructor
              · intro n hn
                simp only [Expression.names, List.nil_append] at hn
                exact List.mem_cons_of_mem _ (h1 n hn)
              · exact fun t2 ht2 => List.mem_cons_of_mem _ (h2 t2 ht2)
          · split at h
            · split at h
              · simp only [Except.ok.injEq, Prod.mk.injEq] at h
                rw [← h.1, ← h.2]
                exact ⟨fun n hn => by simp [Expression.names] at hn,
                  fun t2 ht2 => List.mem_cons_of_mem _ ht2⟩
              · simp at h
            · simp only [Except.ok.injEq, Prod.mk.injEq] at h
              rw [← h.1, ← h.2]
              constructor
              · intro n hn
                simp only [Expression.names, List.mem_singleton] at hn
                rw [hn]
                exact List.mem_cons_self _ _
              · exact fun t2 ht2 => List.mem_cons_of_mem _ ht2
            · simp at h
    · intro lhs ts e rest h
      cases ts with
      | nil =>
        simp only [standard.restT, Except.ok.injEq, Prod.mk.injEq] at h
        rw [← h.1, ← h.2]
        exact ⟨fun n hn => Or.inl hn, fun t2 ht2 => ht2⟩
      | cons t ts =>
        unfold standard.restT at h
        split at h
        · exact binop standard.readF standard.restT ihF ihRT .times lhs t ts e rest h
        · split at h
          · exact binop standard.readF standard.restT ihF ihRT .divide lhs t ts e rest h
          · simp only [Except.ok.injEq, Prod.mk.injEq] at h
            rw [← h.1, ← h.2]
            exact ⟨fun n hn => Or.inl hn, fun t2 ht2 => ht2⟩
    · intro ts e rest h
      unfold standard.readT at h
      exact first standard.readF standard.restT ihF ihRT ts e rest h
    · intro lhs ts e rest h
      cases ts with
      | nil =>
        simp only [standard.restE, Except.ok.injEq, Prod.mk.injEq] at h
        rw [← h.1, ← h.2]
        exact ⟨fun n hn => Or.inl hn, fun t2 ht2 => ht2⟩
      | cons t ts =>
        unfold standard.restE at h
        split at h
        · exact binop standard.readT standard.restE ihT ihRE .plus lhs t ts e rest h
        · split at h
          · exact binop standard.readT standard.restE ihT ihRE .minus lhs t ts e rest h
          · simp only [Except.ok.injEq, Prod.mk.injEq] at h
            rw [← h.1, ← h.2]
            exact ⟨fun n hn => Or.inl hn, fun t2 ht2 => ht2⟩
    · intro ts e rest h
      unfold standard.readE at h
      exact first standard.readT standard.restE ihT ihRE ts e rest h

theorem Lib.standard_userWords : Lib.standard.userWords := by
  constructor
  · intro line t ht
    exact standard.scanTokens_userWords _ _ t ht
  · intro scanner exp rest h n hn
    have h1 : standard.parseExp scanner = .ok (exp, rest) := h
    unfold standard.parseExp at h1
    split at h1
    · rename_i e2 hr
      simp only [Except.ok.injEq, Prod.mk.injEq] at h1
      rw [← h1.1] at hn
      exact ((standard.read_names _).2.2.2.2 scanner e2 [] hr).1 n hn
    · simp at h1
    · simp at h1

theorem TokenScanner.nextToken_fst (sc : TokenScanner) (hsc : ∀ t ∈ sc, t ∉ controlNames) :
    sc.nextToken.1 ∉ controlNames := by
  cases sc with
  | nil => simp only [TokenScanner.nextToken]; decide
  | cons t ts => exact hsc t (List.mem_cons_self _ _)

theorem TokenScanner.nextToken_snd (sc : TokenScanner) (t : String) (h : t ∈ sc.nextToken.2) :
    t ∈ sc := by
  cases sc with
  | nil => simp [TokenScanner.nextToken] at h
  | cons t2 ts => exact List.mem_cons_of_mem _ h

theorem LET_Sta.parseSta_names_let (L : Lib) (hL : L.userWords) (sc rest : TokenScanner)
    (stmt : Statement) (hsc : ∀ t ∈ sc, t ∉ controlNames)
    (h : LET_Sta.parseSta L sc = .ok (stmt, rest)) : ∀ n ∈ stmt.names, n ∉ controlNames := by
  unfold LET_Sta.parseSta at h
  simp only at h
  split at h
  · simp at h
  · split at h
    · simp at h
    · rename_i exp sc2 hp
      simp only [Except.ok.injEq, Prod.mk.injEq] at h
      rw [← h.1]
      intro n hn
      simp only [Statement.names, List.mem_cons] at hn
      rcases hn with rfl | hn
      · exact TokenScanner.nextToken_fst sc hsc
      · have := hL.2 _ _ _ hp n hn
        exact hsc n (TokenScanner.nextToken_snd sc n (TokenScanner.nextToken_snd _ n this))

theorem PRINT_Sta.parseSta_names_print (L : Lib) (hL : L.userWords) (sc rest : TokenScanner)
    (stmt : Statement) (hsc : ∀ t ∈ sc, t ∉ controlNames)
    (h : PRINT_Sta.parseSta L sc = .ok (stmt, rest)) : ∀ n ∈ stmt.names, n ∉ controlNames := by
  unfold PRINT_Sta.parseSta at h
  split at h
  · simp at h
  · rename_i exp sc2 hp
    simp only [Except.ok.injEq, Prod.mk.injEq] at h
    rw [← h.1]
    intro n hn
    exact hsc n (hL.2 _ _ _ hp n hn)

theorem INPUT_Sta.parseSta_names_input (L : Lib) (sc rest : TokenScanner)
    (stmt : Statement) (hsc : ∀ t ∈ sc, t ∉ controlNames)
    (h : INPUT_Sta.parseSta L sc = .ok (stmt, rest)) : ∀ n ∈ stmt.names, n ∉ controlNames := by
  unfold INPUT_Sta.parseSta at h
  simp only at h
  split at h
  · simp at h
  · simp only [Except.ok.injEq, Prod.mk.injEq] at h
    rw [← h.1]
    intro n hn
    simp only [Statement.names, List.mem_singleton] at hn
    rw [hn]
    exact TokenScanner.nextToken_fst sc hsc

theorem IF_Sta.parseSide_names (L : Lib) (hL : L.userWords) (text : String) (exp : Expression)
    (h : IF_Sta.parseSide L text = .ok exp) : ∀ n ∈ exp.names, n ∉ controlNames := by
  unfold IF_Sta.parseSide at h
  split at h
  · simp at h
  · rename_i exp2 sc2 hp
    simp only [Except.ok.injEq] at h
    rw [← h]
    intro n hn
    exact hL.1 text n (hL.2 _ _ _ hp n hn)

theorem IF_Sta.parseSta_names_if (L : Lib) (hL : L.userWords) (sc rest : TokenScanner)
    (stmt : Statement) (h : IF_Sta.parseSta L sc = .ok (stmt, rest)) :
    ∀ n ∈ stmt.names, n ∉ controlNames := by
  unfold IF_Sta.parseSta at h
  split at h
  · simp at h
  · split at h
    · simp at h
    · rename_i lhs hl
      simp only at h
      split at h
      · simp at h
      · split at h
        · simp at h
        · rename_i rhs hr
          split at h
          · split at h
            · simp at h
            · simp only [Except.ok.injEq, Prod.mk.injEq] at h
              rw [← h.1]
              intro n hn
              simp only [Statement.names, List.mem_append] at hn
              rcases hn with hn | hn
              · exact IF_Sta.parseSide_names L hL _ lhs hl n hn
              · exact IF_Sta.parseSide_names L hL _ rhs hr n hn
          · simp at h

theorem Except.map_some_ok (x : Except String (Statement × TokenScanner))
    (p : Statement × TokenScanner) (h : Except.map some x = .ok (some p)) : x = .ok p := by
  cases x with
  | error e => simp [Except.map] at h
  | ok q =>
    simp only [Except.map, Except.ok.injEq, Option.some.injEq] at h
    rw [h]

/-- With a library that keeps the control flags out of reach, a statement that
`getStatement` builds from tokens of the scanner names no control flag. -/
theorem getStatement.names_userOnly (L : Lib) (hL : L.userWords) (sc : TokenScanner)
    (hsc : ∀ t ∈ sc, t ∉ controlNames) (r : Option Statement)
    (h : getStatement L sc = .ok r) :
    ∀ stmt, r = some stmt → ∀ n ∈ stmt.names, n ∉ controlNames := by
  have hsc2 : ∀ t ∈ sc.nextToken.2, t ∉ controlNames :=
    fun t ht => hsc t (TokenScanner.nextToken_snd sc t ht)
  unfold getStatement at h
  simp only at h
  split at h
  · simp at h
  · simp only [Except.ok.injEq] at h
    intro stmt hs
    rw [← h] at hs
    simp at hs
  · rename_i stmt0 sc3 hd
    split at h
    · simp at h
    · simp only [Except.ok.injEq] at h
      intro stmt hs
      rw [← h] at hs
      simp only [Option.some.injEq] at hs
      subst hs
      unfold getStatement.dispatch at hd
      split at hd
      · simp at hd
      · exact LET_Sta.parseSta_names_let L hL _ sc3 stmt0 hsc2 (Except.map_some_ok _ _ hd)
      · exact PRINT_Sta.parseSta_names_print L hL _ sc3 stmt0 hsc2 (Except.map_some_ok _ _ hd)
      · exact INPUT_Sta.parseSta_names_input L _ sc3 stmt0 hsc2 (Except.map_some_ok _ _ hd)
      · have := GOTO_Sta.parseSta_kind_goto L _ sc3 stmt0 (Except.map_some_ok _ _ hd)
        cases stmt0 <;> simp [Statement.kind] at this
        intro n hn
        simp [Statement.names] at hn
      · exact IF_Sta.parseSta_names_if L hL _ sc3 stmt0 (Except.map_some_ok _ _ hd)
      · have := END_Sta.parseSta_kind_end _ sc3 stmt0 (Except.map_some_ok _ _ hd)
        cases stmt0 <;> simp [Statement.kind] at this
        intro n hn
        simp [Statement.names] at hn
      · simp at hd

theorem clause.userOnly_of_names (c : clause)
    (h : ∀ stmt, c.stmt = some stmt → ∀ n ∈ stmt.names, n ∉ controlNames) :
    c.userOnly = true := by
  unfold clause.userOnly
  cases hs : c.stmt with
  | none => rfl
  | some stmt =>
    simp only
    rw [List.all_eq_true]
    intro n hn
    have := h stmt hs n hn
    simpa using this

theorem Program.addSourceLine_userOnly (L : Lib) (hL : L.userWords) (P : Program) (n : Int)
    (line : String) (hP : ∀ c ∈ P.S, c.userOnly = true) :
    ∀ c ∈ (P.addSourceLine L n line).2.S, c.userOnly = true := by
  unfold Program.addSourceLine
  simp only
  cases hg : getStatement L (L.setInput line).nextToken.2 with
  | error e => exact hP
  | ok stmt =>
    have hnow : (⟨n, line, stmt⟩ : clause).userOnly = true := by
      apply clause.userOnly_of_names
      intro st hst
      exact getStatement.names_userOnly L hL _
        (fun t ht => hL.1 line t (TokenScanner.nextToken_snd _ t ht)) stmt hg st hst
    simp only
    split
    · intro c hc
      rcases set.mem_insert P.S _ c hc with rfl | h2
      · exact hnow
      · exact hP c h2
    · intro c hc
      rcases set.mem_insert _ _ c hc with rfl | h2
      · exact hnow
      · exact hP c ((List.eraseIdx_sublist P.S _).subset h2)

theorem Program.calls_userOnly (L : Lib) (hL : L.userWords) (cs : List Call) :
    ∀ P : Program, (∀ c ∈ P.S, c.userOnly = true) →
      ∀ c ∈ (Program.calls L P cs).S, c.userOnly = true := by
  induction cs with
  | nil => intro P hP; exact hP
  | cons call cs ih =>
    intro P hP
    show ∀ c ∈ (Program.calls L (P.call L call) cs).S, c.userOnly = true
    apply ih
    cases call with
    | addSourceLine n line => exact Program.addSourceLine_userOnly L hL P n line hP
    | removeSourceLine n =>
      show ∀ c ∈ (P.removeSourceLine n).S, c.userOnly = true
      unfold Program.removeSourceLine
      simp only
      split
      · intro c hc
        exact hP c ((List.eraseIdx_sublist P.S _).subset hc)
      · exact hP
    | clear =>
      intro c hc
      simp [Program.call, Program.clear] at hc

theorem clause.straight_of_userOnly (c : clause) (hu : c.userOnly = true)
    (hj : c.jumpFree = true) : c.straight = true := by
  unfold clause.straight
  unfold clause.userOnly at hu
  unfold clause.jumpFree at hj
  cases hs : c.stmt with
  | none => rfl
  | some stmt =>
    rw [hs] at hu hj
    simp only [Bool.not_eq_true'] at hu hj ⊢
    rw [hj]
    simp only [Bool.not_false, Bool.true_and]
    rw [List.all_eq_true] at hu ⊢
    intro n hn
    apply hu
    cases stmt <;> simp [Statement.binds] at hn <;> simp [Statement.names, hn]

/-! ## The claims on runs -/

/-- C12: for a program whose lines hold no `GOTO` and no `IF` and whose
statements do not fail, `run` ends without error within one round per line and
one more, having done what the sequential reading says: the executed lines are
the stored lines up to and including the first `END` (all lines when there is
none), in the order of the store, which is ascending and without repetition.
This holds for every store whose statements bind no control flag, and so for
every program entered as text through a library that keeps the flags out of
reach. On the empty store `run` ends at once and writes nothing. On
`10 LET X = 3`, `20 PRINT X * 2 - 1`, `30 END` it writes `5`. -/
theorem Program.run_sequential :
    (∀ (L : Lib) (P : Program) (m : Machine), (∀ c ∈ P.S, c.straight = true) →
      (Program.sequential L P.S (Program.start m)).1 = .ok →
      ∃ mf, (∀ fuel, P.S.length + 1 ≤ fuel → P.run L fuel m = some (.ok, mf)) ∧
        Program.sequential L P.S (Program.start m) = (.ok, mf) ∧
        mf.trace = m.trace ++ (Program.upToEnd P.S).map clause.lineNumber ∧
        Program.upToEnd P.S <+: P.S ∧
        (P.ordered →
          ((Program.upToEnd P.S).map clause.lineNumber).Pairwise (fun a b => a < b))) ∧
    (∀ (L : Lib) (cs : List Call) (m : Machine), L.userWords →
      (∀ c ∈ (Program.calls L Program.empty cs).S, c.jumpFree = true) →
      (Program.sequential L (Program.calls L Program.empty cs).S (Program.start m)).1 = .ok →
      ∃ mf, (∀ fuel, (Program.calls L Program.empty cs).S.length + 1 ≤ fuel →
          (Program.calls L Program.empty cs).run L fuel m = some (.ok, mf)) ∧
        mf.trace = m.trace ++
          (Program.upToEnd (Program.calls L Program.empty cs).S).map clause.lineNumber ∧
        ((Program.upToEnd (Program.calls L Program.empty cs).S).map
          clause.lineNumber).Pairwise (fun a b => a < b)) ∧
    (∀ (L : Lib) (m : Machine) (fuel : Nat), 1 ≤ fuel →
      Program.empty.run L fuel m = some (.ok, Program.start m) ∧
      (Program.start m).cout = m.cout) ∧
    (∀ fuel, 4 ≤ fuel →
      Program.straightLine.run Lib.standard fuel Machine.fresh =
        some (.ok,
          ⟨[("GOTO_DONE", 1), ("PROGRAM_END_TAG", 1), ("X", 3)], [], "5\n", [10, 20, 30]⟩)) := by
  have main : ∀ (L : Lib) (P : Program) (m : Machine), (∀ c ∈ P.S, c.straight = true) →
      (Program.sequential L P.S (Program.start m)).1 = .ok →
      ∃ mf, (∀ fuel, P.S.length + 1 ≤ fuel → P.run L fuel m = some (.ok, mf)) ∧
        Program.sequential L P.S (Program.start m) = (.ok, mf) ∧
        mf.trace = m.trace ++ (Program.upToEnd P.S).map clause.lineNumber ∧
        Program.upToEnd P.S <+: P.S ∧
        (P.ordered →
          ((Program.upToEnd P.S).map clause.lineNumber).Pairwise (fun a b => a < b)) := by
    intro L P m hstr hok
    refine ⟨(Program.sequential L P.S (Program.start m)).2, ?_, ?_, ?_,
      Program.upToEnd_prefix P.S, ?_⟩
    · intro fuel hfuel
      obtain ⟨extra, rfl⟩ := Nat.exists_eq_add_of_le hfuel
      unfold Program.run
      have := Program.loop_sequential L P P.S [] (Program.start m) (by simp) hstr
        (Program.start_running m) extra
      simp only [List.length_nil] at this
      rw [this, ← hok]
    · rw [← hok]
    · exact Program.sequential_trace L P.S (Program.start m) hok
    · intro hP
      rw [List.pairwise_map]
      exact List.Pairwise.sublist (Program.upToEnd_prefix P.S).sublist hP
  refine ⟨main, ?_, ?_, ?_⟩
  · intro L cs m hL hj hok
    have hu := Program.calls_userOnly L hL cs Program.empty (by simp [Program.empty])
    have hord := Program.calls_ordered L Program.empty cs List.Pairwise.nil
    obtain ⟨mf, h1, _, h3, _, h5⟩ := main L (Program.calls L Program.empty cs) m
      (fun c hc => clause.straight_of_userOnly c (hu c hc) (hj c hc)) hok
    exact ⟨mf, h1, h3, h5 hord⟩
  · intro L m fuel hfuel
    obtain ⟨extra, rfl⟩ := Nat.exists_eq_add_of_le hfuel
    refine ⟨?_, rfl⟩
    unfold Program.run
    have := Program.loop_sequential L Program.empty [] [] (Program.start m) rfl
      (by simp) (Program.start_running m) extra
    simpa [Program.sequential, Nat.add_comm] using this
  · intro fuel hfuel
    obtain ⟨extra, rfl⟩ := Nat.exists_eq_add_of_le hfuel
    exact Program.loop_mono Lib.standard Program.straightLine 4 extra 0 _ _ (by decide)

/-- C13: `run` sets the two flags `GOTO_DONE` and `PROGRAM_END_TAG` and nothing
else before its loop, which starts at the first line: the user variables keep
the values they had. Two incoming machines that differ only in the control
flags (`GOTO_DONE`, `GOTO_TAG`, `PROGRAM_END_TAG`) give, for every number of
rounds, the same outcome: the same status, output, input left and executed
lines, and final states that agree on the user variables. This holds for every
store whose statements name no control flag, and so for every program entered
as text through a library that keeps the flags out of reach. -/
theorem Program.run_resets_flags :
    (∀ (L : Lib) (P : Program) (m1 m2 : Machine), (∀ c ∈ P.S, c.userOnly = true) →
      m1.agree m2 →
      (∀ fuel, Program.sameOutcome (P.run L fuel m1) (P.run L fuel m2)) ∧
      (∀ fuel, P.run L fuel m1 = P.loop L fuel 0 (Program.start m1)) ∧
      EvalState.agree (Program.start m1).state m1.state ∧
      (Program.start m1).state.getValue "GOTO_DONE" = .ok 1 ∧
      (Program.start m1).state.getValue "PROGRAM_END_TAG" = .ok 0) ∧
    (∀ (L : Lib) (cs : List Call) (m1 m2 : Machine), L.userWords → m1.agree m2 →
      ∀ fuel, Program.sameOutcome ((Program.calls L Program.empty cs).run L fuel m1)
        ((Program.calls L Program.empty cs).run L fuel m2)) := by
  constructor
  · intro L P m1 m2 hP h
    refine ⟨?_, fun _ => rfl, Program.start_agree m1, ?_, ?_⟩
    · intro fuel
      exact Program.loop_alike L P hP fuel 0 _ _ (Program.start_alike m1 m2 h)
    · show ((m1.state.setValue "GOTO_DONE" 1).setValue "PROGRAM_END_TAG" 0).getValue
        "GOTO_DONE" = .ok 1
      rw [EvalState.getValue_setValue_ne _ _ _ _ (by decide)]
      exact EvalState.getValue_setValue_same _ _ _
    · exact EvalState.getValue_setValue_same _ _ _
  · intro L cs m1 m2 hL h fuel
    have hu := Program.calls_userOnly L hL cs Program.empty (by simp [Program.empty])
    exact Program.loop_alike L _ hu fuel 0 _ _ (Program.start_alike m1 m2 h)

/-! ### Instances of the claims on runs -/

theorem Program.run_sequential_witness :
    ((∀ c ∈ Program.straightLine.S, c.straight = true) ∧
      (Program.sequential Lib.standard Program.straightLine.S
        (Program.start Machine.fresh)).1 = .ok) ∧
    (∃ mf, (∀ fuel, Program.straightLine.S.length + 1 ≤ fuel →
        Program.straightLine.run Lib.standard fuel Machine.fresh = some (.ok, mf)) ∧
      mf.trace = Machine.fresh.trace ++
        (Program.upToEnd Program.straightLine.S).map clause.lineNumber) ∧
    (Lib.standard.userWords ∧ (∀ c ∈ Program.straightLine.S, c.jumpFree = true)) ∧
    ∃ mf, (∀ fuel, Program.straightLine.S.length + 1 ≤ fuel →
        Program.straightLine.run Lib.standard fuel Machine.fresh = some (.ok, mf)) ∧
      mf.trace = Machine.fresh.trace ++
        (Program.upToEnd Program.straightLine.S).map clause.lineNumber :=
  ⟨⟨by decide, by decide⟩,
    (Program.run_sequential.1 Lib.standard Program.straightLine Machine.fresh (by decide)
      (by decide)).imp (fun _ h => ⟨h.1, h.2.2.1⟩),
    ⟨Lib.standard_userWords, by decide⟩,
    (Program.run_sequential.2.1 Lib.standard
      [.addSourceLine 10 "10 LET X = 3", .addSourceLine 20 "20 PRINT X * 2 - 1",
        .addSourceLine 30 "30 END"] Machine.fresh Lib.standard_userWords (by decide)
      (by decide)).imp (fun _ h => ⟨h.1, h.2.1⟩)⟩

theorem Program.run_resets_flags_witness :
    ((∀ c ∈ Program.gotoSkip.S, c.userOnly = true) ∧
      Machine.agree ⟨[("X", 7)], [], "", []⟩
        ⟨[("GOTO_DONE", 0), ("GOTO_TAG", 99), ("PROGRAM_END_TAG", 1), ("X", 7)], [], "", []⟩ ∧
      Lib.standard.userWords) ∧
    (∀ fuel, Program.sameOutcome
      (Program.gotoSkip.run Lib.standard fuel ⟨[("X", 7)], [], "", []⟩)
      (Program.gotoSkip.run Lib.standard fuel
        ⟨[("GOTO_DONE", 0), ("GOTO_TAG", 99), ("PROGRAM_END_TAG", 1), ("X", 7)], [], "", []⟩)) ∧
    (∀ fuel, Program.sameOutcome
      ((Program.calls Lib.standard Program.empty [.addSourceLine 10 "10 GOTO 99"]).run
        Lib.standard fuel ⟨[("X", 7)], [], "", []⟩)
      ((Program.calls Lib.standard Program.empty [.addSourceLine 10 "10 GOTO 99"]).run
        Lib.standard fuel
        ⟨[("GOTO_DONE", 0), ("GOTO_TAG", 99), ("PROGRAM_END_TAG", 1), ("X", 7)], [], "", []⟩)) :=
  have hagree : Machine.agree ⟨[("X", 7)], [], "", []⟩
      ⟨[("GOTO_DONE", 0), ("GOTO_TAG", 99), ("PROGRAM_END_TAG", 1), ("X", 7)], [], "", []⟩ := by
    refine ⟨rfl, rfl, rfl, ?_⟩
    intro v hv
    simp only [controlNames, List.mem_cons, List.mem_singleton, List.not_mem_nil, or_false,
      not_or] at hv
    obtain ⟨h1, h2, h3⟩ := hv
    simp [EvalState.getValue, Ne.symm h1, Ne.symm h2, Ne.symm h3]
  ⟨⟨by decide, hagree, Lib.standard_userWords⟩,
    (Program.run_resets_flags.1 Lib.standard Program.gotoSkip _ _ (by decide) hagree).1,
    Program.run_resets_flags.2 Lib.standard [.addSourceLine 10 "10 GOTO 99"] _ _
      Lib.standard_userWords hagree⟩

/-! ## The claim on the keyword lookup -/

theorem getStatement.reads_unknown (type : String) (h : type ∉ Types) :
    getStatement.reads type (SIZE + 1) 0 = [0, 1, 2, 3, 4, 5, 6, 7] := by
  simp only [Types, List.mem_cons, List.mem_singleton, List.not_mem_nil, or_false,
    not_or] at h
  obtain ⟨h1, h2, h3, h4, h5, h6, h7⟩ := h
  simp [getStatement.reads, SIZE, Types, Ne.symm h1, Ne.symm h2, Ne.symm h3,
    Ne.symm h4, Ne.symm h5, Ne.symm h6, Ne.symm h7]

theorem getStatement.searchWith_unknown (past type : String) (h : type ∉ Types) :
    getStatement.searchWith past type (SIZE + 1) 0 = SIZE := by
  simp only [Types, List.mem_cons, List.mem_singleton, List.not_mem_nil, or_false,
    not_or] at h
  obtain ⟨h1, h2, h3, h4, h5, h6, h7⟩ := h
  simp [getStatement.searchWith, SIZE, Types, Ne.symm h1, Ne.symm h2, Ne.symm h3,
    Ne.symm h4, Ne.symm h5, Ne.symm h6, Ne.symm h7]

theorem LET_Sta.reads_bound (varName : String) (fuel : Nat) :
    ∀ id, ∀ i ∈ LET_Sta.reads varName fuel id, i < illegalCnt := by
  induction fuel with
  | zero => intro id i hi; simp [LET_Sta.reads] at hi
  | succ fuel ih =>
    intro id i hi
    unfold LET_Sta.reads at hi
    split at hi
    · rename_i hlt
      rcases List.mem_cons.1 hi with rfl | h2
      · exact hlt
      · split at h2
        · exact ih _ i h2
        · simp at h2
    · simp at hi

/-- C22 (what the code does): the lookup loop of `getStatement` reads
`Types[id]` before it tests `id < SIZE`. For a first token that is one of the
seven keywords every read is within the table; for any other first token, the
blank one included, the reads are at the indices 0 to 7, and the read at index
7 is past the end of the 7-element table. Whatever that read yields, the loop
stops there with `id = 7`. The search loop of `LET_Sta::parseSta` tests the
bound first and never reads past its table. -/
theorem getStatement.search_reads :
    (∀ type, type ∉ Types →
      getStatement.reads type (SIZE + 1) 0 = [0, 1, 2, 3, 4, 5, 6, 7] ∧
      Types.length ∈ getStatement.reads type (SIZE + 1) 0 ∧
      ∀ past, getStatement.searchWith past type (SIZE + 1) 0 = SIZE) ∧
    (∀ type, type ∈ Types → ∀ i ∈ getStatement.reads type (SIZE + 1) 0, i < Types.length) ∧
    (∀ type, (getStatement.reads type (SIZE + 1) 0).getLast? =
      some (getStatement.search type (SIZE + 1) 0)) ∧
    (∀ varName, ∀ i ∈ LET_Sta.reads varName (illegalCnt + 1) 0, i < illegalNames.length) ∧
    getStatement.reads "FOO" (SIZE + 1) 0 = [0, 1, 2, 3, 4, 5, 6, 7] ∧
    getStatement.reads "" (SIZE + 1) 0 = [0, 1, 2, 3, 4, 5, 6, 7] ∧
    Types.length = 7 := by
  refine ⟨?_, ?_, ?_, ?_, by decide, by decide, by decide⟩
  · intro type h
    refine ⟨getStatement.reads_unknown type h, ?_,
      fun past => getStatement.searchWith_unknown past type h⟩
    rw [getStatement.reads_unknown type h]
    decide
  · intro type h
    simp only [Types, List.mem_cons, List.mem_singleton, List.not_mem_nil, or_false] at h
    rcases h with rfl | rfl | rfl | rfl | rfl | rfl | rfl <;> decide
  · intro type
    by_cases h : type ∈ Types
    · simp only [Types, List.mem_cons, List.mem_singleton, List.not_mem_nil, or_false] at h
      rcases h with rfl | rfl | rfl | rfl | rfl | rfl | rfl <;> decide
    · rw [getStatement.reads_unknown type h, getStatement.search_unknown type h]
      decide
  · intro varName i hi
    exact LET_Sta.reads_bound varName _ 0 i hi

theorem getStatement.search_reads_witness :
    ("FOO" ∉ Types ∧ Types.length ∈ getStatement.reads "FOO" (SIZE + 1) 0) ∧
    ("GOTO" ∈ Types ∧ ∀ i ∈ getStatement.reads "GOTO" (SIZE + 1) 0, i < Types.length) :=
  ⟨⟨by decide, (getStatement.search_reads.1 "FOO" (by decide)).2.1⟩,
    ⟨by decide, getStatement.search_reads.2.1 "GOTO" (by decide)⟩⟩

/-! ## Lemmas on comment lines -/

theorem set.insert_split (S : List clause) (value : clause)
    (h : value.lineNumber ∉ S.map clause.lineNumber) :
    ∃ pre suf, S = pre ++ suf ∧ set.insert S value = pre ++ value :: suf := by
  induction S with
  | nil => exact ⟨[], [], rfl, rfl⟩
  | cons c cs ih =>
    simp only [List.map_cons, List.mem_cons, not_or] at h
    unfold set.insert
    split
    · exact ⟨[], c :: cs, rfl, rfl⟩
    · split
      · obtain ⟨pre, suf, h1, h2⟩ := ih h.2
        exact ⟨c :: pre, suf, by rw [h1]; rfl, by rw [h2]; rfl⟩
      · rename_i h1 h2
        unfold clause.lt at h1 h2
        exact absurd (by omega : value.lineNumber = c.lineNumber) h.1

theorem set.deref_shifted (pre suf : List clause) (value : clause) (it it2 : Nat)
    (h : Program.shifted pre.length it it2) :
    set.deref (pre ++ value :: suf) it2 = set.deref (pre ++ suf) it := by
  induction pre generalizing it it2 with
  | nil =>
    rcases h with ⟨h1, _⟩ | ⟨_, h2⟩
    · simp at h1
    · rw [h2]
      simp [set.deref]
  | cons p ps ih =>
    rcases h with ⟨h1, h2⟩ | ⟨h1, h2⟩
    · rw [h2]
      cases it with
      | zero => rfl
      | succ i =>
        have := ih i i (Or.inl ⟨by simpa using h1, rfl⟩)
        simpa [set.deref] using this
    · rw [h2]
      cases it with
      | zero => simp at h1
      | succ i =>
        have := ih i (i + 1) (Or.inr ⟨by simpa using h1, rfl⟩)
        simpa [set.deref] using this

theorem set.find_shifted (pre suf : List clause) (value key : clause)
    (h : key.lineNumber ≠ value.lineNumber) :
    Program.shifted pre.length (set.find (pre ++ suf) key)
      (set.find (pre ++ value :: suf) key) := by
  induction pre with
  | nil =>
    simp only [List.nil_append, List.length_nil]
    rw [set.find_cons_ne value suf key (Ne.symm h)]
    exact Or.inr ⟨Nat.zero_le _, rfl⟩
  | cons c cs ih =>
    simp only [List.cons_append, List.length_cons]
    by_cases hc : c.lineNumber = key.lineNumber
    · rw [set.find_cons_eq c _ key hc, set.find_cons_eq c _ key hc]
      exact Or.inl ⟨Nat.succ_pos _, rfl⟩
    · rw [set.find_cons_ne c _ key hc, set.find_cons_ne c _ key hc]
      rcases ih with ⟨h1, h2⟩ | ⟨h1, h2⟩
      · exact Or.inl ⟨by omega, by omega⟩
      · exact Or.inr ⟨by omega, by omega⟩

theorem Program.shifted_end (k len it it2 : Nat) (hk : k ≤ len) (h : Program.shifted k it it2) :
    it = len ↔ it2 = len + 1 := by
  rcases h with ⟨h1, h2⟩ | ⟨h1, h2⟩ <;> omega

theorem Program.shifted_succ (k it it2 : Nat) (h : Program.shifted k it it2) :
    Program.shifted k (it + 1) (it2 + 1) ∨ (it + 1 = k ∧ it2 + 1 = k) := by
  rcases h with ⟨h1, h2⟩ | ⟨h1, h2⟩
  · by_cases h3 : it + 1 < k
    · exact Or.inl (Or.inl ⟨h3, by omega⟩)
    · exact Or.inr ⟨by omega, by omega⟩
  · exact Or.inl (Or.inr ⟨by omega, by omega⟩)

theorem EvalState.setValue_defined (st : EvalState) (k name : String) (x : Int)
    (h : ∃ y, st.getValue name = .ok y) : ∃ y, (st.setValue k x).getValue name = .ok y := by
  by_cases hk : k = name
  · subst hk
    exact ⟨x, EvalState.getValue_setValue_same _ _ _⟩
  · rw [EvalState.getValue_setValue_ne _ _ _ _ hk]
    exact h

theorem Statement.execute_defined (L : Lib) (stmt : Statement) (m : Machine) (name : String)
    (h : ∃ y, m.state.getValue name = .ok y) :
    ∃ y, (stmt.execute L m).2.state.getValue name = .ok y := by
  cases stmt with
  | LET_Sta v e =>
    simp only [Statement.execute, LET_Sta.execute]
    split
    · exact h
    · exact EvalState.setValue_defined _ _ _ _ h
  | PRINT_Sta e =>
    simp only [Statement.execute, PRINT_Sta.execute]
    split <;> exact h
  | INPUT_Sta v =>
    simp only [Statement.execute, INPUT_Sta.execute]
    split
    · exact h
    · exact EvalState.setValue_defined _ _ _ _ h
  | END_Sta => exact EvalState.setValue_defined _ _ _ _ h
  | GOTO_Sta t =>
    exact EvalState.setValue_defined _ _ _ _ (EvalState.setValue_defined _ _ _ _ h)
  | IF_Sta op lhs rhs t =>
    simp only [Statement.execute, IF_Sta.execute]
    split
    · exact h
    · split
      · exact h
      · split
        · exact EvalState.setValue_defined _ _ _ _ (EvalState.setValue_defined _ _ _ _ h)
        · exact h

/-- A statement does the same on two machines that are the same but for
visits of line `n`. -/
theorem Statement.execute_sameBut (L : Lib) (stmt : Statement) (n : Int) (m m2 : Machine)
    (h : m.sameBut n m2) :
    (stmt.execute L m).1 = (stmt.execute L m2).1 ∧
    (stmt.execute L m).2.sameBut n (stmt.execute L m2).2 := by
  obtain ⟨st, cin, cout, tr⟩ := m
  obtain ⟨st2, cin2, cout2, tr2⟩ := m2
  obtain ⟨h1, h2, h3, h4⟩ := h
  simp only at h1 h2 h3 h4
  subst h1 h2 h3
  cases stmt with
  | LET_Sta v e =>
    simp only [Statement.execute, LET_Sta.execute]
    cases e.eval st with
    | error msg => exact ⟨rfl, rfl, rfl, rfl, h4⟩
    | ok x => exact ⟨rfl, rfl, rfl, rfl, h4⟩
  | PRINT_Sta e =>
    simp only [Statement.execute, PRINT_Sta.execute]
    cases e.eval st with
    | error msg => exact ⟨rfl, rfl, rfl, rfl, h4⟩
    | ok x => exact ⟨rfl, rfl, rfl, rfl, h4⟩
  | INPUT_Sta v =>
    simp only [Statement.execute, INPUT_Sta.execute]
    rcases INPUT_Sta.loop L cin cout with ⟨_ | value, cin3, cout3⟩
    · exact ⟨rfl, rfl, rfl, rfl, h4⟩
    · exact ⟨rfl, rfl, rfl, rfl, h4⟩
  | END_Sta => exact ⟨rfl, rfl, rfl, rfl, h4⟩
  | GOTO_Sta t => exact ⟨rfl, rfl, rfl, rfl, h4⟩
  | IF_Sta op lhs rhs t =>
    simp only [Statement.execute, IF_Sta.execute]
    cases lhs.eval st with
    | error msg => exact ⟨rfl, rfl, rfl, rfl, h4⟩
    | ok l =>
      cases rhs.eval st with
      | error msg => exact ⟨rfl, rfl, rfl, rfl, h4⟩
      | ok r =>
        simp only
        split
        · exact ⟨rfl, rfl, rfl, rfl, h4⟩
        · exact ⟨rfl, rfl, rfl, rfl, h4⟩

theorem Statement.binds_subset_names (stmt : Statement) (v : String) (h : v ∈ stmt.binds) :
    v ∈ stmt.names := by
  cases stmt <;> simp [Statement.binds] at h <;> simp [Statement.names, h]

/-- When no jump was pending before a statement that does not bind `GOTO_DONE`
and one is pending after it, the statement is a jump, and `GOTO_TAG` holds its
target. -/
theorem Statement.execute_pending (L : Lib) (stmt : Statement) (m : Machine)
    (hb : ∀ v ∈ stmt.binds, v ≠ "GOTO_DONE")
    (hd : ∃ done, m.state.getValue "GOTO_DONE" = .ok done ∧ done ≠ 0)
    (h0 : (stmt.execute L m).2.state.getValue "GOTO_DONE" = .ok 0) :
    ∃ t, stmt.target = some t ∧ (stmt.execute L m).2.state.getValue "GOTO_TAG" = .ok t := by
  obtain ⟨done, hg, hg0⟩ := hd
  have contra : m.state.getValue "GOTO_DONE" = .ok 0 → False := by
    intro h
    rw [hg] at h
    simp only [Except.ok.injEq] at h
    exact hg0 h
  have tag : ∀ t : Int, ((m.state.setValue "GOTO_TAG" t).setValue "GOTO_DONE" 0).getValue
      "GOTO_TAG" = .ok t := by
    intro t
    rw [EvalState.getValue_setValue_ne (m.state.setValue "GOTO_TAG" t) "GOTO_DONE" "GOTO_TAG" 0
      (by decide)]
    exact EvalState.getValue_setValue_same _ _ _
  cases stmt with
  | LET_Sta v e =>
    have hv : v ≠ "GOTO_DONE" := hb v (by simp [Statement.binds])
    simp only [Statement.execute, LET_Sta.execute] at h0
    split at h0
    · exact (contra h0).elim
    · rw [EvalState.getValue_setValue_ne _ _ _ _ hv] at h0
      exact (contra h0).elim
  | PRINT_Sta e =>
    simp only [Statement.execute, PRINT_Sta.execute] at h0
    split at h0 <;> exact (contra h0).elim
  | INPUT_Sta v =>
    have hv : v ≠ "GOTO_DONE" := hb v (by simp [Statement.binds])
    simp only [Statement.execute, INPUT_Sta.execute] at h0
    split at h0
    · exact (contra h0).elim
    · rw [EvalState.getValue_setValue_ne _ _ _ _ hv] at h0
      exact (contra h0).elim
  | END_Sta =>
    simp only [Statement.execute, END_Sta.execute] at h0
    rw [EvalState.getValue_setValue_ne _ _ _ _ (by decide)] at h0
    exact (contra h0).elim
  | GOTO_Sta t => exact ⟨t, rfl, tag t⟩
  | IF_Sta op lhs rhs t =>
    simp only [Statement.execute, IF_Sta.execute] at h0 ⊢
    split
    · rename_i hl
      simp only [hl] at h0
      exact (contra h0).elim
    · rename_i l hl
      simp only [hl] at h0
      split
      · rename_i hr
        simp only [hr] at h0
        exact (contra h0).elim
      · rename_i r hr
        simp only [hr] at h0
        split
        · exact ⟨t, rfl, tag t⟩
        · rename_i hc
          rw [if_neg hc] at h0
          exact (contra h0).elim

theorem Program.mem_targets (P : Program) (c : clause) (stmt : Statement) (t : Int)
    (hc : c ∈ P.S) (hs : c.stmt = some stmt) (ht : stmt.target = some t) : t ∈ P.targets := by
  unfold Program.targets
  rw [List.mem_filterMap]
  exact ⟨c, hc, by rw [hs]; exact ht⟩

theorem Machine.sameBut_visit (n : Int) (m m2 : Machine) (k : Int) (h : m.sameBut n m2) :
    (m.visit k).sameBut n (m2.visit k) := by
  obtain ⟨h1, h2, h3, h4⟩ := h
  refine ⟨h1, h2, h3, ?_⟩
  simp only [Machine.visit, List.filter_append, h4]

theorem Machine.sameBut_comment (n : Int) (m m2 : Machine) (h : m.sameBut n m2) :
    m.sameBut n (m2.visit n) := by
  obtain ⟨h1, h2, h3, h4⟩ := h
  refine ⟨h1, h2, h3, ?_⟩
  show m.trace.filter (fun k => decide (k ≠ n)) =
    (m2.trace ++ [n]).filter (fun k => decide (k ≠ n))
  rw [List.filter_append, h4]
  simp

theorem Program.exec_related (L : Lib) (P : Program) (n : Int) (k : Nat) (c : clause)
    (it it2 : Nat) (m m2 : Machine) (hc : c ∈ P.S) (hu : c.userOnly = true)
    (hn : n ∉ P.targets) (hs : Program.shifted k it it2) (hm : m.sameBut n m2)
    (hp : m.pendingOk n)
    (hd : ∃ done, m.state.getValue "GOTO_DONE" = .ok done ∧ done ≠ 0) :
    Step.related n k (Program.exec L c it m) (Program.exec L c it2 m2) := by
  have hv := Machine.sameBut_visit n m m2 c.lineNumber hm
  unfold Program.exec
  cases hst : c.stmt with
  | none => exact ⟨Program.shifted_succ k it it2 hs, hv, hp⟩
  | some stmt =>
    unfold clause.userOnly at hu
    rw [hst] at hu
    have hb : ∀ v ∈ stmt.binds, v ≠ "GOTO_DONE" := by
      intro v hv2 e
      exact controlNames_not_mem stmt.names hu v (Statement.binds_subset_names stmt v hv2)
        (by rw [e]; decide)
    have hx := Statement.execute_sameBut L stmt n (m.visit c.lineNumber)
      (m2.visit c.lineNumber) hv
    have hdef1 := Statement.execute_defined L stmt (m.visit c.lineNumber) "PROGRAM_END_TAG" hp.1
    have hdef2 := Statement.execute_defined L stmt (m.visit c.lineNumber) "GOTO_DONE" hp.2.1
    have hpend := Statement.execute_pending L stmt (m.visit c.lineNumber) hb hd
    have e1 : stmt.execute L { m with trace := m.trace ++ [c.lineNumber] } =
        stmt.execute L (m.visit c.lineNumber) := rfl
    have e2 : stmt.execute L { m2 with trace := m2.trace ++ [c.lineNumber] } =
        stmt.execute L (m2.visit c.lineNumber) := rfl
    simp only [e1, e2]
    rcases hr1 : stmt.execute L (m.visit c.lineNumber) with ⟨st1, f1⟩
    rcases hr2 : stmt.execute L (m2.visit c.lineNumber) with ⟨st2, f2⟩
    rw [hr1, hr2] at hx
    rw [hr1] at hdef1 hdef2 hpend
    obtain ⟨hs2, hf⟩ := hx
    simp only at hs2 hf hdef1 hdef2 hpend
    subst hs2
    cases st1 with
    | ok =>
      refine ⟨Program.shifted_succ k it it2 hs, hf, hdef1, hdef2, ?_⟩
      intro h0
      obtain ⟨t, ht, htag⟩ := hpend h0
      exact ⟨t, htag, fun e => hn (e ▸ Program.mem_targets P c stmt t hc hst ht)⟩
    | error msg => exact ⟨rfl, hf⟩
    | blocked => exact ⟨rfl, hf⟩
    | undefined => exact ⟨rfl, hf⟩

theorem Program.jump_related (P P2 : Program) (n : Int) (pre suf : List clause) (text : String)
    (hS : P.S = pre ++ suf) (hS2 : P2.S = pre ++ ⟨n, text, none⟩ :: suf) (m m2 : Machine)
    (hm : m.sameBut n m2) (hp : m.pendingOk n)
    (h0 : m.state.getValue "GOTO_DONE" = .ok 0) :
    Step.related n pre.length (P.jump m) (P2.jump m2) := by
  obtain ⟨t, htag, htn⟩ := hp.2.2 h0
  obtain ⟨h1, h2, h3, h4⟩ := hm
  have ht1 : (m.state.setValue "GOTO_DONE" 1).getValue "GOTO_TAG" = .ok t := by
    rw [EvalState.getValue_setValue_ne _ _ _ _ (by decide)]
    exact htag
  have hm1 : Machine.sameBut n { m with state := m.state.setValue "GOTO_DONE" 1 }
      { m2 with state := m2.state.setValue "GOTO_DONE" 1 } := by
    refine ⟨?_, h2, h3, h4⟩
    show m.state.setValue "GOTO_DONE" 1 = m2.state.setValue "GOTO_DONE" 1
    rw [h1]
  have hp1 : Machine.pendingOk n { m with state := m.state.setValue "GOTO_DONE" 1 } := by
    refine ⟨EvalState.setValue_defined _ _ _ _ hp.1, EvalState.setValue_defined _ _ _ _ hp.2.1,
      ?_⟩
    intro h5
    have h6 : (m.state.setValue "GOTO_DONE" 1).getValue "GOTO_DONE" = .ok 0 := h5
    rw [EvalState.getValue_setValue_same] at h6
    simp at h6
  have hf := set.find_shifted pre suf ⟨n, text, none⟩ ⟨t, "", none⟩ htn
  have hend := Program.shifted_end pre.length (pre ++ suf).length _ _ (by simp) hf
  have hlen : (pre ++ (⟨n, text, none⟩ : clause) :: suf).length = (pre ++ suf).length + 1 := by
    simp
    omega
  unfold Program.jump
  simp only [← h1] at hm1
  simp only [← h1, ht1, hS, hS2, hlen]
  by_cases he : set.find (pre ++ suf) ⟨t, "", none⟩ = (pre ++ suf).length
  · rw [if_pos he, if_pos (hend.1 he)]
    exact ⟨rfl, hm1⟩
  · rw [if_neg he, if_neg (fun e => he (hend.2 e))]
    exact ⟨Or.inl hf, hm1, hp1⟩

/-- One round of the loop of `run`, told from the values of the two flags. -/
theorem Program.step_flags (L : Lib) (P : Program) (it : Nat) (m : Machine) (endTag done : Int)
    (he : m.state.getValue "PROGRAM_END_TAG" = .ok endTag)
    (hd : m.state.getValue "GOTO_DONE" = .ok done) :
    P.step L it m =
      if it = P.S.length ∧ done ≠ 0 then .done .ok m
      else if endTag = 1 then .done .ok m
      else if done = 0 then P.jump m
      else
        match set.deref P.S it with
        | none => .done .undefined m
        | some c => Program.exec L c it m := by
  unfold Program.step Program.cond
  by_cases h1 : it = P.S.length
  · by_cases h2 : done = 0
    · simp [h1, h2, hd, he]
    · have hb : (done == 0) = false := by simp [h2]
      simp [h1, h2, hd, he, hb]
  · simp [h1, hd, he]

/-- A round on the store and the round on the store with the comment line, at
iterators that point to the same line, end in the same way. -/
theorem Program.step_shifted (L : Lib) (P P2 : Program) (n : Int) (pre suf : List clause)
    (text : String) (hS : P.S = pre ++ suf) (hS2 : P2.S = pre ++ ⟨n, text, none⟩ :: suf)
    (hu : ∀ c ∈ P.S, c.userOnly = true) (hn : n ∉ P.targets) (it it2 : Nat) (m m2 : Machine)
    (hs : Program.shifted pre.length it it2) (hm : m.sameBut n m2) (hp : m.pendingOk n) :
    Step.related n pre.length (P.step L it m) (P2.step L it2 m2) := by
  have hp0 := hp
  obtain ⟨⟨e, he⟩, ⟨d, hd⟩, _⟩ := hp0
  have he2 : m2.state.getValue "PROGRAM_END_TAG" = .ok e := by rw [← hm.1]; exact he
  have hd2 : m2.state.getValue "GOTO_DONE" = .ok d := by rw [← hm.1]; exact hd
  have hlen2 : P2.S.length = P.S.length + 1 := by
    rw [hS, hS2]; simp; omega
  have hk : pre.length ≤ P.S.length := by rw [hS]; simp
  have hend := Program.shifted_end pre.length P.S.length it it2 hk hs
  have hderef : set.deref P2.S it2 = set.deref P.S it := by
    rw [hS, hS2]; exact set.deref_shifted pre suf _ it it2 hs
  rw [Program.step_flags L P it m e d he hd, Program.step_flags L P2 it2 m2 e d he2 hd2]
  by_cases c1 : it = P.S.length ∧ d ≠ 0
  · have c2 : it2 = P2.S.length ∧ d ≠ 0 := ⟨by rw [hlen2]; exact hend.1 c1.1, c1.2⟩
    rw [if_pos c1, if_pos c2]
    exact ⟨rfl, hm⟩
  · have c2 : ¬ (it2 = P2.S.length ∧ d ≠ 0) := by
      intro h
      exact c1 ⟨hend.2 (by rw [← hlen2]; exact h.1), h.2⟩
    rw [if_neg c1, if_neg c2]
    by_cases c3 : e = 1
    · rw [if_pos c3, if_pos c3]
      exact ⟨rfl, hm⟩
    · rw [if_neg c3, if_neg c3]
      by_cases c4 : d = 0
      · rw [if_pos c4, if_pos c4]
        exact Program.jump_related P P2 n pre suf text hS hS2 m m2 hm hp (by rw [hd, c4])
      · rw [if_neg c4, if_neg c4, hderef]
        cases hdr : set.deref P.S it with
        | none => exact ⟨rfl, hm⟩
        | some c =>
          exact Program.exec_related L P n pre.length c it it2 m m2 (List.get?_mem hdr)
            (hu c (List.get?_mem hdr)) hn hs hm hp ⟨d, hd, c4⟩

/-- A round on the store with the comment line, at the comment line: either it
only steps over the comment line, or it ends as the round on the store without
it does at the line that follows. -/
theorem Program.step_comment (L : Lib) (P P2 : Program) (n : Int) (pre suf : List clause)
    (text : String) (hS : P.S = pre ++ suf) (hS2 : P2.S = pre ++ ⟨n, text, none⟩ :: suf)
    (m m2 : Machine) (hm : m.sameBut n m2) (hp : m.pendingOk n) :
    P2.step L pre.length m2 = .next (pre.length + 1) (m2.visit n) ∨
    Step.related n pre.length (P.step L pre.length m) (P2.step L pre.length m2) := by
  have hp0 := hp
  obtain ⟨⟨e, he⟩, ⟨d, hd⟩, _⟩ := hp0
  have he2 : m2.state.getValue "PROGRAM_END_TAG" = .ok e := by rw [← hm.1]; exact he
  have hd2 : m2.state.getValue "GOTO_DONE" = .ok d := by rw [← hm.1]; exact hd
  have hne : ¬ (pre.length = P2.S.length ∧ d ≠ 0) := by
    rw [hS2]; simp
  have hderef : set.deref P2.S pre.length = some ⟨n, text, none⟩ := by
    rw [hS2]; exact set.deref_append pre _ suf
  rw [Program.step_flags L P pre.length m e d he hd,
    Program.step_flags L P2 pre.length m2 e d he2 hd2, if_neg hne]
  by_cases c3 : e = 1
  · right
    rw [if_pos c3, if_pos c3]
    split
    · exact ⟨rfl, hm⟩
    · exact ⟨rfl, hm⟩
  · rw [if_neg c3, if_neg c3]
    by_cases c4 : d = 0
    · right
      have c1 : ¬ (pre.length = P.S.length ∧ d ≠ 0) := fun h => h.2 c4
      rw [if_pos c4, if_pos c4, if_neg c1]
      exact Program.jump_related P P2 n pre suf text hS hS2 m m2 hm hp (by rw [hd, c4])
    · left
      rw [if_neg c4, hderef]
      rfl

/-- The forward step of the simulation: when the rounds at `it` and `it3` end in
the same way and the run on the store ends within `fuel + 1` rounds, the run on
the store with the comment line ends within `2 * fuel + 1` rounds. -/
theorem Program.loop_forward_step (L : Lib) (P P2 : Program) (n : Int) (k fuel : Nat)
    (ih : ∀ it it2 m m2, (Program.shifted k it it2 ∨ (it = k ∧ it2 = k)) → m.sameBut n m2 →
      m.pendingOk n → ∀ r, P.loop L fuel it m = some r →
      ∃ r2, P2.loop L (2 * fuel) it2 m2 = some r2 ∧ r.1 = r2.1 ∧ r.2.sameBut n r2.2)
    (it it3 : Nat) (m m3 : Machine)
    (hrel : Step.related n k (P.step L it m) (P2.step L it3 m3)) (r : Status × Machine)
    (hr : P.loop L (fuel + 1) it m = some r) :
    ∃ r2, P2.loop L (2 * fuel + 1) it3 m3 = some r2 ∧ r.1 = r2.1 ∧ r.2.sameBut n r2.2 := by
  unfold Program.loop at hr ⊢
  cases h1 : P.step L it m with
  | done s1 f1 =>
    cases h2 : P2.step L it3 m3 with
    | done s2 f2 =>
      rw [h1, h2] at hrel
      simp only [h1, Option.some.injEq] at hr
      rw [← hr]
      exact ⟨(s2, f2), rfl, hrel.1, hrel.2⟩
    | next i2 f2 =>
      rw [h1, h2] at hrel
      exact hrel.elim
  | next i1 f1 =>
    cases h2 : P2.step L it3 m3 with
    | done s2 f2 =>
      rw [h1, h2] at hrel
      exact hrel.elim
    | next i2 f2 =>
      rw [h1, h2] at hrel
      simp only [h1] at hr
      exact ih i1 i2 f1 f2 hrel.1 hrel.2.1 hrel.2.2 r hr

theorem Program.loop_forward (L : Lib) (P P2 : Program) (n : Int) (pre suf : List clause)
    (text : String) (hS : P.S = pre ++ suf) (hS2 : P2.S = pre ++ ⟨n, text, none⟩ :: suf)
    (hu : ∀ c ∈ P.S, c.userOnly = true) (hn : n ∉ P.targets) (fuel : Nat) :
    ∀ it it2 m m2, (Program.shifted pre.length it it2 ∨ (it = pre.length ∧ it2 = pre.length)) →
      m.sameBut n m2 → m.pendingOk n → ∀ r, P.loop L fuel it m = some r →
      ∃ r2, P2.loop L (2 * fuel) it2 m2 = some r2 ∧ r.1 = r2.1 ∧ r.2.sameBut n r2.2 := by
  induction fuel with
  | zero => intro it it2 m m2 _ _ _ r hr; simp [Program.loop] at hr
  | succ fuel ih =>
    intro it it2 m m2 hrel hm hp r hr
    rw [show 2 * (fuel + 1) = (2 * fuel + 1) + 1 by omega]
    rcases hrel with hsh | ⟨h1, h2⟩
    · obtain ⟨r2, hr2, h3⟩ := Program.loop_forward_step L P P2 n pre.length fuel ih it it2 m m2
        (Program.step_shifted L P P2 n pre suf text hS hS2 hu hn it it2 m m2 hsh hm hp) r hr
      exact ⟨r2, Program.loop_mono L P2 _ 1 it2 m2 r2 hr2, h3⟩
    · subst h1 h2
      rcases Program.step_comment L P P2 n pre suf text hS hS2 m m2 hm hp with hst | hrel2
      · have hsh : Program.shifted pre.length pre.length (pre.length + 1) :=
          Or.inr ⟨le_refl _, rfl⟩
        obtain ⟨r2, hr2, h3⟩ := Program.loop_forward_step L P P2 n pre.length fuel ih
          pre.length (pre.length + 1) m (m2.visit n)
          (Program.step_shifted L P P2 n pre suf text hS hS2 hu hn _ _ m (m2.visit n) hsh
            (Machine.sameBut_comment n m m2 hm) hp) r hr
        refine ⟨r2, ?_, h3⟩
        conv_lhs => unfold Program.loop
        simp only [hst]
        exact hr2
      · obtain ⟨r2, hr2, h3⟩ := Program.loop_forward_step L P P2 n pre.length fuel ih
          pre.length pre.length m m2 hrel2 r hr
        exact ⟨r2, Program.loop_mono L P2 _ 1 _ m2 r2 hr2, h3⟩

/-- The backward step of the simulation: when the rounds at `it` and `it3` end in
the same way and the run on the store with the comment line ends within
`fuel + 1` rounds, so does the run on the store. -/
theorem Program.loop_backward_step (L : Lib) (P P2 : Program) (n : Int) (k fuel : Nat)
    (ih : ∀ it it2 m m2, (Program.shifted k it it2 ∨ (it = k ∧ it2 = k)) → m.sameBut n m2 →
      m.pendingOk n → ∀ r2, P2.loop L fuel it2 m2 = some r2 →
      ∃ r, P.loop L fuel it m = some r ∧ r.1 = r2.1 ∧ r.2.sameBut n r2.2)
    (it it3 : Nat) (m m3 : Machine)
    (hrel : Step.related n k (P.step L it m) (P2.step L it3 m3)) (r2 : Status × Machine)
    (hr : P2.loop L (fuel + 1) it3 m3 = some r2) :
    ∃ r, P.loop L (fuel + 1) it m = some r ∧ r.1 = r2.1 ∧ r.2.sameBut n r2.2 := by
  unfold Program.loop at hr ⊢
  cases h1 : P.step L it m with
  | done s1 f1 =>
    cases h2 : P2.step L it3 m3 with
    | done s2 f2 =>
      rw [h1, h2] at hrel
      simp only [h2, Option.some.injEq] at hr
      rw [← hr]
      exact ⟨(s1, f1), rfl, hrel.1, hrel.2⟩
    | next i2 f2 =>
      rw [h1, h2] at hrel
      exact hrel.elim
  | next i1 f1 =>
    cases h2 : P2.step L it3 m3 with
    | done s2 f2 =>
      rw [h1, h2] at hrel
      exact hrel.elim
    | next i2 f2 =>
      rw [h1, h2] at hrel
      simp only [h2] at hr
      exact ih i1 i2 f1 f2 hrel.1 hrel.2.1 hrel.2.2 r2 hr

theorem Program.loop_backward (L : Lib) (P P2 : Program) (n : Int) (pre suf : List clause)
    (text : String) (hS : P.S = pre ++ suf) (hS2 : P2.S = pre ++ ⟨n, text, none⟩ :: suf)
    (hu : ∀ c ∈ P.S, c.userOnly = true) (hn : n ∉ P.targets) (fuel : Nat) :
    ∀ it it2 m m2, (Program.shifted pre.length it it2 ∨ (it = pre.length ∧ it2 = pre.length)) →
      m.sameBut n m2 → m.pendingOk n → ∀ r2, P2.loop L fuel it2 m2 = some r2 →
      ∃ r, P.loop L fuel it m = some r ∧ r.1 = r2.1 ∧ r.2.sameBut n r2.2 := by
  induction fuel with
  | zero => intro it it2 m m2 _ _ _ r2 hr; simp [Program.loop] at hr
  | succ fuel ih =>
    intro it it2 m m2 hrel hm hp r2 hr
    rcases hrel with hsh | ⟨h1, h2⟩
    · exact Program.loop_backward_step L P P2 n pre.length fuel ih it it2 m m2
        (Program.step_shifted L P P2 n pre suf text hS hS2 hu hn it it2 m m2 hsh hm hp) r2 hr
    · subst h1 h2
      rcases Program.step_comment L P P2 n pre suf text hS hS2 m m2 hm hp with hst | hrel2
      · have hsh : Program.shifted pre.length pre.length (pre.length + 1) :=
          Or.inr ⟨le_refl _, rfl⟩
        unfold Program.loop at hr
        simp only [hst] at hr
        obtain ⟨r, hr1, h3⟩ := ih pre.length (pre.length + 1) m (m2.visit n) (Or.inl hsh)
          (Machine.sameBut_comment n m m2 hm) hp r2 hr
        exact ⟨r, Program.loop_mono L P fuel 1 _ m r hr1, h3⟩
      · exact Program.loop_backward_step L P P2 n pre.length fuel ih pre.length pre.length
          m m2 hrel2 r2 hr

theorem Program.start_pendingOk (n : Int) (s : Machine) : (Program.start s).pendingOk n := by
  obtain ⟨⟨e, he, _⟩, ⟨d, hd, _⟩⟩ := Program.start_running s
  refine ⟨⟨e, he⟩, ⟨d, hd⟩, ?_⟩
  intro h0
  have h1 : (Program.start s).state.getValue "GOTO_DONE" = .ok 1 := by
    show ((s.state.setValue "GOTO_DONE" 1).setValue "PROGRAM_END_TAG" 0).getValue
      "GOTO_DONE" = .ok 1
    rw [EvalState.getValue_setValue_ne _ _ _ _ (by decide)]
    exact EvalState.getValue_setValue_same _ _ _
  rw [h1] at h0
  simp at h0

theorem Program.start_related (k : Nat) :
    Program.shifted k 0 0 ∨ ((0 : Nat) = k ∧ (0 : Nat) = k) := by
  by_cases h : 0 < k
  · exact Or.inl (Or.inl ⟨h, rfl⟩)
  · exact Or.inr ⟨by omega, by omega⟩

theorem Machine.sameBut_refl (n : Int) (m : Machine) : m.sameBut n m := ⟨rfl, rfl, rfl, rfl⟩

/-- Entering a comment line at a line number that is not stored yields the store
with that comment line. -/
theorem Program.calls_comment (L : Lib) (cs : List Call) (n : Int) (text : String)
    (hparse : getStatement L (L.setInput text).nextToken.2 = .ok none)
    (hn : n ∉ (Program.calls L Program.empty cs).lineNumbers) :
    Program.calls L Program.empty (cs ++ [.addSourceLine n text]) =
      (Program.calls L Program.empty cs).withComment n text := by
  have hfold : Program.calls L Program.empty (cs ++ [.addSourceLine n text]) =
      ((Program.calls L Program.empty cs).addSourceLine L n text).2 := by
    unfold Program.calls
    rw [List.foldl_append]
    rfl
  rw [hfold]
  generalize Program.calls L Program.empty cs = P at hn ⊢
  unfold Program.addSourceLine
  simp only [hparse]
  rw [if_pos ((set.find_eq_length_iff _ ⟨n, text, none⟩).2 hn)]
  rfl

/-! ## The claim on comment lines -/

/-- C21: a comment line is a no-op in `run`. Let `n` be a line number that is
not stored in `P` and is the target of no `GOTO` or `IF` of `P`. From every
machine, the run of `P` with a comment line at `n` and the run of `P` end alike:
when one ends, so does the other (the first within twice the rounds, the second
within the same rounds), with the same status, the same output and input left,
the same final state, and the same executed lines but for line `n`. This holds
for every store whose statements name no control flag, and so for every program
entered as text through a library that keeps the flags out of reach, where the
comment line is entered through `addSourceLine`. -/
theorem Program.run_comment_line :
    (∀ (L : Lib) (P : Program) (n : Int) (text : String) (s : Machine),
      (∀ c ∈ P.S, c.userOnly = true) → n ∉ P.lineNumbers → n ∉ P.targets →
      (∀ fuel r, P.run L fuel s = some r →
        ∃ r2, (P.withComment n text).run L (2 * fuel) s = some r2 ∧ r.1 = r2.1 ∧
          r.2.sameBut n r2.2) ∧
      (∀ fuel r2, (P.withComment n text).run L fuel s = some r2 →
        ∃ r, P.run L fuel s = some r ∧ r.1 = r2.1 ∧ r.2.sameBut n r2.2)) ∧
    (∀ (L : Lib) (cs : List Call) (n : Int) (text : String) (s : Machine), L.userWords →
      getStatement L (L.setInput text).nextToken.2 = .ok none →
      n ∉ (Program.calls L Program.empty cs).lineNumbers →
      n ∉ (Program.calls L Program.empty cs).targets →
      (∀ fuel r, (Program.calls L Program.empty cs).run L fuel s = some r →
        ∃ r2, (Program.calls L Program.empty (cs ++ [.addSourceLine n text])).run L
            (2 * fuel) s = some r2 ∧ r.1 = r2.1 ∧ r.2.sameBut n r2.2) ∧
      (∀ fuel r2,
        (Program.calls L Program.empty (cs ++ [.addSourceLine n text])).run L fuel s =
          some r2 →
        ∃ r, (Program.calls L Program.empty cs).run L fuel s = some r ∧ r.1 = r2.1 ∧
          r.2.sameBut n r2.2)) := by
  have main : ∀ (L : Lib) (P : Program) (n : Int) (text : String) (s : Machine),
      (∀ c ∈ P.S, c.userOnly = true) → n ∉ P.lineNumbers → n ∉ P.targets →
      (∀ fuel r, P.run L fuel s = some r →
        ∃ r2, (P.withComment n text).run L (2 * fuel) s = some r2 ∧ r.1 = r2.1 ∧
          r.2.sameBut n r2.2) ∧
      (∀ fuel r2, (P.withComment n text).run L fuel s = some r2 →
        ∃ r, P.run L fuel s = some r ∧ r.1 = r2.1 ∧ r.2.sameBut n r2.2) := by
    intro L P n text s hu hnl hnt
    obtain ⟨pre, suf, hS, hS2⟩ := set.insert_split P.S ⟨n, text, none⟩ hnl
    have hS3 : (P.withComment n text).S = pre ++ ⟨n, text, none⟩ :: suf := hS2
    constructor
    · intro fuel r hr
      exact Program.loop_forward L P (P.withComment n text) n pre suf text hS hS3 hu hnt fuel
        0 0 _ _ (Program.start_related pre.length) (Machine.sameBut_refl n _)
        (Program.start_pendingOk n s) r hr
    · intro fuel r2 hr
      exact Program.loop_backward L P (P.withComment n text) n pre suf text hS hS3 hu hnt fuel
        0 0 _ _ (Program.start_related pre.length) (Machine.sameBut_refl n _)
        (Program.start_pendingOk n s) r2 hr
  refine ⟨main, ?_⟩
  intro L cs n text s hL hparse hnl hnt
  have hu := Program.calls_userOnly L hL cs Program.empty (by simp [Program.empty])
  rw [Program.calls_comment L cs n text hparse hnl]
  exact main L (Program.calls L Program.empty cs) n text s hu hnl hnt

theorem Program.run_comment_line_witness :
    ((∀ c ∈ Program.gotoSkip.S, c.userOnly = true) ∧ (25 : Int) ∉ Program.gotoSkip.lineNumbers ∧
      (25 : Int) ∉ Program.gotoSkip.targets ∧
      Program.gotoSkip.run Lib.standard 6 Machine.fresh =
        some (.ok,
          ⟨[("GOTO_DONE", 1), ("PROGRAM_END_TAG", 1), ("X", 1), ("GOTO_TAG", 50)], [], "1\n",
            [10, 20, 30, 50]⟩)) ∧
    (∃ r2, (Program.gotoSkip.withComment 25 "25 REM skip").run Lib.standard (2 * 6)
        Machine.fresh = some r2 ∧ Status.ok = r2.1 ∧
      Machine.sameBut 25
        ⟨[("GOTO_DONE", 1), ("PROGRAM_END_TAG", 1), ("X", 1), ("GOTO_TAG", 50)], [], "1\n",
          [10, 20, 30, 50]⟩ r2.2) ∧
    (Lib.standard.userWords ∧
      getStatement Lib.standard (Lib.standard.setInput "25 REM skip").nextToken.2 = .ok none) ∧
    ∃ r2, (Program.calls Lib.standard Program.empty
        ([.addSourceLine 10 "10 LET X = 1", .addSourceLine 20 "20 PRINT X",
          .addSourceLine 30 "30 GOTO 50", .addSourceLine 40 "40 PRINT 999",
          .addSourceLine 50 "50 END"] ++ [.addSourceLine 25 "25 REM skip"])).run Lib.standard
        (2 * 6) Machine.fresh = some r2 ∧ Status.ok = r2.1 ∧
      Machine.sameBut 25
        ⟨[("GOTO_DONE", 1), ("PROGRAM_END_TAG", 1), ("X", 1), ("GOTO_TAG", 50)], [], "1\n",
          [10, 20, 30, 50]⟩ r2.2 :=
  ⟨⟨by decide, by decide, by decide, by decide⟩,
    (Program.run_comment_line.1 Lib.standard Program.gotoSkip 25 "25 REM skip" Machine.fresh
      (by decide) (by decide) (by decide)).1 6
      (.ok, ⟨[("GOTO_DONE", 1), ("PROGRAM_END_TAG", 1), ("X", 1), ("GOTO_TAG", 50)], [], "1\n",
        [10, 20, 30, 50]⟩) (by decide),
    ⟨Lib.standard_userWords, by decide⟩,
    (Program.run_comment_line.2 Lib.standard
      [.addSourceLine 10 "10 LET X = 1", .addSourceLine 20 "20 PRINT X",
        .addSourceLine 30 "30 GOTO 50", .addSourceLine 40 "40 PRINT 999",
        .addSourceLine 50 "50 END"] 25 "25 REM skip" Machine.fresh Lib.standard_userWords
      (by decide) (by decide) (by decide)).1 6
      (.ok, ⟨[("GOTO_DONE", 1), ("PROGRAM_END_TAG", 1), ("X", 1), ("GOTO_TAG", 50)], [], "1\n",
        [10, 20, 30, 50]⟩) (by decide)⟩

end Basic
